import Mathlib

/-! A verification development for `raycast.c`.

The program reads a scene (a JSON-like list of a camera, spheres and planes),
casts one ray per pixel and writes a P3 image.  This file embeds the scene
reader (`next_c`, `expect_c`, `skip_ws`, `next_string`, `next_number`,
`next_vector`, `read_scene`), the two intersection functions and the part of
`main` between the return of `read_scene` and the opening of the output file.

Conventions of the embedding.

* `double` arithmetic is read over an ordered field `α`.  The exact result of
  each operation of the source goes through the rounding `fl`, and `sqrt` is the
  library function; both are parameters of the functions that compute with
  doubles.  With `fl := id` and `Real.sqrt` the arithmetic is the one of the
  reals.  With `round_double` and `sqrt_double` over the rationals it is the
  one of IEEE doubles (each operation rounded to the nearest double, ties to
  even, no fused operation) as long as no operation overflows.
* An `int` is an integer with the wrap-around of `int32`.
* The input file is a list of bytes (`Nat`); the end of the list is `EOF`.
* `exit(1)` after a diagnostic is a value of `Err`; the text of the diagnostic
  and the `line` counter that only feeds that text are not modelled.
-/

namespace Raycast

/-! ## Vectors and the intersection functions -/

/-- A `double[3]`. -/
structure Vec3 (α : Type) where
  v0 : α
  v1 : α
  v2 : α
deriving DecidableEq, Repr

/-- The helper `sqr` (lines 52-54). -/
def sqr {α : Type} [Mul α] (fl : α → α) (v : α) : α := fl (v * v)

/-- The helper `normalize` (lines 57-62); the vector is updated in place in the
source, the updated vector is returned here. -/
def normalize {α : Type} [LinearOrderedField α] (fl sqrt : α → α) (v : Vec3 α) : Vec3 α :=
  let len := sqrt (fl (fl (sqr fl v.v0 + sqr fl v.v1) + sqr fl v.v2))
  ⟨fl (v.v0 / len), fl (v.v1 / len), fl (v.v2 / len)⟩

/-- The function `sphere_intersection` (lines 194-212).  The sums are taken from
left to right, as the source writes them, and `4 * a * c` is `(4 * a) * c`. -/
def sphere_intersection {α : Type} [LinearOrderedField α] (fl sqrt : α → α)
    (Ro Rd C : Vec3 α) (r : α) : α :=
  let a := fl (fl (sqr fl Rd.v0 + sqr fl Rd.v1) + sqr fl Rd.v2)
  let b := fl (2 * fl (fl (fl (Rd.v0 * fl (Ro.v0 - C.v0)) + fl (Rd.v1 * fl (Ro.v1 - C.v1)))
    + fl (Rd.v2 * fl (Ro.v2 - C.v2))))
  let c := fl (fl (fl (sqr fl (fl (Ro.v0 - C.v0)) + sqr fl (fl (Ro.v1 - C.v1)))
    + sqr fl (fl (Ro.v2 - C.v2))) - sqr fl r)
  let det := fl (sqr fl b - fl (fl (4 * a) * c))
  if det < 0 then -1
  else
    let det := sqrt det
    let t0 := fl (fl (-b - det) / fl (2 * a))
    if t0 > 0 then t0
    else
      let t1 := fl (fl (-b + det) / fl (2 * a))
      if t1 > 0 then t1
      else -1

/-- The function `plane_intersection` (lines 214-218).  Where the source divides
by zero (a ray parallel to the plane) the quotient here is `0`; the source gets
an infinity or a NaN, and both readings are rejected by the test `t > 0 && t <
best_t` of the pixel loop. -/
def plane_intersection {α : Type} [LinearOrderedField α] (fl : α → α) (Ro Rd P n : Vec3 α) : α :=
  let t := fl (-(fl (fl (fl (n.v0 * fl (Ro.v0 - P.v0)) + fl (n.v1 * fl (Ro.v1 - P.v1)))
              + fl (n.v2 * fl (Ro.v2 - P.v2))))
            / (fl (fl (fl (n.v0 * Rd.v0) + fl (n.v1 * Rd.v1)) + fl (n.v2 * Rd.v2))))
  t

/-- The squared distance from the centre `C` to the point `Ro + t * Rd`, minus
`r * r`, in exact arithmetic: the ray meets the sphere at parameter `t` exactly
when this is zero. -/
def sphereEq {α : Type} [LinearOrderedField α] (Ro Rd C : Vec3 α) (r t : α) : α :=
  (Ro.v0 + t * Rd.v0 - C.v0) * (Ro.v0 + t * Rd.v0 - C.v0)
    + (Ro.v1 + t * Rd.v1 - C.v1) * (Ro.v1 + t * Rd.v1 - C.v1)
    + (Ro.v2 + t * Rd.v2 - C.v2) * (Ro.v2 + t * Rd.v2 - C.v2) - r * r

/-- The coefficients `a`, `b`, `c` that `sphere_intersection` computes, in exact
arithmetic: `a` is `|Rd|^2`, `b` is `2 * Rd . (Ro - C)` and `c` is
`|Ro - C|^2 - r^2`. -/
def sphereA {α : Type} [LinearOrderedField α] (Rd : Vec3 α) : α :=
  Rd.v0 * Rd.v0 + Rd.v1 * Rd.v1 + Rd.v2 * Rd.v2

/-- See `sphereA`. -/
def sphereB {α : Type} [LinearOrderedField α] (Ro Rd C : Vec3 α) : α :=
  2 * (Rd.v0 * (Ro.v0 - C.v0) + Rd.v1 * (Ro.v1 - C.v1) + Rd.v2 * (Ro.v2 - C.v2))

/-- See `sphereA`. -/
def sphereC {α : Type} [LinearOrderedField α] (Ro C : Vec3 α) (r : α) : α :=
  (Ro.v0 - C.v0) * (Ro.v0 - C.v0) + (Ro.v1 - C.v1) * (Ro.v1 - C.v1)
    + (Ro.v2 - C.v2) * (Ro.v2 - C.v2) - r * r

/-! ## IEEE doubles

The rounding of a rational to the nearest `double` and the `sqrt` of the
library, for the evaluation of the functions above as the machine runs them.
The loops go by structural recursion so that closed terms evaluate. -/

/-- The power `2 ^ e` for an integer `e`. -/
def pow2 (e : Int) : ℚ :=
  if 0 ≤ e then ((2 ^ e.toNat : Nat) : ℚ) else 1 / ((2 ^ (-e).toNat : Nat) : ℚ)

/-- See `log2`; the first argument bounds the number of halvings. -/
def log2_loop : Nat → Nat → Nat
  | 0, _ => 0
  | fuel + 1, n => if n < 2 then 0 else log2_loop fuel (n / 2) + 1

/-- The integer part of the binary logarithm of `n ≥ 1`. -/
def log2 (n : Nat) : Nat := log2_loop n n

/-- The integer part of the binary logarithm of `|q|`, for `q ≠ 0`. -/
def ilog2 (q : ℚ) : Int :=
  let k : Int := (log2 q.num.natAbs : Int) - (log2 q.den : Int)
  if pow2 k ≤ |q| then k else k - 1

/-- The integer nearest to `x`, the even one of the two when `x` is half way. -/
def round_even (x : ℚ) : Int :=
  let f := Int.floor x
  let r := x - f
  if r < 1 / 2 then f else if 1 / 2 < r then f + 1 else if f % 2 = 0 then f else f + 1

/-- The `double` nearest to `q`, ties to even: a multiple of `2 ^ e` with a
significand of 53 bits, where `e` is at least `-1074` (the subnormal range).
The overflow to an infinity is not modelled. -/
def round_double (q : ℚ) : ℚ :=
  if q = 0 then 0
  else
    let e := max (ilog2 q - 52) (-1074)
    (round_even (q / pow2 e) : ℚ) * pow2 e

/-- See `isqrt`: the bisection of `[lo, hi)`, with `lo * lo ≤ n < hi * hi`. -/
def isqrt_loop (n : Nat) : Nat → Nat → Nat → Nat
  | 0, lo, _ => lo
  | fuel + 1, lo, hi =>
    if hi ≤ lo + 1 then lo
    else
      let mid := (lo + hi) / 2
      if mid * mid ≤ n then isqrt_loop n fuel mid hi else isqrt_loop n fuel lo mid

/-- The integer part of the square root of `n`. -/
def isqrt (n : Nat) : Nat := isqrt_loop n (log2 n + 2) 0 (n + 1)

/-- The library function `sqrt` on a `double` `q > 0` of the normal range: the
`double` nearest to the square root, as IEEE 754 requires.  The root is taken
of `q / 4 ^ e`, scaled so that its integer part `m` has 53 bits, and `m` or
`m + 1` is chosen by comparing with `(m + 1/2) ^ 2`.  The value is `0` for
`q ≤ 0`; the source takes the root of numbers that are not negative. -/
def sqrt_double (q : ℚ) : ℚ :=
  if q ≤ 0 then 0
  else
    let e := ilog2 q / 2 - 52
    let s := q / (pow2 e * pow2 e)
    let m := isqrt (Int.floor s).toNat
    let h := ((m : ℚ) + 1 / 2) * ((m : ℚ) + 1 / 2)
    let m1 := if s < h then m else if h < s then m + 1 else if m % 2 = 0 then m else m + 1
    (m1 : ℚ) * pow2 e

/-! ## Diagnostics -/

/-- The places where the program prints a diagnostic and calls `exit(1)`, and
the one place of `main` where a run can end without a diagnostic. -/
inductive Err where
  /-- From `next_c`: "Unexpected end of file". -/
  | unexpectedEof
  /-- From `expect_c`: "Expected 'd'". -/
  | expected (d : Nat)
  /-- From `next_string`: "Expected string". -/
  | expectedString
  /-- From `next_string`: "Strings longer than 128 characters in length are not supported". -/
  | stringTooLong
  /-- From `next_string`: "Strings with escape codes are not supported". -/
  | stringEscape
  /-- From `next_string`: "Strings may contain only ascii characters". -/
  | stringNotAscii
  /-- From `next_number`: "Could not read number". -/
  | badNumber
  /-- From `read_scene`: "This is the worst scene file EVER". -/
  | worstSceneFile
  /-- From `read_scene`: "Expected \"type\" key". -/
  | expectedTypeKey
  /-- From `read_scene`: "Unknown type". -/
  | unknownType
  /-- From `read_scene`: "Bad value count". -/
  | badValueCount
  /-- From `read_scene`: "Unexpected key". -/
  | unexpectedKey
  /-- From `read_scene`: "128 object count exceeded". -/
  | objectCountExceeded
  /-- From `read_scene`: "Unexpected value". -/
  | unexpectedValue
  /-- From `read_scene`: "Expecting ',' or ']'". -/
  | expectingCommaOrBracket
  /-- From `main`: "No camera found". -/
  | noCameraFound
  /-- From `main`: "Multiple cameras not supported". -/
  | multipleCameras
  /-- From `main`: "Programmer forgot to implement an intersection". -/
  | forgotIntersection
  /-- Not a diagnostic: a store outside the pixel buffer (lines 163-169), where
  the behaviour of the program is undefined; the usual target ends with a
  memory fault. -/
  | outsideBuffer
deriving DecidableEq, Repr

/-- Equality of the outcomes of a function that may exit is decidable. -/
instance instDecidableEqExcept {ε β : Type} [DecidableEq ε] [DecidableEq β] :
    DecidableEq (Except ε β)
  | .ok a, .ok b => if h : a = b then isTrue (by rw [h]) else isFalse (fun h1 => h (by cases h1; rfl))
  | .error a, .error b =>
    if h : a = b then isTrue (by rw [h]) else isFalse (fun h1 => h (by cases h1; rfl))
  | .ok _, .error _ => isFalse (fun h => by cases h)
  | .error _, .ok _ => isFalse (fun h => by cases h)

/-- The outcome of a loop that is run with fuel: a returned value, an `exit(1)`,
or the fuel used up before the loop was left. -/
inductive Res (β : Type) where
  | ok (v : β)
  | exit (e : Err)
  | fuel
deriving DecidableEq, Repr

/-! ## Scene objects -/

/-- The struct `Object` (lines 22-39).  `kind` is 0 for a camera, 1 for a sphere,
2 for a plane.  The anonymous union is six `double` slots `u0 .. u5`:
`camera.width`, `camera.height` are `u0`, `u1`; `sphere.position` is `u0 u1 u2`
and `sphere.radius` is `u3`; `plane.position` is `u0 u1 u2` and `plane.normal`
is `u3 u4 u5`. -/
structure Object (α : Type) where
  kind : Nat
  color : Vec3 α
  u0 : α
  u1 : α
  u2 : α
  u3 : α
  u4 : α
  u5 : α
deriving DecidableEq, Repr

/-- The member `camera.width`. -/
def Object.camera_width {α : Type} (o : Object α) : α := o.u0
/-- The member `camera.height`. -/
def Object.camera_height {α : Type} (o : Object α) : α := o.u1
/-- The member `sphere.position`. -/
def Object.sphere_position {α : Type} (o : Object α) : Vec3 α := ⟨o.u0, o.u1, o.u2⟩
/-- The member `sphere.radius`. -/
def Object.sphere_radius {α : Type} (o : Object α) : α := o.u3
/-- The member `plane.position`. -/
def Object.plane_position {α : Type} (o : Object α) : Vec3 α := ⟨o.u0, o.u1, o.u2⟩
/-- The member `plane.normal`. -/
def Object.plane_normal {α : Type} (o : Object α) : Vec3 α := ⟨o.u3, o.u4, o.u5⟩

/-! ## The pixel loop of `main` -/

/-- A `double` as the pixel loop compares it: a NaN, an infinity or a number.
`best_t` starts at `INFINITY`, and the comparisons below are the IEEE ones, so
the selection can be stated for every value a `double` may hold. -/
inductive FVal (α : Type) where
  | nan
  | ninf
  | fin (x : α)
  | pinf
deriving DecidableEq, Repr

/-- The comparison `s < t` of two `double`s: false as soon as one is a NaN. -/
def FVal.lt {α : Type} [LinearOrder α] : FVal α → FVal α → Bool
  | .fin x, .fin y => decide (x < y)
  | .ninf, .fin _ => true
  | .ninf, .pinf => true
  | .fin _, .pinf => true
  | _, _ => false

/-- The comparison `t != INFINITY`. -/
def FVal.neInfinity {α : Type} : FVal α → Bool
  | .pinf => false
  | _ => true

/-- The struct `Pixel` (lines 10-12): three `unsigned char`. -/
structure Pixel where
  red : Nat
  green : Nat
  blue : Nat
deriving DecidableEq, Repr

/-- The conversion `(char) v` followed by the store into an `unsigned char`
member: `v` is truncated toward zero and kept modulo 256.  When the truncated
value is not an `int` the conversion is undefined; the usual target converts
with `cvttsd2si`, which then gives `INT_MIN`, and the byte is 0. -/
def cast_char {α : Type} [LinearOrderedField α] [FloorRing α] (v : α) : Nat :=
  if -2147483649 < v ∧ v < 2147483648 then
    ((if 0 ≤ v then Int.floor v else Int.ceil v) % 256).toNat
  else 0

/-- Lines 154-157: the candidate `t` of object `i` replaces the best one when
`t > 0 && t < best_t`. -/
def select {α : Type} [LinearOrderedField α] (best : FVal α × Nat) (i : Nat) (t : FVal α) :
    FVal α × Nat :=
  if FVal.lt (.fin 0) t && FVal.lt t best.1 then (t, i) else best

/-- The reduction of lines 130-158 over the values `t` of the objects `i`,
`i + 1`, ... in the order of the store. -/
def reduce {α : Type} [LinearOrderedField α] :
    List (FVal α) → Nat → FVal α × Nat → FVal α × Nat
  | [], _, best => best
  | t :: ts, i, best => reduce ts (i + 1) (select best i t)

/-- The reduction as the pixel loop starts it: `best_t = INFINITY`, `best_i = 0`. -/
def nearest {α : Type} [LinearOrderedField α] (ts : List (FVal α)) : FVal α × Nat :=
  reduce ts 0 (.pinf, 0)

/-- The test of line 161, `best_t > 0 && best_t != INFINITY`. -/
def is_hit {α : Type} [LinearOrderedField α] (best_t : FVal α) : Bool :=
  FVal.lt (.fin 0) best_t && best_t.neInfinity

/-- A value that `best_t` can hold: `INFINITY` or a positive number. -/
def FVal.Good {α : Type} [LinearOrderedField α] (t : FVal α) : Prop :=
  t = .pinf ∨ ∃ x, t = .fin x ∧ 0 < x

/-- The switch of lines 136-153: the value `t` of one object for the ray. -/
def intersection {α : Type} [LinearOrderedField α] (fl sqrt : α → α) (Ro Rd : Vec3 α)
    (o : Object α) : Except Err (FVal α) :=
  if o.kind = 0 then .ok (.fin (-1))
  else if o.kind = 1 then
    .ok (.fin (sphere_intersection fl sqrt Ro Rd o.sphere_position o.sphere_radius))
  else if o.kind = 2 then
    .ok (.fin (plane_intersection fl Ro Rd o.plane_position o.plane_normal))
  else .error .forgotIntersection

/-- The loop of lines 133-158 from object `i` on. -/
def check_intersections {α : Type} [LinearOrderedField α] (fl sqrt : α → α) (Ro Rd : Vec3 α) :
    List (Object α) → Nat → FVal α × Nat → Except Err (FVal α × Nat)
  | [], _, best => .ok best
  | o :: os, i, best =>
    match intersection fl sqrt Ro Rd o with
    | .error e => .error e
    | .ok t => check_intersections fl sqrt Ro Rd os (i + 1) (select best i t)

/-- The vector of lines 123-127 before `normalize`, with `cx = cy = 0`;
`pixheight` and `pixwidth` are the quotients of lines 113-114. -/
def ray_target {α : Type} [LinearOrderedField α] (fl : α → α) (w h : α) (N M x y : Nat) :
    Vec3 α :=
  let cx : α := 0
  let cy : α := 0
  let pixheight := fl (h / (M : α))
  let pixwidth := fl (w / (N : α))
  ⟨fl (fl (cx - fl (w / 2)) + fl (pixwidth * fl ((x : α) + 1 / 2))),
   fl (fl (cy - fl (h / 2)) + fl (pixheight * fl ((y : α) + 1 / 2))), 1⟩

/-- Lines 161-171: the pixel stored for the result of the reduction.  A pixel
is `none` when its bytes are indeterminate: here for a read of
`objects[best_i]` past the end of the store, which a hit excludes because
`best_i` is then the index of an object. -/
def shade {α : Type} [LinearOrderedField α] [FloorRing α] (fl : α → α)
    (objects : List (Object α)) (best : FVal α × Nat) : Option Pixel :=
  if is_hit best.1 then
    match objects.get? best.2 with
    | some o => some ⟨cast_char (fl (o.color.v0 * 255)), cast_char (fl (o.color.v1 * 255)),
                      cast_char (fl (o.color.v2 * 255))⟩
    | none => none
  else some ⟨0, 0, 0⟩

/-- Lines 119-171 without the store into the buffer: the pixel of column `x` and
loop row `y`. -/
def pixel {α : Type} [LinearOrderedField α] [FloorRing α] (fl sqrt : α → α) (w h : α)
    (N M : Nat) (objects : List (Object α)) (x y : Nat) : Except Err (Option Pixel) :=
  let Ro : Vec3 α := ⟨0, 0, 0⟩
  let Rd := normalize fl sqrt (ray_target fl w h N M x y)
  match check_intersections fl sqrt Ro Rd objects 0 (.pinf, 0) with
  | .error e => .error e
  | .ok best => .ok (shade fl objects best)

/-- Lines 90-99: the scan for cameras, on the triple `(h, w, cam)`. -/
def find_camera {α : Type} : List (Object α) → α × α × Nat → α × α × Nat
  | [], s => s
  | o :: os, (h, w, cam) =>
    if o.kind = 0 then find_camera os (o.camera_height, o.camera_width, cam + 1)
    else find_camera os (h, w, cam)

/-- The values `M, M - 1, ..., 1` that `y` takes in the loop of line 116. -/
def countdown : Nat → List Nat
  | 0 => []
  | n + 1 => (n + 1) :: countdown n

/-- The value of an `int` expression whose mathematical value is `v`: kept when
it fits in 32 bits, wrapped around modulo `2 ^ 32` otherwise (the C standard
leaves the overflow undefined; wrapping is what the usual targets do). -/
def int32 (v : Int) : Int := (v + 2147483648) % 4294967296 - 2147483648

/-- The `int` expression `(M - y)*N + x` of line 160. -/
def buffer_index (N M y x : Int) : Int := int32 (int32 (int32 (M - y) * N) + x)

/-- The loop of line 118 over the columns `xs` of row `y`: each pixel is stored
at the index `p` of line 160, the `int` of `buffer_index`.  The buffer has the
`N * M` pixels that `malloc` was asked for; a store at an index outside of it
ends the run (`Err.outsideBuffer`). -/
def row_loop (f : Nat → Nat → Except Err (Option Pixel)) (N M y : Nat) :
    List Nat → List (Option Pixel) → Except Err (List (Option Pixel))
  | [], buffer => .ok buffer
  | x :: xs, buffer =>
    match f x y with
    | .error e => .error e
    | .ok p =>
      if 0 ≤ buffer_index N M y x ∧ buffer_index N M y x < (buffer.length : Int) then
        row_loop f N M y xs (buffer.set (buffer_index N M y x).toNat p)
      else .error .outsideBuffer

/-- The loop of line 116 over the rows `ys`. -/
def rows_loop (f : Nat → Nat → Except Err (Option Pixel)) (N M : Nat) :
    List Nat → List (Option Pixel) → Except Err (List (Option Pixel))
  | [], buffer => .ok buffer
  | y :: ys, buffer =>
    match row_loop f N M y (List.range N) buffer with
    | .error e => .error e
    | .ok buffer1 => rows_loop f N M ys buffer1

/-- The buffer after the first `n` pixels were stored: pixel `p` is `G p` for
`p < n`, and the other `L - n` ones are still indeterminate. -/
def filled (G : Nat → Option Pixel) (L n : Nat) : List (Option Pixel) :=
  (List.range n).map G ++ List.replicate (L - n) none

/-- The C expression `v = e`, given the old value of `v` and the value of `e`:
the new value of `v`, which is also the value of the expression. -/
def assign (_v e : Nat) : Nat := e

/-- Lines 83-174 of `main`: from the store that `read_scene` returned (the
entries before the `NULL`) to the filled pixel buffer.  `N` and `M` are positive
when control gets here (line 75).  `h0` and `w0` are the indeterminate values
that the locals `h` and `w` hold before the scan; the buffer that `malloc`
returns holds `N * M` indeterminate pixels.

Line 101 reads `if (cam = 0)`: see `assign`. -/
def main_render {α : Type} [LinearOrderedField α] [FloorRing α] (fl sqrt : α → α) (h0 w0 : α)
    (N M : Nat) (objects : List (Object α)) : Except Err (List (Option Pixel)) :=
  let s := find_camera objects (h0, w0, 0)
  let h := s.1
  let w := s.2.1
  let cam := assign s.2.2 0
  if cam ≠ 0 then .error .noCameraFound
  else if cam > 1 then .error .multipleCameras
  else rows_loop (pixel fl sqrt w h N M objects) N M (countdown M) (List.replicate (N * M) none)

/-! ## The lexer -/

/-- The function `next_c` (lines 233-246): the next byte, or the exit at the end
of the input. -/
def next_c : List Nat → Except Err (Nat × List Nat)
  | [] => .error .unexpectedEof
  | c :: rest => .ok (c, rest)

/-- The function `expect_c` (lines 251-256). -/
def expect_c (d : Nat) (json : List Nat) : Except Err (List Nat) :=
  match next_c json with
  | .error e => .error e
  | .ok (c, rest) => if c = d then .ok rest else .error (.expected d)

/-- The library function `isspace` in the "C" locale: space, `\t`, `\n`, `\v`,
`\f`, `\r`. -/
def isspace (c : Nat) : Bool :=
  c == 32 || c == 9 || c == 10 || c == 11 || c == 12 || c == 13

/-- The function `skip_ws` (lines 260-266): the bytes read are dropped and the
first byte that is not white space is pushed back. -/
def skip_ws : List Nat → Except Err (List Nat)
  | [] => .error .unexpectedEof
  | c :: rest => if isspace c then skip_ws rest else .ok (c :: rest)

/-- The loop of `next_string` (lines 280-296) with `c` the head of the input;
`buffer` holds the `i` bytes stored so far, so `i` is its length. -/
def next_string_loop : List Nat → List Nat → Except Err (List Nat × List Nat)
  | [], _ => .error .unexpectedEof
  | c :: rest, buffer =>
    if c = 34 then .ok (buffer, rest)
    else if buffer.length ≥ 128 then .error .stringTooLong
    else if c = 92 then .error .stringEscape
    else if c < 32 ∨ c > 126 then .error .stringNotAscii
    else next_string_loop rest (buffer ++ [c])

/-- The function `next_string` (lines 271-299); 34 is the double quote and 92
the backslash. -/
def next_string (json : List Nat) : Except Err (List Nat × List Nat) :=
  match next_c json with
  | .error e => .error e
  | .ok (c, rest) => if c ≠ 34 then .error .expectedString else next_string_loop rest []

/-- A byte that `next_string` accepts inside a string: printable ASCII (32 to
126) other than the backslash and the double quote. -/
def string_byte (c : Nat) : Prop := 32 ≤ c ∧ c ≤ 126 ∧ c ≠ 92 ∧ c ≠ 34

/-- The three exits of `next_string` for the content of a string. -/
def string_error (e : Err) : Prop :=
  e = .stringTooLong ∨ e = .stringEscape ∨ e = .stringNotAscii

/-- The function `next_number` (lines 301-309).  `scan` stands for the library
call `fscanf(json, "%lf", &value)`: it gives the value and the input left when
one number was converted, and `none` otherwise. -/
def next_number {α : Type} (scan : List Nat → Option (α × List Nat)) (json : List Nat) :
    Except Err (α × List Nat) :=
  match scan json with
  | some r => .ok r
  | none => .error .badNumber

/-- The function `next_vector` (lines 311-327); 91 is `[`, 44 is `,`, 93 is `]`. -/
def next_vector {α : Type} (scan : List Nat → Option (α × List Nat)) (json : List Nat) :
    Except Err (Vec3 α × List Nat) := do
  let json ← expect_c 91 json
  let json ← skip_ws json
  let (a, json) ← next_number scan json
  let json ← skip_ws json
  let json ← expect_c 44 json
  let json ← skip_ws json
  let (b, json) ← next_number scan json
  let json ← skip_ws json
  let json ← expect_c 44 json
  let json ← skip_ws json
  let (c, json) ← next_number scan json
  let json ← skip_ws json
  let json ← expect_c 93 json
  return (⟨a, b, c⟩, json)

/-! ## The scene reader -/

/-- The bytes of `"type"`. -/
def str_type : List Nat := [116, 121, 112, 101]
/-- The bytes of `"camera"`. -/
def str_camera : List Nat := [99, 97, 109, 101, 114, 97]
/-- The bytes of `"sphere"`. -/
def str_sphere : List Nat := [115, 112, 104, 101, 114, 101]
/-- The bytes of `"plane"`. -/
def str_plane : List Nat := [112, 108, 97, 110, 101]
/-- The bytes of `"width"`. -/
def str_width : List Nat := [119, 105, 100, 116, 104]
/-- The bytes of `"height"`. -/
def str_height : List Nat := [104, 101, 105, 103, 104, 116]
/-- The bytes of `"radius"`. -/
def str_radius : List Nat := [114, 97, 100, 105, 117, 115]
/-- The bytes of `"color"`. -/
def str_color : List Nat := [99, 111, 108, 111, 114]
/-- The bytes of `"position"`. -/
def str_position : List Nat := [112, 111, 115, 105, 116, 105, 111, 110]
/-- The bytes of `"normal"`. -/
def str_normal : List Nat := [110, 111, 114, 109, 97, 108]

/-- Lines 360-390 of `read_scene`, after the `{` of an entry: the `"type"` key,
the colon, the type string and the kind it selects; 58 is the colon. -/
def read_type (json : List Nat) : Except Err (Nat × List Nat) := do
  let json ← skip_ws json
  let (key, json) ← next_string json
  if key ≠ str_type then throw .expectedTypeKey
  let json ← skip_ws json
  let json ← expect_c 58 json
  let json ← skip_ws json
  let (value, json) ← next_string json
  let kind ← (if value = str_camera then pure 0
    else if value = str_sphere then pure 1
    else if value = str_plane then pure 2
    else throw .unknownType : Except Err Nat)
  let json ← skip_ws json
  return (kind, json)

/-- Lines 440-521 of `read_scene`: the value of the key `key` is read and stored
in the object under construction.  For a key that is none of the six names the
source prints "Unknown property" and reads nothing. -/
def read_value {α : Type} (scan : List Nat → Option (α × List Nat)) (obj : Object α)
    (key : List Nat) (json : List Nat) : Except Err (Object α × List Nat) :=
  if key = str_width then do
    let (value, json) ← next_number scan json
    if obj.kind = 0 then return ({ obj with u0 := value }, json)
    else throw .unexpectedKey
  else if key = str_height then do
    let (value, json) ← next_number scan json
    if obj.kind = 0 then return ({ obj with u1 := value }, json)
    else throw .unexpectedKey
  else if key = str_radius then do
    let (value, json) ← next_number scan json
    if obj.kind = 1 then return ({ obj with u3 := value }, json)
    else throw .unexpectedKey
  else if key = str_color then do
    let (value, json) ← next_vector scan json
    if obj.kind = 0 then throw .unexpectedKey
    else return ({ obj with color := value }, json)
  else if key = str_position then do
    let (value, json) ← next_vector scan json
    if obj.kind = 1 then return ({ obj with u0 := value.v0, u1 := value.v1, u2 := value.v2 }, json)
    else if obj.kind = 2 then
      return ({ obj with u0 := value.v0, u1 := value.v1, u2 := value.v2 }, json)
    else throw .unexpectedKey
  else if key = str_normal then do
    let (value, json) ← next_vector scan json
    if obj.kind = 2 then return ({ obj with u3 := value.v0, u4 := value.v1, u5 := value.v2 }, json)
    else throw .unexpectedKey
  else return (obj, json)

/-- Lines 432-523 of `read_scene`, after the `,` that announces a field: key,
colon, value, and the white space after it. -/
def read_pair {α : Type} (scan : List Nat → Option (α × List Nat)) (obj : Object α)
    (json : List Nat) : Except Err (Object α × List Nat) := do
  let json ← skip_ws json
  let (key, json) ← next_string json
  let json ← skip_ws json
  let json ← expect_c 58 json
  let json ← skip_ws json
  let (obj, json) ← read_value scan obj key json
  let json ← skip_ws json
  return (obj, json)

/-- The switch of lines 398-421, at the `}` of an entry. -/
def check_valcnt (kind valcnt : Nat) : Except Err Unit :=
  if kind = 0 then (if valcnt ≠ 2 then .error .badValueCount else .ok ())
  else if kind = 1 then (if valcnt ≠ 3 then .error .badValueCount else .ok ())
  else if kind = 2 then (if valcnt ≠ 3 then .error .badValueCount else .ok ())
  else .error .unexpectedKey

/-- The inner loop of `read_scene` (lines 393-528); 125 is `}` and 44 is `,`.
The result is the object as it stands at the `}` and the input after it. -/
def read_fields {α : Type} (scan : List Nat → Option (α × List Nat)) :
    Nat → Object α → Nat → List Nat → Res (Object α × List Nat)
  | 0, _, _, _ => .fuel
  | fuel + 1, obj, valcnt, json =>
    match next_c json with
    | .error e => .exit e
    | .ok (c, json) =>
      if c = 125 then
        match check_valcnt obj.kind valcnt with
        | .error e => .exit e
        | .ok _ => .ok (obj, json)
      else if c = 44 then
        match read_pair scan obj json with
        | .error e => .exit e
        | .ok (obj, json) => read_fields scan fuel obj (valcnt + 1) json
      else .exit .unexpectedValue

/-- Lines 529-541 of `read_scene`, after an entry: `none` to go on with the next
entry, `some ()` at the `]` that ends the list. -/
def read_separator (json : List Nat) : Except Err (Option Unit × List Nat) := do
  let json ← skip_ws json
  let (c, json) ← next_c json
  if c = 44 then
    let json ← skip_ws json
    return (none, json)
  else if c = 93 then return (some (), json)
  else throw .expectingCommaOrBracket

/-- The outer loop of `read_scene` (lines 352-544).  `objects` holds the
entries `objects[0 .. objcnt-1]` already closed, so `objcnt` is its length;
`fresh i` is the indeterminate content of the block that `malloc` returns for
entry `i`.  The byte read by `fgetc` at line 353 is the head of `json`; at the
end of the input `fgetc` returns `EOF`, neither test matches and the loop goes
round again.  The value returned is the written part of the store: the entries
and the `NULL` after them. -/
def read_objects {α : Type} (scan : List Nat → Option (α × List Nat)) (fresh : Nat → Object α) :
    Nat → List (Object α) → List Nat → Res (List (Option (Object α)))
  | 0, _, _ => .fuel
  | fuel + 1, objects, [] => read_objects scan fresh fuel objects []
  | fuel + 1, objects, c :: json =>
    if c = 93 then .exit .worstSceneFile
    else if c = 123 then
      match read_type json with
      | .error e => .exit e
      | .ok (kind, json) =>
        match read_fields scan fuel { fresh objects.length with kind := kind } 0 json with
        | .fuel => .fuel
        | .exit e => .exit e
        | .ok (obj, json) =>
          if objects.length + 1 > 128 then .exit .objectCountExceeded
          else
            match read_separator json with
            | .error e => .exit e
            | .ok (none, json) => read_objects scan fresh fuel (objects ++ [obj]) json
            | .ok (some _, _) => .ok ((objects ++ [obj]).map some ++ [none])
    else read_objects scan fresh fuel objects json

/-- The function `read_scene` (lines 330-548) on the content `json` of the
file, run with `fuel` rounds for its loops. -/
def read_scene {α : Type} (scan : List Nat → Option (α × List Nat)) (fresh : Nat → Object α)
    (fuel : Nat) (json : List Nat) : Res (List (Option (Object α))) :=
  match skip_ws json with
  | .error e => .exit e
  | .ok json =>
    match expect_c 91 json with
    | .error e => .exit e
    | .ok json =>
      match skip_ws json with
      | .error e => .exit e
      | .ok json => read_objects scan fresh fuel [] json

/-! ## Concrete inputs -/

/-- The bytes of a text. -/
def bytes (s : String) : List Nat := s.toList.map Char.toNat

/-- The decimal digits at the head of the input: their value after the digits
`acc` already read, how many were read, and the input left. -/
def scan_digits : List Nat → Nat → Nat → Nat × Nat × List Nat
  | [], acc, n => (acc, n, [])
  | c :: rest, acc, n =>
    if 48 ≤ c ∧ c ≤ 57 then scan_digits rest (10 * acc + (c - 48)) (n + 1)
    else (acc, n, c :: rest)

/-- A scanner for the concrete evaluations, after the conversion `%lf` of the C
library on plain decimal numbers: white space is skipped, then an optional
sign, digits, and an optional `.` with digits are converted.  Exponents,
hexadecimal numbers, infinities and NaNs are not recognised. -/
def scan_decimal (json : List Nat) : Option (ℚ × List Nat) :=
  let json := json.dropWhile isspace
  let neg : Bool := json.head? = some 45
  let json := if json.head? = some 45 ∨ json.head? = some 43 then json.tail else json
  let ip := scan_digits json 0 0
  let fp := if ip.2.2.head? = some 46 then scan_digits ip.2.2.tail 0 0 else (0, 0, ip.2.2)
  if ip.2.1 + fp.2.1 = 0 then none
  else
    let v : ℚ := (ip.1 : ℚ) + (fp.1 : ℚ) / (10 : ℚ) ^ fp.2.1
    some (if neg then -v else v, fp.2.2)

/-- An object whose bytes are all zero, for the concrete evaluations. -/
def blank : Nat → Object ℚ := fun _ => ⟨0, ⟨0, 0, 0⟩, 0, 0, 0, 0, 0, 0⟩

/-! ## Well-formed scene texts

The texts that the grammar of the scene format describes, with the white space
that may stand between two tokens, and the object that each entry declares. -/

/-- White space: bytes that `isspace` accepts. -/
def white (w : List Nat) : Prop := ∀ c, c ∈ w → isspace c = true

/-- What follows a number in a scene: white space, `,`, `]` or `}`. -/
def number_end (rest : List Nat) : Prop :=
  ∃ d t, rest = d :: t ∧ (isspace d = true ∨ d = 44 ∨ d = 93 ∨ d = 125)

/-- The bytes `text` are a number of value `value` for the conversion `scan`:
they do not begin with white space and, whatever follows them in a scene,
`scan` converts them to `value` and leaves what follows. -/
def number_token {α : Type} (scan : List Nat → Option (α × List Nat)) (text : List Nat)
    (value : α) : Prop :=
  (∃ c t, text = c :: t ∧ isspace c = false) ∧
  ∀ rest, number_end rest → scan (text ++ rest) = some (value, rest)

/-- A number as written in a scene, and its value. -/
structure NumLit (α : Type) where
  text : List Nat
  value : α

/-- A vector as written in a scene: `[ a , b , c ]` with white space `w1 .. w6`
after the bracket, around the commas and before the closing bracket. -/
structure VecLit (α : Type) where
  a : NumLit α
  b : NumLit α
  c : NumLit α
  w1 : List Nat
  w2 : List Nat
  w3 : List Nat
  w4 : List Nat
  w5 : List Nat
  w6 : List Nat

/-- The value of a written vector. -/
def VecLit.value {α : Type} (v : VecLit α) : Vec3 α := ⟨v.a.value, v.b.value, v.c.value⟩

/-- The text of a written vector, followed by `rest`. -/
def VecLit.text {α : Type} (v : VecLit α) (rest : List Nat) : List Nat :=
  91 :: (v.w1 ++ (v.a.text ++ (v.w2 ++ 44 :: (v.w3 ++ (v.b.text ++ (v.w4 ++ 44 :: (v.w5 ++
    (v.c.text ++ (v.w6 ++ 93 :: rest)))))))))

/-- Every number of the vector is a number for `scan`, and the white space is
white space. -/
def VecLit.wf {α : Type} (scan : List Nat → Option (α × List Nat)) (v : VecLit α) : Prop :=
  number_token scan v.a.text v.a.value ∧ number_token scan v.b.text v.b.value ∧
  number_token scan v.c.text v.c.value ∧
  white v.w1 ∧ white v.w2 ∧ white v.w3 ∧ white v.w4 ∧ white v.w5 ∧ white v.w6

/-- A field of an entry: one of the six keys with a value of its type. -/
inductive Value (α : Type) where
  | width (n : NumLit α)
  | height (n : NumLit α)
  | radius (n : NumLit α)
  | color (v : VecLit α)
  | position (v : VecLit α)
  | normal (v : VecLit α)

/-- The key of a field. -/
def Value.key {α : Type} : Value α → List Nat
  | .width _ => str_width
  | .height _ => str_height
  | .radius _ => str_radius
  | .color _ => str_color
  | .position _ => str_position
  | .normal _ => str_normal

/-- The text of the value of a field, followed by `rest`. -/
def Value.text {α : Type} : Value α → List Nat → List Nat
  | .width n, rest => n.text ++ rest
  | .height n, rest => n.text ++ rest
  | .radius n, rest => n.text ++ rest
  | .color v, rest => v.text rest
  | .position v, rest => v.text rest
  | .normal v, rest => v.text rest

/-- The value of a field is made of numbers for `scan`. -/
def Value.wf {α : Type} (scan : List Nat → Option (α × List Nat)) : Value α → Prop
  | .width n => number_token scan n.text n.value
  | .height n => number_token scan n.text n.value
  | .radius n => number_token scan n.text n.value
  | .color v => v.wf scan
  | .position v => v.wf scan
  | .normal v => v.wf scan

/-- The object `o` holds the declared value of the field. -/
def Value.holds {α : Type} : Value α → Object α → Prop
  | .width n, o => o.camera_width = n.value
  | .height n, o => o.camera_height = n.value
  | .radius n, o => o.sphere_radius = n.value
  | .color v, o => o.color = v.value
  | .position v, o => o.sphere_position = v.value ∧ o.plane_position = v.value
  | .normal v, o => o.plane_normal = v.value

/-- The object `o` with the declared value of the field stored in it. -/
def Value.store {α : Type} : Value α → Object α → Object α
  | .width n, o => { o with u0 := n.value }
  | .height n, o => { o with u1 := n.value }
  | .radius n, o => { o with u3 := n.value }
  | .color v, o => { o with color := v.value }
  | .position v, o => { o with u0 := v.a.value, u1 := v.b.value, u2 := v.c.value }
  | .normal v, o => { o with u3 := v.a.value, u4 := v.b.value, u5 := v.c.value }

/-- The keys that the data model requires for each kind. -/
def required : Nat → List (List Nat)
  | 0 => [str_width, str_height]
  | 1 => [str_color, str_position, str_radius]
  | 2 => [str_color, str_position, str_normal]
  | _ => []

/-- The name of a kind, as the `"type"` value gives it. -/
def kind_name : Nat → List Nat
  | 0 => str_camera
  | 1 => str_sphere
  | _ => str_plane

/-- A field as written in an entry: `, "key" : value` with white space `w1`
after the comma, `w2` before the colon, `w3` after it and `w4` after the value. -/
structure Field (α : Type) where
  value : Value α
  w1 : List Nat
  w2 : List Nat
  w3 : List Nat
  w4 : List Nat

/-- The text of a written field, followed by `rest`; 34 is the double quote. -/
def Field.text {α : Type} (f : Field α) (rest : List Nat) : List Nat :=
  44 :: (f.w1 ++ 34 :: (f.value.key ++ 34 :: (f.w2 ++ 58 :: (f.w3 ++ f.value.text
    (f.w4 ++ rest)))))

/-- The field is well formed for `scan`. -/
def Field.wf {α : Type} (scan : List Nat → Option (α × List Nat)) (f : Field α) : Prop :=
  f.value.wf scan ∧ white f.w1 ∧ white f.w2 ∧ white f.w3 ∧ white f.w4

/-- The text of the fields of an entry and of its closing brace, followed by
`rest`. -/
def fields_text {α : Type} : List (Field α) → List Nat → List Nat
  | [], rest => 125 :: rest
  | f :: fs, rest => f.text (fields_text fs rest)

/-- An entry as written in a scene: `{ "type" : "kind" fields }` with white
space `w1` after the brace, `w2` before the colon, `w3` after it, `w4` after the
type, `w5` after the closing brace, and `w6` after the comma that follows the
entry when it is not the last one. -/
structure Entry (α : Type) where
  kind : Nat
  fields : List (Field α)
  w1 : List Nat
  w2 : List Nat
  w3 : List Nat
  w4 : List Nat
  w5 : List Nat
  w6 : List Nat

/-- The text of a written entry after its `{`, followed by `rest`. -/
def Entry.body {α : Type} (e : Entry α) (rest : List Nat) : List Nat :=
  e.w1 ++ 34 :: (str_type ++ 34 :: (e.w2 ++ 58 :: (e.w3 ++ 34 :: (kind_name e.kind ++
    34 :: (e.w4 ++ fields_text e.fields (e.w5 ++ rest))))))

/-- The text of a written entry, followed by `rest`; 123 is `{`. -/
def Entry.text {α : Type} (e : Entry α) (rest : List Nat) : List Nat :=
  123 :: e.body rest

/-- The entry is well formed for `scan`: its kind is one of the three, its
fields are well formed and their keys are the required keys of the kind, each
one once, in any order. -/
def Entry.wf {α : Type} (scan : List Nat → Option (α × List Nat)) (e : Entry α) : Prop :=
  e.kind ≤ 2 ∧ (∀ f, f ∈ e.fields → f.wf scan) ∧
  (e.fields.map (fun f => f.value.key)).Perm (required e.kind) ∧
  white e.w1 ∧ white e.w2 ∧ white e.w3 ∧ white e.w4 ∧ white e.w5 ∧ white e.w6

/-- The object that an entry declares, built in the block `o`. -/
def Entry.object {α : Type} (e : Entry α) (o : Object α) : Object α :=
  e.fields.foldl (fun o f => f.value.store o) { o with kind := e.kind }

/-- The text of the entries `e, es` of a scene, separated by commas and closed by
`]`, followed by `rest`. -/
def entries_text {α : Type} : Entry α → List (Entry α) → List Nat → List Nat
  | e, [], rest => e.text (93 :: rest)
  | e, e1 :: es, rest => e.text (44 :: (e.w6 ++ entries_text e1 es rest))

/-- The text of a scene with the entries `e, es`: white space `w0`, `[`, white
space `w1`, the entries and `]`, followed by `rest`. -/
def scene_text {α : Type} (w0 w1 : List Nat) (e : Entry α) (es : List (Entry α))
    (rest : List Nat) : List Nat :=
  w0 ++ 91 :: (w1 ++ entries_text e es rest)

/-- The objects that the entries declare, the first one in the block
`fresh i`. -/
def objects_of {α : Type} (fresh : Nat → Object α) : Nat → List (Entry α) → List (Object α)
  | _, [] => []
  | i, e :: es => e.object (fresh i) :: objects_of fresh (i + 1) es

/-- A one-digit number as written in a scene. -/
def digit (d : Nat) : NumLit ℚ := ⟨[48 + d], (d : ℚ)⟩

/-- A vector of one-digit numbers, written without white space. -/
def digits (a b c : Nat) : VecLit ℚ := ⟨digit a, digit b, digit c, [], [], [], [], [], []⟩

/-- The entry `{"type":"camera","width":1, "height" : 2}`, followed by a space
before and after the comma that separates it from the next entry. -/
def example_camera : Entry ℚ :=
  { kind := 0
    fields := [⟨.width (digit 1), [], [], [], []⟩, ⟨.height (digit 2), [32], [32], [32], []⟩]
    w1 := [], w2 := [], w3 := [], w4 := [], w5 := [32], w6 := [32] }

/-- The entry `{"type":"sphere","radius":1,"color":[1,0,0],"position":[0,0,5]}`,
followed by a line feed. -/
def example_sphere : Entry ℚ :=
  { kind := 1
    fields := [⟨.radius (digit 1), [], [], [], []⟩, ⟨.color (digits 1 0 0), [], [], [], []⟩,
      ⟨.position (digits 0 0 5), [], [], [], []⟩]
    w1 := [], w2 := [], w3 := [], w4 := [], w5 := [10], w6 := [] }

/-! ## Definitions for the plane and the store -/

/-- The left-hand side `n . (Ro + t * Rd - P)` of the equation of the plane
through `P` with normal `n`, at the point of parameter `t` of the ray. -/
def planeEq {α : Type} [LinearOrderedField α] (Ro Rd P n : Vec3 α) (t : α) : α :=
  n.v0 * (Ro.v0 + t * Rd.v0 - P.v0) + n.v1 * (Ro.v1 + t * Rd.v1 - P.v1)
    + n.v2 * (Ro.v2 + t * Rd.v2 - P.v2)

/-- A block whose members all hold 7 and whose kind holds 9: a content that no
scene of the evaluations below supplies. -/
def garbage : Nat → Object ℚ := fun _ => ⟨9, ⟨7, 7, 7⟩, 7, 7, 7, 7, 7, 7⟩

/-- The text of the fields `fs`, followed by `tail`. -/
def fields_upto {α : Type} : List (Field α) → List Nat → List Nat
  | [], tail => tail
  | f :: fs, tail => f.text (fields_upto fs tail)

/-- The text of the entries `es`, each followed by a comma, and then `tail`. -/
def entries_upto {α : Type} : List (Entry α) → List Nat → List Nat
  | [], tail => tail
  | e :: es, tail => e.text (44 :: (e.w6 ++ entries_upto es tail))

/-- The beginning of a scene: white space `w0`, `[`, white space `w1` and the
entries that come before the one under consideration. -/
structure Context (α : Type) where
  w0 : List Nat
  w1 : List Nat
  entries : List (Entry α)

/-- The text of the beginning of a scene, followed by `tail`. -/
def Context.text {α : Type} (c : Context α) (tail : List Nat) : List Nat :=
  c.w0 ++ 91 :: (c.w1 ++ entries_upto c.entries tail)

/-- The entries of the context are well formed and leave room in the store. -/
def Context.wf {α : Type} (scan : List Nat → Option (α × List Nat)) (c : Context α) : Prop :=
  white c.w0 ∧ white c.w1 ∧ (∀ e, e ∈ c.entries → e.wf scan) ∧ c.entries.length ≤ 128

/-- The beginning of an entry: `{ "type" : "kind"` and some fields, with white
space `w1 .. w4` as in `Entry`. -/
structure Opening (α : Type) where
  kind : Nat
  fields : List (Field α)
  w1 : List Nat
  w2 : List Nat
  w3 : List Nat
  w4 : List Nat

/-- The text of the beginning of an entry after its `{`, followed by `tail`. -/
def Opening.body {α : Type} (o : Opening α) (tail : List Nat) : List Nat :=
  o.w1 ++ 34 :: (str_type ++ 34 :: (o.w2 ++ 58 :: (o.w3 ++ 34 :: (kind_name o.kind ++
    34 :: (o.w4 ++ fields_upto o.fields tail)))))

/-- The text of the beginning of an entry, followed by `tail`. -/
def Opening.text {α : Type} (o : Opening α) (tail : List Nat) : List Nat :=
  123 :: o.body tail

/-- The kind is one of the three, and the fields are well formed with keys that
the kind permits; the keys may be repeated and need not be complete. -/
def Opening.wf {α : Type} (scan : List Nat → Option (α × List Nat)) (o : Opening α) : Prop :=
  o.kind ≤ 2 ∧ (∀ f, f ∈ o.fields → f.wf scan ∧ f.value.key ∈ required o.kind) ∧
  white o.w1 ∧ white o.w2 ∧ white o.w3 ∧ white o.w4

/-- The object under construction after the fields of the opening, in the
block `blk`. -/
def Opening.object {α : Type} (o : Opening α) (blk : Object α) : Object α :=
  o.fields.foldl (fun obj f => f.value.store obj) { blk with kind := o.kind }

/-- The indices of the slots of the array `objects` that the outer loop of
`read_scene` writes, in the order of the writes: `objects[objcnt] = malloc(..)`
at lines 377, 380 and 383, and `objects[objcnt] = NULL` at line 535.  The
control flow is the one of `read_objects`. -/
def store_writes {α : Type} (scan : List Nat → Option (α × List Nat)) (fresh : Nat → Object α) :
    Nat → List (Object α) → List Nat → List Nat
  | 0, _, _ => []
  | fuel + 1, objects, [] => store_writes scan fresh fuel objects []
  | fuel + 1, objects, c :: json =>
    if c = 93 then []
    else if c = 123 then
      match read_type json with
      | .error _ => []
      | .ok (kind, json) =>
        objects.length ::
          match read_fields scan fuel { fresh objects.length with kind := kind } 0 json with
          | .fuel => []
          | .exit _ => []
          | .ok (obj, json) =>
            if objects.length + 1 > 128 then []
            else
              match read_separator json with
              | .error _ => []
              | .ok (none, json) => store_writes scan fresh fuel (objects ++ [obj]) json
              | .ok (some _, _) => [objects.length + 1]
    else store_writes scan fresh fuel objects json

/-- The beginning `[ ` of a scene, before its first entry. -/
def first_entry : Context ℚ := ⟨[], [32], []⟩

/-- The beginning `{"type":"camera","width":1` of an entry. -/
def camera_one_field : Opening ℚ :=
  ⟨0, [⟨.width (digit 1), [], [], [], []⟩], [], [], [], []⟩

/-- The beginning `{"type":"camera","width":1,"width":2` of an entry. -/
def camera_two_widths : Opening ℚ :=
  ⟨0, [⟨.width (digit 1), [], [], [], []⟩, ⟨.width (digit 2), [], [], [], []⟩], [], [], [], []⟩

/-- The field `,"height":2`. -/
def height_two : Field ℚ := ⟨.height (digit 2), [], [], [], []⟩

/-- The beginning `{"type":"sphere"` of an entry. -/
def sphere_opening : Opening ℚ := ⟨1, [], [], [], [], []⟩

/-- The field `,"width":1`. -/
def width_one : Field ℚ := ⟨.width (digit 1), [], [], [], []⟩

/-- The field `,"radius":1`. -/
def radius_one : Field ℚ := ⟨.radius (digit 1), [], [], [], []⟩

/-- The fields `,"color":[1,0,0],"position":[0,0,5]`. -/
def color_position : List (Field ℚ) :=
  [⟨.color (digits 1 0 0), [], [], [], []⟩, ⟨.position (digits 0 0 5), [], [], [], []⟩]

/-! ## Inputs for the evaluations in the arithmetic of doubles -/

/-- The origin of a ray, outside the sphere of radius `away_radius` centred at
`(0, 0, 0)`; its components are doubles. -/
def away_origin : Vec3 ℚ := ⟨10505973 / 67108864, 109145569 / 67108864, 0⟩

/-- A radius, the greatest double whose square is below the squared length of
`away_origin`. -/
def away_radius : ℚ := 1839622361805841 / 1125899906842624

theorem pow2_pos (e : Int) : 0 < pow2 e := by
  unfold pow2
  split_ifs <;> positivity

theorem sphereEq_quadratic {α : Type} [LinearOrderedField α] (Ro Rd C : Vec3 α) (r t : α) :
    sphereEq Ro Rd C r t = sphereA Rd * t * t + sphereB Ro Rd C * t + sphereC Ro C r := by
  simp only [sphereEq, sphereA, sphereB, sphereC, sqr]; ring

theorem sphere_intersection_unfold {α : Type} [LinearOrderedField α] (sqrt : α → α)
    (Ro Rd C : Vec3 α) (r : α) :
    sphere_intersection id sqrt Ro Rd C r =
      if sphereB Ro Rd C * sphereB Ro Rd C - 4 * sphereA Rd * sphereC Ro C r < 0 then -1
      else if (-sphereB Ro Rd C - sqrt (sphereB Ro Rd C * sphereB Ro Rd C
          - 4 * sphereA Rd * sphereC Ro C r)) / (2 * sphereA Rd) > 0 then
        (-sphereB Ro Rd C - sqrt (sphereB Ro Rd C * sphereB Ro Rd C
          - 4 * sphereA Rd * sphereC Ro C r)) / (2 * sphereA Rd)
      else if (-sphereB Ro Rd C + sqrt (sphereB Ro Rd C * sphereB Ro Rd C
          - 4 * sphereA Rd * sphereC Ro C r)) / (2 * sphereA Rd) > 0 then
        (-sphereB Ro Rd C + sqrt (sphereB Ro Rd C * sphereB Ro Rd C
          - 4 * sphereA Rd * sphereC Ro C r)) / (2 * sphereA Rd)
      else -1 := rfl

/-- No real root when the discriminant is negative. -/
theorem quadratic_pos_of_discr_neg (a b c t : ℝ) (ha : 0 < a) (hd : b * b - 4 * a * c < 0) :
    0 < a * t * t + b * t + c := by
  have h : 0 < 4 * a * (a * t * t + b * t + c) := by nlinarith [sq_nonneg (2 * a * t + b)]
  have h4 : 0 < 4 * a := by linarith
  exact (mul_pos_iff_of_pos_left h4).mp h

/-- The factorisation of the quadratic over its two roots. -/
theorem quadratic_factor (a b c s t : ℝ) (ha : 0 < a) (hs : s * s = b * b - 4 * a * c) :
    a * t * t + b * t + c = a * (t - (-b - s) / (2 * a)) * (t - (-b + s) / (2 * a)) := by
  have hne : a ≠ 0 := ne_of_gt ha
  field_simp
  nlinarith [hs]

theorem quadratic_root_iff (a b c s t : ℝ) (ha : 0 < a) (hs : s * s = b * b - 4 * a * c) :
    a * t * t + b * t + c = 0 ↔ t = (-b - s) / (2 * a) ∨ t = (-b + s) / (2 * a) := by
  rw [quadratic_factor a b c s t ha hs]
  constructor
  · intro h
    rcases mul_eq_zero.mp h with h1 | h1
    · rcases mul_eq_zero.mp h1 with h2 | h2
      · exact absurd h2 (ne_of_gt ha)
      · left; linarith
    · right; linarith
  · rintro (h | h)
    · rw [h]; ring
    · rw [h]; ring


/-- The result of `sphere_intersection` over the reals, by cases: with `a > 0`
the value is the least positive root when there is one and `-1` otherwise. -/
theorem sphere_intersection_cases (Ro Rd C : Vec3 ℝ) (r : ℝ) (ha : 0 < sphereA Rd) :
    (sphere_intersection id Real.sqrt Ro Rd C r = -1 ∧
        ∀ t, 0 < t → sphereEq Ro Rd C r t ≠ 0) ∨
    (0 < sphere_intersection id Real.sqrt Ro Rd C r ∧
        sphereEq Ro Rd C r (sphere_intersection id Real.sqrt Ro Rd C r) = 0 ∧
        ∀ t, 0 < t → sphereEq Ro Rd C r t = 0 → sphere_intersection id Real.sqrt Ro Rd C r ≤ t) := by
  rw [sphere_intersection_unfold]
  simp only [sphereEq_quadratic]
  generalize sphereA Rd = a at ha ⊢
  generalize sphereB Ro Rd C = b
  generalize sphereC Ro C r = c
  by_cases hd : b * b - 4 * a * c < 0
  · left
    rw [if_pos hd]
    exact ⟨rfl, fun t _ => ne_of_gt (quadratic_pos_of_discr_neg a b c t ha hd)⟩
  · rw [if_neg hd]
    have hd0 : 0 ≤ b * b - 4 * a * c := not_lt.mp hd
    have hs : Real.sqrt (b * b - 4 * a * c) * Real.sqrt (b * b - 4 * a * c) = b * b - 4 * a * c :=
      Real.mul_self_sqrt hd0
    have hs0 : 0 ≤ Real.sqrt (b * b - 4 * a * c) := Real.sqrt_nonneg _
    generalize Real.sqrt (b * b - 4 * a * c) = s at hs hs0 ⊢
    have h2a : 0 < 2 * a := by linarith
    have hle : (-b - s) / (2 * a) ≤ (-b + s) / (2 * a) :=
      div_le_div_of_nonneg_right (by linarith) (le_of_lt h2a)
    by_cases h0 : (-b - s) / (2 * a) > 0
    · right
      rw [if_pos h0]
      refine ⟨h0, (quadratic_root_iff a b c s _ ha hs).mpr (Or.inl rfl), ?_⟩
      intro t _ ht
      rcases (quadratic_root_iff a b c s t ha hs).mp ht with h | h
      · exact le_of_eq h.symm
      · rw [h]; exact hle
    · rw [if_neg h0]
      by_cases h1 : (-b + s) / (2 * a) > 0
      · right
        rw [if_pos h1]
        refine ⟨h1, (quadratic_root_iff a b c s _ ha hs).mpr (Or.inr rfl), ?_⟩
        intro t htpos ht
        rcases (quadratic_root_iff a b c s t ha hs).mp ht with h | h
        · exact absurd (h ▸ htpos) h0
        · exact le_of_eq h.symm
      · left
        rw [if_neg h1]
        refine ⟨rfl, ?_⟩
        intro t htpos ht
        rcases (quadratic_root_iff a b c s t ha hs).mp ht with h | h
        · exact h0 (h ▸ htpos)
        · exact h1 (h ▸ htpos)

/-- C4. Over the reals, for a direction `Rd` with `|Rd|^2 > 0`,
`sphere_intersection` returns the least strictly positive root `t` of
`|Ro + t * Rd - C|^2 = r^2` whenever such a root exists, and it returns `-1`
exactly when there is no strictly positive root. -/
theorem sphere_intersection_least_positive_root (Ro Rd C : Vec3 ℝ) (r : ℝ)
    (hD : 0 < Rd.v0 * Rd.v0 + Rd.v1 * Rd.v1 + Rd.v2 * Rd.v2) :
    ((∃ t, 0 < t ∧ sphereEq Ro Rd C r t = 0) →
      IsLeast {t | 0 < t ∧ sphereEq Ro Rd C r t = 0} (sphere_intersection id Real.sqrt Ro Rd C r)) ∧
    (sphere_intersection id Real.sqrt Ro Rd C r = -1 ↔ ¬ ∃ t, 0 < t ∧ sphereEq Ro Rd C r t = 0) := by
  rcases sphere_intersection_cases Ro Rd C r hD with ⟨h1, h2⟩ | ⟨h1, h2, h3⟩
  · refine ⟨?_, ?_⟩
    · rintro ⟨t, ht, hr⟩
      exact absurd hr (h2 t ht)
    · constructor
      · rintro _ ⟨t, ht, hr⟩
        exact h2 t ht hr
      · intro _; exact h1
  · refine ⟨?_, ?_⟩
    · intro _
      exact ⟨⟨h1, h2⟩, fun t ht => h3 t ht.1 ht.2⟩
    · constructor
      · intro h; rw [h] at h1; norm_num at h1
      · intro h; exact absurd ⟨_, h1, h2⟩ h

/-- C5, as amended: with arithmetic read over the reals, when the origin is
strictly outside the sphere and the direction points away from it,
`sphere_intersection` returns `-1`. -/
theorem sphere_intersection_pointing_away (Ro Rd C : Vec3 ℝ) (r : ℝ)
    (hD : 0 < Rd.v0 * Rd.v0 + Rd.v1 * Rd.v1 + Rd.v2 * Rd.v2)
    (hout : (Ro.v0 - C.v0) * (Ro.v0 - C.v0) + (Ro.v1 - C.v1) * (Ro.v1 - C.v1)
      + (Ro.v2 - C.v2) * (Ro.v2 - C.v2) > r * r)
    (haway : Rd.v0 * (Ro.v0 - C.v0) + Rd.v1 * (Ro.v1 - C.v1) + Rd.v2 * (Ro.v2 - C.v2) > 0) :
    sphere_intersection id Real.sqrt Ro Rd C r = -1 := by
  rcases sphere_intersection_cases Ro Rd C r hD with ⟨h1, _⟩ | ⟨h1, h2, _⟩
  · exact h1
  · exfalso
    rw [sphereEq_quadratic] at h2
    have ha : 0 < sphereA Rd := hD
    have hb : 0 < sphereB Ro Rd C := by unfold sphereB; linarith
    have hc : 0 < sphereC Ro C r := by unfold sphereC; linarith
    generalize sphere_intersection id Real.sqrt Ro Rd C r = t at h1 h2
    have : 0 < sphereA Rd * t * t + sphereB Ro Rd C * t + sphereC Ro C r := by positivity
    linarith

/-- A witness for C4: the ray from the origin along `+z` and the sphere of radius
1 centred at `(0, 0, 5)`, which it meets at `t = 4`. -/
theorem sphere_intersection_least_positive_root_witness :
    (0 : ℝ) < 0 * 0 + 0 * 0 + 1 * 1 ∧
    IsLeast {t : ℝ | 0 < t ∧ sphereEq ⟨0, 0, 0⟩ ⟨0, 0, 1⟩ ⟨0, 0, 5⟩ 1 t = 0}
      (sphere_intersection id Real.sqrt ⟨0, 0, 0⟩ ⟨0, 0, 1⟩ ⟨0, 0, 5⟩ 1) :=
  ⟨by norm_num [sqr],
   (sphere_intersection_least_positive_root ⟨0, 0, 0⟩ ⟨0, 0, 1⟩ ⟨0, 0, 5⟩ 1
      (by norm_num [sqr])).1 ⟨4, by norm_num, by norm_num [sphereEq, sqr]⟩⟩

/-- A witness for C5 as amended: the ray from the origin along `+z` and the
sphere of radius 1 centred at `(0, 0, -5)`, behind the origin. -/
theorem sphere_intersection_pointing_away_witness :
    sphere_intersection id Real.sqrt ⟨0, 0, 0⟩ ⟨0, 0, 1⟩ ⟨0, 0, -5⟩ 1 = -1 :=
  sphere_intersection_pointing_away ⟨0, 0, 0⟩ ⟨0, 0, 1⟩ ⟨0, 0, -5⟩ 1
    (by norm_num) (by norm_num) (by norm_num)

/-- C5, a counterexample in the arithmetic of doubles: the origin `away_origin`
is strictly outside the sphere of radius `away_radius` centred at `(0, 0, 0)`
and the direction `(1, 0, 0)` points away from it, all of them doubles, yet
`sphere_intersection` returns a positive `t`.  The rounded `c` is negative, so
the discriminant is above `b * b` and the root `t1` is positive. -/
theorem sphere_intersection_rounded :
    (0 : ℚ) < 1 * 1 + 0 * 0 + 0 * 0 ∧
    (away_origin.v0 - 0) * (away_origin.v0 - 0) + (away_origin.v1 - 0) * (away_origin.v1 - 0)
      + (away_origin.v2 - 0) * (away_origin.v2 - 0) > away_radius * away_radius ∧
    1 * (away_origin.v0 - 0) + 0 * (away_origin.v1 - 0) + 0 * (away_origin.v2 - 0) > 0 ∧
    round_double away_origin.v0 = away_origin.v0 ∧
    round_double away_origin.v1 = away_origin.v1 ∧
    round_double away_radius = away_radius ∧
    sphere_intersection round_double sqrt_double away_origin ⟨1, 0, 0⟩ ⟨0, 0, 0⟩ away_radius
      = 51 / 36028797018963968 ∧
    ¬ (sphere_intersection round_double sqrt_double away_origin ⟨1, 0, 0⟩ ⟨0, 0, 0⟩ away_radius
      = -1) := by
  refine ⟨by decide!, by decide!, by decide!, by decide!, by decide!, by decide!, by decide!,
    by decide!⟩


/-! ## The nearest hit -/

section Reduction
variable {α : Type} [LinearOrderedField α]

theorem FVal.pos_of_good {t : FVal α} (h : t.Good) : FVal.lt (.fin 0) t = true := by
  rcases h with h | ⟨x, h, hx⟩
  · subst h; rfl
  · subst h; simp [FVal.lt, hx]

theorem FVal.fin_of_pos_lt {t b : FVal α} (h0 : FVal.lt (.fin 0) t = true)
    (h1 : FVal.lt t b = true) : ∃ x, t = .fin x ∧ 0 < x := by
  cases t <;> cases b <;> simp_all [FVal.lt]

theorem FVal.lt_irrefl (t : FVal α) : FVal.lt t t = false := by
  cases t <;> simp [FVal.lt]

theorem FVal.lt_chain {a b c : FVal α} (h1 : FVal.lt a b = true) (h2 : FVal.lt b c = true) :
    FVal.lt a c = true := by
  cases a <;> cases b <;> cases c <;> simp_all [FVal.lt]
  exact lt_trans h1 h2

/-- Among positive values `<` is total: two of them that are not below each
other are equal. -/
theorem FVal.eq_of_not_lt {a b : FVal α} (ha : FVal.lt (.fin 0) a = true)
    (hb : FVal.lt (.fin 0) b = true) (h1 : FVal.lt a b = false) (h2 : FVal.lt b a = false) :
    a = b := by
  cases a <;> cases b <;> simp_all [FVal.lt]
  exact le_antisymm h2 h1

/-- For positive values, `c ≤ b` and `b ≤ a` give `c ≤ a`, with `x ≤ y` read as
"not `y < x`". -/
theorem FVal.not_lt_chain {a b c : FVal α} (ha : FVal.lt (.fin 0) a = true)
    (hb : FVal.lt (.fin 0) b = true) (hc : FVal.lt (.fin 0) c = true)
    (h1 : FVal.lt a b = false) (h2 : FVal.lt b c = false) : FVal.lt a c = false := by
  cases a <;> cases b <;> cases c <;> simp_all [FVal.lt]
  exact le_trans h2 h1

theorem select_good (best : FVal α × Nat) (i : Nat) (t : FVal α) (h : best.1.Good) :
    (select best i t).1.Good := by
  unfold select
  split
  · rename_i hc
    simp only [Bool.and_eq_true] at hc
    exact Or.inr (FVal.fin_of_pos_lt hc.1 hc.2)
  · exact h

theorem reduce_good (ts : List (FVal α)) (i : Nat) (best : FVal α × Nat) (h : best.1.Good) :
    (reduce ts i best).1.Good := by
  induction ts generalizing i best with
  | nil => exact h
  | cons t ts ih => exact ih _ _ (select_good best i t h)

/-- The value kept by `select` is not above the old best one, nor above the
candidate when the candidate is positive. -/
theorem select_not_lt (best : FVal α × Nat) (i : Nat) (t : FVal α) :
    FVal.lt best.1 (select best i t).1 = false ∧
    (FVal.lt (.fin 0) t = true → FVal.lt t (select best i t).1 = false) := by
  unfold select
  split
  · rename_i hc
    simp only [Bool.and_eq_true] at hc
    refine ⟨?_, fun _ => FVal.lt_irrefl t⟩
    cases hb : FVal.lt best.1 t
    · rfl
    · have := FVal.lt_chain hc.2 hb
      rw [FVal.lt_irrefl] at this
      exact absurd this (by simp)
  · rename_i hc
    refine ⟨FVal.lt_irrefl _, fun h0 => ?_⟩
    simpa [h0] using hc

theorem reduce_not_lt_best (ts : List (FVal α)) (i : Nat) (best : FVal α × Nat)
    (h : best.1.Good) : FVal.lt best.1 (reduce ts i best).1 = false := by
  induction ts generalizing i best with
  | nil => exact FVal.lt_irrefl _
  | cons t ts ih =>
    have hs := select_good best i t h
    have h1 := ih (i + 1) (select best i t) hs
    have h2 := (select_not_lt best i t).1
    exact FVal.not_lt_chain (FVal.pos_of_good h) (FVal.pos_of_good hs)
      (FVal.pos_of_good (reduce_good ts (i + 1) (select best i t) hs)) h2 h1

/-- The value kept by the reduction is not above any positive candidate. -/
theorem reduce_not_lt_mem (ts : List (FVal α)) (i : Nat) (best : FVal α × Nat)
    (h : best.1.Good) (t : FVal α) (ht : t ∈ ts) (h0 : FVal.lt (.fin 0) t = true) :
    FVal.lt t (reduce ts i best).1 = false := by
  induction ts generalizing i best with
  | nil => cases ht
  | cons u ts ih =>
    have hs := select_good best i u h
    rcases List.mem_cons.mp ht with rfl | hmem
    · have h1 := reduce_not_lt_best ts (i + 1) (select best i t) hs
      have h2 := (select_not_lt best i t).2 h0
      exact FVal.not_lt_chain h0 (FVal.pos_of_good hs)
        (FVal.pos_of_good (reduce_good ts (i + 1) (select best i t) hs)) h2 h1
    · exact ih (i + 1) (select best i u) hs hmem

/-- Either the reduction keeps the best pair it started from, or it ends on the
first position of its value, which is strictly below the starting one. -/
theorem reduce_index (ts : List (FVal α)) (i : Nat) (best : FVal α × Nat) (h : best.1.Good) :
    reduce ts i best = best ∨
    ∃ k, k < ts.length ∧ (reduce ts i best).2 = i + k ∧
      ts.get? k = some (reduce ts i best).1 ∧
      FVal.lt (reduce ts i best).1 best.1 = true ∧
      ∀ j, j < k → ts.get? j ≠ some (reduce ts i best).1 := by
  induction ts generalizing i best with
  | nil => exact Or.inl rfl
  | cons t ts ih =>
    have hs := select_good best i t h
    have hR := reduce_good ts (i + 1) (select best i t) hs
    show reduce ts (i + 1) (select best i t) = best ∨
      ∃ k, k < (t :: ts).length ∧ (reduce ts (i + 1) (select best i t)).2 = i + k ∧
        (t :: ts).get? k = some (reduce ts (i + 1) (select best i t)).1 ∧
        FVal.lt (reduce ts (i + 1) (select best i t)).1 best.1 = true ∧
        ∀ j, j < k → (t :: ts).get? j ≠ some (reduce ts (i + 1) (select best i t)).1
    by_cases hc : (FVal.lt (.fin 0) t && FVal.lt t best.1) = true
    · have hsel : select best i t = (t, i) := by simp [select, hc]
      simp only [Bool.and_eq_true] at hc
      rw [hsel] at hs hR ⊢
      right
      rcases ih (i + 1) (t, i) hs with heq | ⟨k, hk, hi, hget, hlt, hfirst⟩
      · refine ⟨0, by simp, ?_, ?_, ?_, ?_⟩
        · rw [heq]; rfl
        · rw [heq]; rfl
        · rw [heq]; exact hc.2
        · intro j hj; omega
      · refine ⟨k + 1, by simp [hk], by omega, by simpa using hget, ?_, ?_⟩
        · exact FVal.lt_chain hlt hc.2
        · intro j hj
          cases j with
          | zero =>
            intro hcon
            simp only [List.get?_cons_zero, Option.some.injEq] at hcon
            rw [← hcon] at hlt
            have hirr := FVal.lt_irrefl t
            change FVal.lt t t = true at hlt
            rw [hirr] at hlt
            exact Bool.noConfusion hlt
          | succ j =>
            simpa using hfirst j (by omega)
    · have hsel : select best i t = best := by simp [select, hc]
      rw [hsel] at hR ⊢
      rcases ih (i + 1) best h with heq | ⟨k, hk, hi, hget, hlt, hfirst⟩
      · exact Or.inl heq
      · right
        refine ⟨k + 1, by simp [hk], by omega, by simpa using hget, hlt, ?_⟩
        intro j hj
        cases j with
        | zero =>
          intro hcon
          simp only [List.get?_cons_zero, Option.some.injEq] at hcon
          apply hc
          rw [hcon, hlt, FVal.pos_of_good hR]
          rfl
        | succ j =>
          simpa using hfirst j (by omega)


theorem nearest_good (ts : List (FVal α)) : (nearest ts).1.Good :=
  reduce_good ts 0 (.pinf, 0) (Or.inl rfl)

theorem is_hit_iff_of_good {t : FVal α} (h : t.Good) :
    is_hit t = true ↔ ∃ x, t = .fin x ∧ 0 < x := by
  rcases h with h | ⟨x, h, hx⟩
  · subst h; simp [is_hit, FVal.lt, FVal.neInfinity]
  · subst h; simp [is_hit, FVal.lt, FVal.neInfinity, hx]

theorem nearest_fst_cases (ts : List (FVal α)) :
    (nearest ts).1 = .pinf ∨ (nearest ts).1 ∈ ts := by
  rcases reduce_index ts 0 (.pinf, 0) (Or.inl rfl) with heq | ⟨k, _, _, hget, _, _⟩
  · left; unfold nearest; rw [heq]
  · right; exact List.get?_mem hget

theorem nearest_not_lt_of_subset (ts ts' : List (FVal α)) (h : ∀ t, t ∈ ts → t ∈ ts') :
    FVal.lt (nearest ts).1 (nearest ts').1 = false := by
  rcases nearest_fst_cases ts with h1 | h1
  · rw [h1]; cases (nearest ts').1 <;> rfl
  · exact reduce_not_lt_mem ts' 0 (.pinf, 0) (Or.inl rfl) _ (h _ h1)
      (FVal.pos_of_good (nearest_good ts))

/-- C3. For every list of intersection values of one ray: the reduction reports
a hit iff some value is a positive number; in that case the selected value is a
positive number, it is the value at the selected index, no positive value of
the list is below it, and the selected index is the first one that holds it.
The selected value is the same for every reordering of the list. -/
theorem nearest_selection (ts : List (FVal α)) :
    (is_hit (nearest ts).1 = true ↔ ∃ i x, ts.get? i = some (.fin x) ∧ 0 < x) ∧
    (is_hit (nearest ts).1 = true →
      (∃ x, (nearest ts).1 = .fin x ∧ 0 < x) ∧
      ts.get? (nearest ts).2 = some (nearest ts).1 ∧
      (∀ j t, ts.get? j = some t → FVal.lt (.fin 0) t = true →
        FVal.lt t (nearest ts).1 = false) ∧
      (∀ j, j < (nearest ts).2 → ts.get? j ≠ some (nearest ts).1)) ∧
    (∀ ts', ts.Perm ts' → (nearest ts').1 = (nearest ts).1) := by
  have hgood := nearest_good ts
  have hhit : is_hit (nearest ts).1 = true →
      (∃ x, (nearest ts).1 = .fin x ∧ 0 < x) ∧
      ts.get? (nearest ts).2 = some (nearest ts).1 ∧
      (∀ j t, ts.get? j = some t → FVal.lt (.fin 0) t = true →
        FVal.lt t (nearest ts).1 = false) ∧
      (∀ j, j < (nearest ts).2 → ts.get? j ≠ some (nearest ts).1) := by
    intro h
    obtain ⟨x, hx, hpos⟩ := (is_hit_iff_of_good hgood).mp h
    refine ⟨⟨x, hx, hpos⟩, ?_⟩
    rcases reduce_index ts 0 (.pinf, 0) (Or.inl rfl) with heq | ⟨k, _, hi, hget, _, hfirst⟩
    · exfalso
      have : (nearest ts).1 = .pinf := by unfold nearest; rw [heq]
      rw [this] at hx
      cases hx
    · have hk : (nearest ts).2 = k := by unfold nearest; omega
      refine ⟨by rw [hk]; exact hget, ?_, ?_⟩
      · intro j t hj h0
        exact reduce_not_lt_mem ts 0 (.pinf, 0) (Or.inl rfl) t (List.get?_mem hj) h0
      · intro j hj
        rw [hk] at hj
        exact hfirst j hj
  refine ⟨⟨?_, ?_⟩, hhit, ?_⟩
  · intro h
    obtain ⟨⟨x, hx, hpos⟩, hget, _, _⟩ := hhit h
    exact ⟨(nearest ts).2, x, by rw [hget, hx], hpos⟩
  · rintro ⟨i, x, hi, hpos⟩
    rw [is_hit_iff_of_good hgood]
    rcases hgood with hinf | hfin
    · exfalso
      have := reduce_not_lt_mem ts 0 (.pinf, 0) (Or.inl rfl) (.fin x) (List.get?_mem hi)
        (by simp [FVal.lt, hpos])
      change FVal.lt (.fin x) (nearest ts).1 = false at this
      rw [hinf] at this
      simp [FVal.lt] at this
    · exact hfin
  · intro ts' hperm
    exact FVal.eq_of_not_lt (FVal.pos_of_good (nearest_good ts')) (FVal.pos_of_good hgood)
      (nearest_not_lt_of_subset ts' ts (fun t ht => hperm.mem_iff.mpr ht))
      (nearest_not_lt_of_subset ts ts' (fun t ht => hperm.mem_iff.mp ht))

/-- The loop of `main` over the objects is the reduction of the values that the
switch gives for them. -/
theorem check_intersections_eq_reduce (fl sqrt : α → α) (Ro Rd : Vec3 α) (objects : List (Object α))
    (ts : List (FVal α))
    (h : List.Forall₂ (fun o t => intersection fl sqrt Ro Rd o = .ok t) objects ts)
    (i : Nat) (best : FVal α × Nat) :
    check_intersections fl sqrt Ro Rd objects i best = .ok (reduce ts i best) := by
  induction h generalizing i best with
  | nil => rfl
  | cons h _ ih => simp only [check_intersections, h, reduce]; exact ih _ _

end Reduction

/-- A witness for C3: among `-1, NaN, 3, 2, INFINITY, 2` the reduction selects
the value 2 at index 3. -/
theorem nearest_selection_witness :
    (nearest [FVal.fin (-1 : ℚ), .nan, .fin 3, .fin 2, .pinf, .fin 2]).2 = 3 ∧
    ([FVal.fin (-1 : ℚ), .nan, .fin 3, .fin 2, .pinf, .fin 2].get?
        (nearest [FVal.fin (-1 : ℚ), .nan, .fin 3, .fin 2, .pinf, .fin 2]).2
      = some (nearest [FVal.fin (-1 : ℚ), .nan, .fin 3, .fin 2, .pinf, .fin 2]).1) :=
  ⟨by decide!, ((nearest_selection [FVal.fin (-1 : ℚ), .nan, .fin 3, .fin 2, .pinf, .fin 2]).2.1
    (by decide!)).2.1⟩



/-! ## The pixel buffer -/

theorem int32_eq (v : Int) (h0 : -2147483648 ≤ v) (h1 : v < 2147483648) : int32 v = v := by
  unfold int32; omega

/-- Inside the loop domain the index stays below `N * M`. -/
theorem index_lt (N M x y : Nat) (hx : x < N) (hy1 : 1 ≤ y) (hy : y ≤ M) :
    (M - y) * N + x < N * M := by
  have h1 : (M - y) * N + N ≤ M * N := by
    have : (M - y) + 1 ≤ M := by omega
    calc (M - y) * N + N = ((M - y) + 1) * N := by ring
      _ ≤ M * N := Nat.mul_le_mul_right N this
  rw [Nat.mul_comm N M]; omega

/-- In a row whose last index fits in an `int`, the expression of line 160 is
computed without overflow. -/
theorem buffer_index_row (N M x y : Nat) (hrow : (M - y + 1) * N ≤ 2147483648) (hx : x < N)
    (hy : y ≤ M) : buffer_index N M y x = (((M - y) * N + x : Nat) : Int) := by
  have hrow1 : (M - y) * N + N ≤ 2147483648 := by
    calc (M - y) * N + N = (M - y + 1) * N := by ring
      _ ≤ 2147483648 := hrow
  have hb1 : (M - y) * N < 2147483648 := by omega
  have hb2 : (M - y) * N + x < 2147483648 := by omega
  have hN : 1 ≤ N := by omega
  have hMy : M - y ≤ (M - y) * N := Nat.le_mul_of_pos_right _ (by omega)
  have h1 : int32 ((M : Int) - (y : Int)) = ((M - y : Nat) : Int) := by
    rw [show ((M : Int) - (y : Int)) = ((M - y : Nat) : Int) by omega]
    exact int32_eq _ (by omega) (by omega)
  have h2 : int32 (((M - y : Nat) : Int) * (N : Int)) = (((M - y) * N : Nat) : Int) := by
    rw [← Nat.cast_mul]
    exact int32_eq _ (by omega) (by exact_mod_cast hb1)
  have h3 : int32 ((((M - y) * N : Nat) : Int) + (x : Int))
      = (((M - y) * N + x : Nat) : Int) := by
    rw [← Nat.cast_add]
    exact int32_eq _ (by omega) (by exact_mod_cast hb2)
  unfold buffer_index
  rw [h1, h2, h3]

/-- Without overflow the `int` expression of line 160 has the value
`(M - y) * N + x`. -/
theorem buffer_index_eq (N M x y : Nat) (hNM : N * M ≤ 2147483648) (hx : x < N) (hy1 : 1 ≤ y)
    (hy : y ≤ M) : buffer_index N M y x = (((M - y) * N + x : Nat) : Int) := by
  apply buffer_index_row N M x y _ hx hy
  have h1 : M - y + 1 ≤ M := by omega
  calc (M - y + 1) * N ≤ M * N := Nat.mul_le_mul_right N h1
    _ = N * M := Nat.mul_comm M N
    _ ≤ 2147483648 := hNM

theorem filled_length (G : Nat → Option Pixel) (L n : Nat) (h : n ≤ L) :
    (filled G L n).length = L := by
  simp [filled]
  omega

theorem filled_set (G : Nat → Option Pixel) (L n : Nat) (h : n < L) :
    (filled G L n).set n (G n) = filled G L (n + 1) := by
  unfold filled
  have hlen : ((List.range n).map G).length = n := by simp
  have hrep : List.replicate (L - n) (none : Option Pixel)
      = none :: List.replicate (L - (n + 1)) none := by
    have : L - n = (L - (n + 1)) + 1 := by omega
    rw [this, List.replicate_succ]
  rw [hrep, List.range_succ, List.map_append, List.append_assoc]
  conv_lhs => rw [← hlen]
  simp

/-- One row of the pixel loop, when its indices fit in an `int`, stores the next
`N` pixels of the buffer. -/
theorem row_loop_fill (f : Nat → Nat → Except Err (Option Pixel)) (g : Nat → Nat → Option Pixel)
    (N M y : Nat) (hy1 : 1 ≤ y) (hy : y ≤ M) (hrow : (M - y + 1) * N ≤ 2147483648)
    (hf : ∀ x, x < N → f x y = .ok (g x y)) (len x0 : Nat) (hx : x0 + len = N) :
    row_loop f N M y (List.range' x0 len)
        (filled (fun p => g (p % N) (M - p / N)) (N * M) ((M - y) * N + x0))
      = .ok (filled (fun p => g (p % N) (M - p / N)) (N * M) ((M - y) * N + N)) := by
  induction len generalizing x0 with
  | zero =>
    have : x0 = N := by omega
    subst this
    rfl
  | succ len ih =>
    have hx0 : x0 < N := by omega
    have hlt : (M - y) * N + x0 < N * M := index_lt N M x0 y hx0 hy1 hy
    have hmod : ((M - y) * N + x0) % N = x0 := by
      rw [Nat.add_comm, Nat.add_mul_mod_self_right]; exact Nat.mod_eq_of_lt hx0
    have hdiv : ((M - y) * N + x0) / N = M - y := by
      rw [Nat.add_comm, Nat.add_mul_div_right _ _ (by omega : 0 < N), Nat.div_eq_of_lt hx0]
      omega
    have hg : g x0 y = (fun p => g (p % N) (M - p / N)) ((M - y) * N + x0) := by
      show g x0 y = g (((M - y) * N + x0) % N) (M - ((M - y) * N + x0) / N)
      rw [hmod, hdiv]
      congr 1; omega
    have hidx := buffer_index_row N M x0 y hrow hx0 hy
    have hlen := filled_length (fun p => g (p % N) (M - p / N)) (N * M) ((M - y) * N + x0)
      (le_of_lt hlt)
    have hin : (0 : Int) ≤ (((M - y) * N + x0 : Nat) : Int) ∧
        (((M - y) * N + x0 : Nat) : Int) < ((N * M : Nat) : Int) :=
      ⟨Int.natCast_nonneg _, by exact_mod_cast hlt⟩
    simp only [List.range', row_loop, hf x0 hx0, hidx, hlen, hin, and_self, if_true,
      Int.toNat_ofNat]
    rw [hg, filled_set _ _ _ hlt]
    have := ih (x0 + 1) (by omega)
    rw [← Nat.add_assoc] at this
    exact this

/-- The pixel loop stores the pixels in the order of the buffer, row after row,
as long as the indices fit in an `int`: after the rows `M, ..., lo + 1` the
first `(M - lo) * N` pixels are stored, pixel `p` being the one of column
`p % N` and loop row `M - p / N`. -/
theorem rows_loop_fill (f : Nat → Nat → Except Err (Option Pixel)) (g : Nat → Nat → Option Pixel)
    (N M : Nat) (hf : ∀ x y, x < N → 1 ≤ y → y ≤ M → f x y = .ok (g x y)) (lo : Nat)
    (hfit : (M - lo) * N ≤ 2147483648) (m : Nat) (hlo : lo ≤ m) (hm : m ≤ M) :
    rows_loop f N M (countdown m)
        (filled (fun p => g (p % N) (M - p / N)) (N * M) ((M - m) * N))
      = rows_loop f N M (countdown lo)
        (filled (fun p => g (p % N) (M - p / N)) (N * M) ((M - lo) * N)) := by
  induction m, hlo using Nat.le_induction with
  | base => rfl
  | succ m hlo ih =>
    have hrow1 : (M - (m + 1) + 1) * N ≤ 2147483648 := by
      have : M - (m + 1) + 1 ≤ M - lo := by omega
      exact le_trans (Nat.mul_le_mul_right N this) hfit
    have hrow := row_loop_fill f g N M (m + 1) (by omega) hm hrow1
      (fun x hx => hf x (m + 1) hx (by omega) hm) N 0 (by omega)
    rw [← List.range_eq_range'] at hrow
    simp only [Nat.add_zero] at hrow
    simp only [countdown, rows_loop, hrow]
    have hidx : (M - (m + 1)) * N + N = (M - m) * N := by
      have : M - m = (M - (m + 1)) + 1 := by omega
      rw [this]; ring
    rw [hidx]
    exact ih (by omega)

/-- The buffer that the pixel loop leaves when every pixel is computed and the
number of pixels fits in an `int`. -/
theorem rows_loop_buffer (f : Nat → Nat → Except Err (Option Pixel))
    (g : Nat → Nat → Option Pixel) (N M : Nat) (hNM : N * M ≤ 2147483648)
    (hf : ∀ x y, x < N → 1 ≤ y → y ≤ M → f x y = .ok (g x y)) :
    rows_loop f N M (countdown M) (List.replicate (N * M) none)
      = .ok ((List.range (N * M)).map (fun p => g (p % N) (M - p / N))) := by
  have h := rows_loop_fill f g N M hf 0 (by rw [Nat.sub_zero, Nat.mul_comm]; exact hNM) M
    (Nat.zero_le M) (le_refl M)
  simp only [filled, Nat.sub_self, Nat.zero_mul, List.range_zero, List.map_nil, List.nil_append,
    Nat.sub_zero, countdown, rows_loop] at h
  rw [h, Nat.mul_comm M N]
  simp

/-- The pixel loop stops at the first row whose index does not fit in an `int`:
when the rows above row `lo` fit and the first index of row `lo` is computed
outside of the buffer, the store at that index ends the run. -/
theorem rows_loop_outside (f : Nat → Nat → Except Err (Option Pixel))
    (g : Nat → Nat → Option Pixel) (N M : Nat)
    (hf : ∀ x y, x < N → 1 ≤ y → y ≤ M → f x y = .ok (g x y)) (lo : Nat) (hN : 1 ≤ N)
    (hlo1 : 1 ≤ lo) (hlo : lo ≤ M) (hfit : (M - lo) * N ≤ 2147483648)
    (hout : ¬ (0 ≤ buffer_index N M lo 0 ∧ buffer_index N M lo 0 < ((N * M : Nat) : Int))) :
    rows_loop f N M (countdown M) (List.replicate (N * M) none) = .error .outsideBuffer := by
  have h := rows_loop_fill f g N M hf lo hfit M hlo (le_refl M)
  have h0 : filled (fun p => g (p % N) (M - p / N)) (N * M) ((M - M) * N)
      = List.replicate (N * M) none := by
    simp [filled]
  rw [h0] at h
  rw [h]
  obtain ⟨l, rfl⟩ : ∃ l, lo = l + 1 := ⟨lo - 1, by omega⟩
  obtain ⟨n, rfl⟩ : ∃ n, N = n + 1 := ⟨N - 1, by omega⟩
  have hle : (M - (l + 1)) * (n + 1) ≤ (n + 1) * M := by
    rw [Nat.mul_comm (n + 1) M]
    exact Nat.mul_le_mul_right _ (Nat.sub_le _ _)
  have hlen := filled_length (fun p => g (p % (n + 1)) (M - p / (n + 1))) ((n + 1) * M)
    ((M - (l + 1)) * (n + 1)) hle
  have hrow : row_loop f (n + 1) M (l + 1) (List.range (n + 1))
      (filled (fun p => g (p % (n + 1)) (M - p / (n + 1))) ((n + 1) * M)
        ((M - (l + 1)) * (n + 1))) = .error .outsideBuffer := by
    rw [List.range_eq_range', List.range'_succ]
    simp only [row_loop, hf 0 (l + 1) (by omega) (by omega) hlo, hlen, Nat.cast_zero, hout,
      if_false]
  simp only [countdown, rows_loop, hrow]

/-! ## Stores of cameras -/

theorem select_camera {α : Type} [LinearOrderedField α] (bi i : Nat) :
    select ((.pinf, bi) : FVal α × Nat) i (.fin (-1)) = (.pinf, bi) := by
  simp [select, FVal.lt]

theorem check_intersections_cameras {α : Type} [LinearOrderedField α] (fl sqrt : α → α) (Ro Rd : Vec3 α) (objects : List (Object α))
    (h : ∀ o, o ∈ objects → o.kind = 0) (i bi : Nat) :
    check_intersections fl sqrt Ro Rd objects i (.pinf, bi) = .ok (.pinf, bi) := by
  induction objects generalizing i with
  | nil => rfl
  | cons o os ih =>
    have ho : o.kind = 0 := h o (List.mem_cons_self o os)
    simp only [check_intersections, intersection, ho, if_true, select_camera]
    exact ih (fun o ho => h o (List.mem_cons_of_mem _ ho)) (i + 1)

theorem pixel_cameras {α : Type} [LinearOrderedField α] [FloorRing α]
    (fl sqrt : α → α) (w h : α) (N M : Nat) (objects : List (Object α))
    (hc : ∀ o, o ∈ objects → o.kind = 0) (x y : Nat) :
    pixel fl sqrt w h N M objects x y = .ok (some ⟨0, 0, 0⟩) := by
  simp only [pixel, check_intersections_cameras fl sqrt _ _ objects hc]
  simp [shade, is_hit, FVal.lt, FVal.neInfinity]

/-- Line 101 assigns instead of comparing, so neither test on `cam` ever exits:
`main` always enters the pixel loop, with the `h` and `w` left by the scan. -/
theorem main_render_eq {α : Type} [LinearOrderedField α] [FloorRing α]
    (fl sqrt : α → α) (h0 w0 : α) (N M : Nat) (objects : List (Object α)) :
    main_render fl sqrt h0 w0 N M objects
      = rows_loop (pixel fl sqrt (find_camera objects (h0, w0, 0)).2.1
          (find_camera objects (h0, w0, 0)).1 N M objects) N M (countdown M)
          (List.replicate (N * M) none) := by
  simp [main_render, assign]

theorem main_render_cameras {α : Type} [LinearOrderedField α] [FloorRing α]
    (fl sqrt : α → α) (h0 w0 : α) (N M : Nat) (objects : List (Object α))
    (hc : ∀ o, o ∈ objects → o.kind = 0) (hNM : N * M ≤ 2147483648) :
    main_render fl sqrt h0 w0 N M objects = .ok (List.replicate (N * M) (some ⟨0, 0, 0⟩)) := by
  rw [main_render_eq, rows_loop_buffer _ (fun _ _ => some ⟨0, 0, 0⟩) N M hNM
    (fun x y _ _ _ => pixel_cameras fl sqrt _ _ N M objects hc x y)]
  congr 1
  apply List.ext_getElem <;> simp

/-- C6, as amended: for every store that holds only cameras and every
resolution `N ≥ 1`, `M ≥ 1` with `N * M ≤ 2 ^ 31`, the rendering ends with a
buffer of `N * M` pixels that are all `(0, 0, 0)`, whatever the rounding. -/
theorem main_render_only_cameras {α : Type} [LinearOrderedField α] [FloorRing α]
    (fl sqrt : α → α) (h0 w0 : α) (N M : Nat) (objects : List (Object α))
    (hc : ∀ o, o ∈ objects → o.kind = 0) (_hN : 1 ≤ N) (_hM : 1 ≤ M)
    (hNM : N * M ≤ 2147483648) :
    ∃ buffer, main_render fl sqrt h0 w0 N M objects = .ok buffer ∧ buffer.length = N * M ∧
      ∀ p, p < N * M → buffer.get? p = some (some ⟨0, 0, 0⟩) := by
  refine ⟨_, main_render_cameras fl sqrt h0 w0 N M objects hc hNM, by simp, ?_⟩
  intro p hp
  simp [hp]

/-- A witness for C6 as amended: one camera at resolution 2 by 3, in the
arithmetic of doubles. -/
theorem main_render_only_cameras_witness :
    ∃ buffer, main_render round_double sqrt_double 0 0 2 3
        [⟨0, ⟨0, 0, 0⟩, 1, 1, 0, 0, 0, 0⟩] = .ok buffer ∧
      buffer.length = 2 * 3 ∧ ∀ p, p < 2 * 3 → buffer.get? p = some (some ⟨0, 0, 0⟩) :=
  main_render_only_cameras round_double sqrt_double 0 0 2 3 [⟨0, ⟨0, 0, 0⟩, 1, 1, 0, 0, 0, 0⟩]
    (by simp) (by decide) (by decide) (by decide)


/-! ## The camera count -/

theorem intersection_ok {α : Type} [LinearOrderedField α] (fl sqrt : α → α) (Ro Rd : Vec3 α)
    (o : Object α) (h : o.kind ≤ 2) : ∃ t, intersection fl sqrt Ro Rd o = .ok t := by
  unfold intersection
  by_cases h0 : o.kind = 0
  · exact ⟨_, if_pos h0⟩
  · by_cases h1 : o.kind = 1
    · rw [if_neg h0, if_pos h1]; exact ⟨_, rfl⟩
    · have h2 : o.kind = 2 := by omega
      rw [if_neg h0, if_neg h1, if_pos h2]; exact ⟨_, rfl⟩

theorem check_intersections_ok {α : Type} [LinearOrderedField α] (fl sqrt : α → α) (Ro Rd : Vec3 α)
    (objects : List (Object α)) (h : ∀ o, o ∈ objects → o.kind ≤ 2) (i : Nat)
    (best : FVal α × Nat) : ∃ r, check_intersections fl sqrt Ro Rd objects i best = .ok r := by
  induction objects generalizing i best with
  | nil => exact ⟨_, rfl⟩
  | cons o os ih =>
    obtain ⟨t, ht⟩ := intersection_ok fl sqrt Ro Rd o (h o (List.mem_cons_self o os))
    simp only [check_intersections, ht]
    exact ih (fun o ho => h o (List.mem_cons_of_mem _ ho)) _ _

theorem pixel_ok {α : Type} [LinearOrderedField α] [FloorRing α] (fl sqrt : α → α) (w h : α)
    (N M : Nat) (objects : List (Object α)) (hk : ∀ o, o ∈ objects → o.kind ≤ 2) (x y : Nat) :
    ∃ p, pixel fl sqrt w h N M objects x y = .ok p := by
  obtain ⟨r, hr⟩ := check_intersections_ok fl sqrt ⟨0, 0, 0⟩
    (normalize fl sqrt (ray_target fl w h N M x y)) objects hk 0 (.pinf, 0)
  exact ⟨shade fl objects r, by simp only [pixel, hr]⟩

/-- Whatever the number of cameras in a store of cameras, spheres and planes,
`main` gets through the tests on `cam` and fills the buffer. -/
theorem main_render_ok {α : Type} [LinearOrderedField α] [FloorRing α] (fl sqrt : α → α)
    (h0 w0 : α) (N M : Nat) (objects : List (Object α)) (hk : ∀ o, o ∈ objects → o.kind ≤ 2)
    (hNM : N * M ≤ 2147483648) :
    ∃ buffer, main_render fl sqrt h0 w0 N M objects = .ok buffer ∧ buffer.length = N * M := by
  rw [main_render_eq]
  refine ⟨_, rows_loop_buffer _ (fun x y =>
    match pixel fl sqrt (find_camera objects (h0, w0, 0)).2.1
        (find_camera objects (h0, w0, 0)).1 N M objects x y with
    | .ok p => p
    | .error _ => none) N M hNM ?_, by simp⟩
  intro x y _ _ _
  obtain ⟨p, hp⟩ := pixel_ok fl sqrt (find_camera objects (h0, w0, 0)).2.1
    (find_camera objects (h0, w0, 0)).1 N M objects hk x y
  simp only [hp]

/-- In an image too large for the `int` index, the run of a store of cameras,
spheres and planes ends at the first store outside the buffer. -/
theorem main_render_outside {α : Type} [LinearOrderedField α] [FloorRing α] (fl sqrt : α → α)
    (h0 w0 : α) (N M : Nat) (objects : List (Object α)) (hk : ∀ o, o ∈ objects → o.kind ≤ 2)
    (lo : Nat) (hN : 1 ≤ N) (hlo1 : 1 ≤ lo) (hlo : lo ≤ M) (hfit : (M - lo) * N ≤ 2147483648)
    (hout : ¬ (0 ≤ buffer_index N M lo 0 ∧ buffer_index N M lo 0 < ((N * M : Nat) : Int))) :
    main_render fl sqrt h0 w0 N M objects = .error .outsideBuffer := by
  rw [main_render_eq]
  refine rows_loop_outside _ (fun x y =>
    match pixel fl sqrt (find_camera objects (h0, w0, 0)).2.1
        (find_camera objects (h0, w0, 0)).1 N M objects x y with
    | .ok p => p
    | .error _ => none) N M ?_ lo hN hlo1 hlo hfit hout
  intro x y _ _ _
  obtain ⟨p, hp⟩ := pixel_ok fl sqrt (find_camera objects (h0, w0, 0)).2.1
    (find_camera objects (h0, w0, 0)).1 N M objects hk x y
  simp only [hp]

/-- C6, a counterexample: at `N = M = 65536` the run of a store of one camera
does not end with a buffer.  The rows `y = 65536, ..., 32769` are stored; in the
row `y = 32768` the product `(M - y)*N` is `2 ^ 31`, the index of line 160 is
negative and the store is outside the buffer. -/
theorem main_render_cameras_large :
    (∀ o, o ∈ [(⟨0, ⟨0, 0, 0⟩, 1, 1, 0, 0, 0, 0⟩ : Object ℚ)] → o.kind = 0) ∧
    main_render round_double sqrt_double 0 0 65536 65536
        [(⟨0, ⟨0, 0, 0⟩, 1, 1, 0, 0, 0, 0⟩ : Object ℚ)]
      = .error .outsideBuffer :=
  ⟨by simp,
   main_render_outside round_double sqrt_double 0 0 65536 65536 _ (by simp) 32768
     (by decide) (by decide) (by decide) (by decide) (by decide)⟩

/-- C1, on the code: a store with two cameras and a store with no camera (one
sphere) both get through the camera tests of `main` and are rendered; the
exits "No camera found" and "Multiple cameras not supported" are not taken. -/
theorem main_render_camera_count_unchecked :
    main_render id Real.sqrt 0 0 1 1
        [⟨0, ⟨0, 0, 0⟩, 1, 1, 0, 0, 0, 0⟩, ⟨0, ⟨0, 0, 0⟩, 2, 2, 0, 0, 0, 0⟩]
      = .ok [some ⟨0, 0, 0⟩] ∧
    (∃ buffer, main_render id Real.sqrt 0 0 1 1 [⟨1, ⟨1, 0, 0⟩, 0, 0, 5, 1, 0, 0⟩] = .ok buffer) := by
  constructor
  · exact main_render_cameras id Real.sqrt 0 0 1 1 _ (by simp) (by decide)
  · obtain ⟨buffer, h, _⟩ := main_render_ok id Real.sqrt 0 0 1 1
      [⟨1, ⟨1, 0, 0⟩, 0, 0, 5, 1, 0, 0⟩] (by simp) (by decide)
    exact ⟨buffer, h⟩


/-! ## The one-pixel scene -/

/-- The ray of the single pixel of a 1 by 1 image, for a camera of width and
height 1, goes through `(0, 1, 1)`: `y` is 1 in the only round of the loop. -/
theorem ray_target_one_pixel : ray_target id (1 : ℝ) 1 1 1 0 1 = ⟨0, 1, 1⟩ := by
  simp only [ray_target, id_eq]
  norm_num

/-- The normalised ray through `(0, 1, 1)` misses the sphere of radius 1 centred
at `(0, 0, 5)`. -/
theorem sphere_intersection_one_pixel :
    sphere_intersection id Real.sqrt ⟨0, 0, 0⟩ (normalize id Real.sqrt ⟨0, 1, 1⟩) ⟨0, 0, 5⟩ 1 = -1 := by
  have h2 : Real.sqrt (0 * 0 + 1 * 1 + 1 * 1) * Real.sqrt (0 * 0 + 1 * 1 + 1 * 1) = 2 := by
    rw [Real.mul_self_sqrt (by norm_num)]; norm_num
  have hpos : 0 < Real.sqrt (0 * 0 + 1 * 1 + 1 * 1) := Real.sqrt_pos.mpr (by norm_num)
  rw [sphere_intersection_unfold, if_pos]
  simp only [normalize, sphereA, sphereB, sphereC, sqr, id_eq] at h2 hpos ⊢
  generalize Real.sqrt (0 * 0 + 1 * 1 + 1 * 1) = s at h2 hpos
  have hs : s ≠ 0 := ne_of_gt hpos
  have hinv : 1 / s * (1 / s) = 1 / 2 := by
    field_simp
    linarith
  have hb : 2 * (0 / s * (0 - 0) + 1 / s * (0 - 0) + 1 / s * (0 - 5)) = -10 * (1 / s) := by ring
  have ha : 0 / s * (0 / s) + 1 / s * (1 / s) + 1 / s * (1 / s) = 1 := by
    rw [hinv]; norm_num
  rw [hb, ha]
  have : -10 * (1 / s) * (-10 * (1 / s)) = 100 * (1 / s * (1 / s)) := by ring
  rw [this, hinv]
  norm_num

theorem pixel_one_pixel :
    pixel id Real.sqrt 1 1 1 1
        [⟨0, ⟨0, 0, 0⟩, 1, 1, 0, 0, 0, 0⟩, ⟨1, ⟨1, 0, 0⟩, 0, 0, 5, 1, 0, 0⟩] 0 1
      = .ok (some ⟨0, 0, 0⟩) := by
  simp only [pixel, ray_target_one_pixel, check_intersections, intersection,
    Object.sphere_position, Object.sphere_radius, sphere_intersection_one_pixel]
  norm_num [select, FVal.lt, shade, is_hit, FVal.neInfinity]

/-- C2, on the code: for the camera of width and height 1 and the red sphere of
radius 1 centred at `(0, 0, 5)`, the single pixel of the 1 by 1 image is
`(0, 0, 0)`.  The ray goes through `(0, 1, 1)` and misses the sphere, whereas
the ray along `+z` meets it at `t = 4` and red would be stored as 255. -/
theorem main_render_one_pixel :
    main_render id Real.sqrt 0 0 1 1
        [⟨0, ⟨0, 0, 0⟩, 1, 1, 0, 0, 0, 0⟩, ⟨1, ⟨1, 0, 0⟩, 0, 0, 5, 1, 0, 0⟩]
      = .ok [some ⟨0, 0, 0⟩] ∧
    sphere_intersection id Real.sqrt ⟨0, 0, 0⟩ ⟨0, 0, 1⟩ ⟨0, 0, 5⟩ 1 = 4 ∧
    cast_char ((1 : ℝ) * 255) = 255 := by
  refine ⟨?_, ?_, ?_⟩
  · rw [main_render_eq, rows_loop_buffer _ (fun _ _ => some ⟨0, 0, 0⟩) 1 1 (by decide)]
    · rfl
    · intro x y hx hy1 hy
      have hx0 : x = 0 := by omega
      have hy0 : y = 1 := by omega
      subst hx0 hy0
      exact pixel_one_pixel
  · rw [sphere_intersection_unfold]
    simp only [sphereA, sphereB, sphereC, sqr]
    have h4 : Real.sqrt 4 = 2 := by
      rw [show (4 : ℝ) = 2 ^ 2 by norm_num]
      exact Real.sqrt_sq (by norm_num)
    norm_num [h4]
  · norm_num [cast_char]
    rfl


/-! ## Strings -/

theorem next_string_loop_ok (p rest buffer : List Nat) (hp : ∀ c, c ∈ p → string_byte c)
    (hlen : buffer.length + p.length ≤ 128) :
    next_string_loop (p ++ 34 :: rest) buffer = .ok (buffer ++ p, rest) := by
  induction p generalizing buffer with
  | nil => simp [next_string_loop]
  | cons c p ih =>
    obtain ⟨h1, h2, h3, h4⟩ := hp c (List.mem_cons_self c p)
    have hlen1 : ¬ buffer.length ≥ 128 := by simp only [List.length_cons] at hlen; omega
    have hbad : ¬ (c < 32 ∨ c > 126) := by omega
    rw [List.cons_append]
    simp only [next_string_loop, if_neg h4, if_neg hlen1, if_neg h3, if_neg hbad]
    rw [ih (buffer ++ [c]) (fun d hd => hp d (List.mem_cons_of_mem _ hd))
      (by simp only [List.length_append, List.length_cons, List.length_nil] at hlen ⊢; omega)]
    simp

theorem next_string_loop_inv (json buffer str rest : List Nat) (hb : buffer.length ≤ 128)
    (h : next_string_loop json buffer = .ok (str, rest)) :
    ∃ p, str = buffer ++ p ∧ json = p ++ 34 :: rest ∧ (∀ c, c ∈ p → string_byte c) ∧
      str.length ≤ 128 := by
  induction json generalizing buffer with
  | nil => simp [next_string_loop] at h
  | cons c json ih =>
    simp only [next_string_loop] at h
    by_cases h4 : c = 34
    · rw [if_pos h4] at h
      simp only [Except.ok.injEq, Prod.mk.injEq] at h
      obtain ⟨h1, h2⟩ := h
      subst h1 h2 h4
      exact ⟨[], by simp, by simp, by simp, hb⟩
    · rw [if_neg h4] at h
      by_cases hl : buffer.length ≥ 128
      · rw [if_pos hl] at h; cases h
      · rw [if_neg hl] at h
        by_cases h3 : c = 92
        · rw [if_pos h3] at h; cases h
        · rw [if_neg h3] at h
          by_cases hbad : c < 32 ∨ c > 126
          · rw [if_pos hbad] at h; cases h
          · rw [if_neg hbad] at h
            obtain ⟨p, hp1, hp2, hp3, hp4⟩ := ih (buffer ++ [c])
              (by simp only [List.length_append, List.length_cons, List.length_nil]; omega) h
            refine ⟨c :: p, by simp [hp1], by simp [hp2], ?_, hp4⟩
            intro d hd
            rcases List.mem_cons.mp hd with rfl | hd
            · exact ⟨by omega, by omega, h3, h4⟩
            · exact hp3 d hd

theorem next_string_loop_fail (p json buffer : List Nat) (hb : buffer.length ≤ 128)
    (hq : ∀ c, c ∈ p → c ≠ 34)
    (hbad : 128 < buffer.length + p.length ∨ ∃ c, c ∈ p ∧ (c = 92 ∨ c < 32 ∨ 126 < c)) :
    ∃ e, next_string_loop (p ++ json) buffer = .error e ∧ string_error e := by
  induction p generalizing buffer with
  | nil =>
    exfalso
    rcases hbad with h | ⟨c, hc, _⟩
    · simp at h; omega
    · cases hc
  | cons c p ih =>
    have h4 : c ≠ 34 := hq c (List.mem_cons_self c p)
    rw [List.cons_append]
    simp only [next_string_loop, if_neg h4]
    by_cases hl : buffer.length ≥ 128
    · rw [if_pos hl]; exact ⟨_, rfl, Or.inl rfl⟩
    · rw [if_neg hl]
      by_cases h3 : c = 92
      · rw [if_pos h3]; exact ⟨_, rfl, Or.inr (Or.inl rfl)⟩
      · rw [if_neg h3]
        by_cases hc : c < 32 ∨ c > 126
        · rw [if_pos hc]; exact ⟨_, rfl, Or.inr (Or.inr rfl)⟩
        · rw [if_neg hc]
          apply ih (buffer ++ [c])
          · simp only [List.length_append, List.length_cons, List.length_nil]; omega
          · exact fun d hd => hq d (List.mem_cons_of_mem _ hd)
          · rcases hbad with h | ⟨d, hd, hd2⟩
            · left
              simp only [List.length_append, List.length_cons, List.length_nil] at h ⊢
              omega
            · rcases List.mem_cons.mp hd with rfl | hd
              · exfalso; omega
              · exact Or.inr ⟨d, hd, hd2⟩

/-- C10. On an input that begins with a quote, `s` and a quote, `next_string`
returns `s` and the input after the closing quote iff `s` has at most 128
bytes, each printable ASCII other than backslash and quote.  It exits with
"Expected string" when the first byte is not a quote, and with one of its
three string diagnostics when, before any closing quote, a backslash or a byte
outside 32..126 occurs or more than 128 bytes occur. -/
theorem next_string_spec :
    (∀ s rest, next_string (34 :: (s ++ 34 :: rest)) = .ok (s, rest) ↔
      (s.length ≤ 128 ∧ ∀ c, c ∈ s → string_byte c)) ∧
    (∀ c json, c ≠ 34 → next_string (c :: json) = .error .expectedString) ∧
    (∀ p c json, (∀ d, d ∈ p → d ≠ 34) → (c = 92 ∨ c < 32 ∨ 126 < c) →
      ∃ e, next_string (34 :: (p ++ c :: json)) = .error e ∧ string_error e) ∧
    (∀ p json, (∀ d, d ∈ p → d ≠ 34) → 128 < p.length →
      ∃ e, next_string (34 :: (p ++ 34 :: json)) = .error e ∧ string_error e) := by
  refine ⟨?_, ?_, ?_, ?_⟩
  · intro s rest
    constructor
    · intro h
      simp only [next_string, next_c, ne_eq, not_true_eq_false, if_false] at h
      obtain ⟨p, hp1, _, hp3, hp4⟩ := next_string_loop_inv _ [] s rest (by simp) h
      simp only [List.nil_append] at hp1
      subst hp1
      exact ⟨hp4, hp3⟩
    · rintro ⟨hlen, hs⟩
      simp only [next_string, next_c, ne_eq, not_true_eq_false, if_false]
      rw [next_string_loop_ok s rest [] hs (by simpa using hlen)]
      simp
  · intro c json hc
    simp [next_string, next_c, hc]
  · intro p c json hq hc
    simp only [next_string, next_c, ne_eq, not_true_eq_false, if_false]
    have hq2 : ∀ d, d ∈ p ++ [c] → d ≠ 34 := by
      intro d hd
      rcases List.mem_append.mp hd with hd | hd
      · exact hq d hd
      · simp only [List.mem_singleton] at hd; omega
    have := next_string_loop_fail (p ++ [c]) json [] (by simp) hq2
      (Or.inr ⟨c, by simp, hc⟩)
    simpa using this
  · intro p json hq hlen
    simp only [next_string, next_c, ne_eq, not_true_eq_false, if_false]
    exact next_string_loop_fail p (34 :: json) [] (by simp) hq (Or.inl (by simpa using hlen))

/-- A witness for C10: `"type"` is read, a string of 128 bytes is accepted and
one of 129 bytes rejected, and a backslash is rejected. -/
theorem next_string_spec_witness :
    next_string (34 :: (str_type ++ 34 :: [58])) = .ok (str_type, [58]) ∧
    next_string (34 :: (List.replicate 128 97 ++ 34 :: [])) = .ok (List.replicate 128 97, []) ∧
    (∃ e, next_string (34 :: (List.replicate 129 97 ++ 34 :: [])) = .error e ∧ string_error e) ∧
    (∃ e, next_string (34 :: ([97] ++ 92 :: [110, 34])) = .error e ∧ string_error e) :=
  ⟨(next_string_spec.1 str_type [58]).mpr ⟨by decide, by simp [str_type, string_byte]⟩,
   (next_string_spec.1 (List.replicate 128 97) []).mpr
     ⟨by simp, fun c hc => by rw [List.eq_of_mem_replicate hc]; simp [string_byte]⟩,
   next_string_spec.2.2.2 (List.replicate 129 97) []
     (fun d hd => by rw [List.eq_of_mem_replicate hd]; decide) (by simp),
   next_string_spec.2.2.1 [97] 92 [110, 34] (by decide) (Or.inl rfl)⟩

/-! ## Well-formed scenes -/

theorem skip_ws_white (w : List Nat) (c : Nat) (rest : List Nat) (hw : white w)
    (hc : isspace c = false) : skip_ws (w ++ c :: rest) = .ok (c :: rest) := by
  induction w with
  | nil => simp [skip_ws, hc]
  | cons d w ih =>
    have hd : isspace d = true := hw d (List.mem_cons_self d w)
    rw [List.cons_append]
    simp only [skip_ws, hd, if_true]
    exact ih (fun x hx => hw x (List.mem_cons_of_mem _ hx))

theorem expect_c_cons (d : Nat) (rest : List Nat) : expect_c d (d :: rest) = .ok rest := by
  simp [expect_c, next_c]

theorem next_string_quoted (s rest : List Nat) (hlen : s.length ≤ 128)
    (hs : ∀ c, c ∈ s → string_byte c) :
    next_string (34 :: (s ++ 34 :: rest)) = .ok (s, rest) := by
  simp only [next_string, next_c, ne_eq, not_true_eq_false, if_false]
  rw [next_string_loop_ok s rest [] hs (by simpa using hlen)]
  simp

theorem next_number_token {α : Type} (scan : List Nat → Option (α × List Nat)) (n : NumLit α)
    (rest : List Nat) (hn : number_token scan n.text n.value) (hr : number_end rest) :
    next_number scan (n.text ++ rest) = .ok (n.value, rest) := by
  simp [next_number, hn.2 rest hr]

theorem skip_ws_number {α : Type} (scan : List Nat → Option (α × List Nat)) (n : NumLit α)
    (w rest : List Nat) (hn : number_token scan n.text n.value) (hw : white w) :
    skip_ws (w ++ (n.text ++ rest)) = .ok (n.text ++ rest) := by
  obtain ⟨⟨c, t, ht, hc⟩, _⟩ := hn
  rw [ht, List.cons_append]
  exact skip_ws_white w c _ hw hc

theorem number_end_white (w : List Nat) (d : Nat) (rest : List Nat) (hw : white w)
    (hd : d = 44 ∨ d = 93 ∨ d = 125) : number_end (w ++ d :: rest) := by
  cases w with
  | nil => exact ⟨d, rest, rfl, Or.inr hd⟩
  | cons c w => exact ⟨c, w ++ d :: rest, rfl, Or.inl (hw c (List.mem_cons_self c w))⟩

theorem next_vector_text {α : Type} (scan : List Nat → Option (α × List Nat)) (v : VecLit α)
    (rest : List Nat) (hv : v.wf scan) :
    next_vector scan (v.text rest) = .ok (v.value, rest) := by
  obtain ⟨ha, hb, hc, h1, h2, h3, h4, h5, h6⟩ := hv
  simp only [next_vector, VecLit.text, expect_c_cons, bind, Except.bind,
    skip_ws_number scan _ _ _ ha h1, skip_ws_number scan _ _ _ hb h3,
    skip_ws_number scan _ _ _ hc h5,
    next_number_token scan _ _ ha (number_end_white _ 44 _ h2 (Or.inl rfl)),
    next_number_token scan _ _ hb (number_end_white _ 44 _ h4 (Or.inl rfl)),
    next_number_token scan _ _ hc (number_end_white _ 93 _ h6 (Or.inr (Or.inl rfl))),
    skip_ws_white _ 44 _ h2 rfl, skip_ws_white _ 44 _ h4 rfl, skip_ws_white _ 93 _ h6 rfl]
  rfl

theorem kind_of_required {α : Type} (v : Value α) (kind : Nat) (hk : v.key ∈ required kind) :
    kind ≤ 2 := by
  rcases kind with _ | _ | _ | n
  · omega
  · omega
  · omega
  · simp [required] at hk

theorem read_value_text {α : Type} (scan : List Nat → Option (α × List Nat)) (obj : Object α)
    (v : Value α) (rest : List Nat) (hv : v.wf scan) (hk : v.key ∈ required obj.kind)
    (hr : number_end rest) :
    read_value scan obj v.key (v.text rest) = .ok (v.store obj, rest) := by
  have hkind := kind_of_required v obj.kind hk
  have h3 : obj.kind = 0 ∨ obj.kind = 1 ∨ obj.kind = 2 := by omega
  rcases h3 with h0 | h0 | h0 <;> rw [h0] at hk <;> cases v <;>
    simp [required, Value.key, str_width, str_height, str_radius, str_color, str_position,
      str_normal] at hk <;>
    simp only [Value.wf] at hv <;>
    first
    | simp [read_value, Value.key, Value.text, Value.store, h0, bind, Except.bind, pure,
        Except.pure, next_number_token scan _ rest hv hr,
        VecLit.value, str_width, str_height, str_radius, str_color, str_position, str_normal]
    | simp [read_value, Value.key, Value.text, Value.store, h0, bind, Except.bind, pure,
        Except.pure, next_vector_text scan _ rest hv,
        VecLit.value, str_width, str_height, str_radius, str_color, str_position, str_normal]

theorem key_quoted {α : Type} (v : Value α) (rest : List Nat) :
    next_string (34 :: (v.key ++ 34 :: rest)) = .ok (v.key, rest) := by
  apply next_string_quoted <;> cases v <;>
    simp [Value.key, str_width, str_height, str_radius, str_color, str_position, str_normal,
      string_byte]

theorem skip_ws_value {α : Type} (scan : List Nat → Option (α × List Nat)) (v : Value α)
    (w rest : List Nat) (hv : v.wf scan) (hw : white w) :
    skip_ws (w ++ v.text rest) = .ok (v.text rest) := by
  cases v <;> simp only [Value.wf] at hv <;> simp only [Value.text]
  · exact skip_ws_number scan _ w rest hv hw
  · exact skip_ws_number scan _ w rest hv hw
  · exact skip_ws_number scan _ w rest hv hw
  · exact skip_ws_white w 91 _ hw rfl
  · exact skip_ws_white w 91 _ hw rfl
  · exact skip_ws_white w 91 _ hw rfl

theorem fields_text_head {α : Type} (fs : List (Field α)) (rest : List Nat) :
    ∃ d t, fields_text fs rest = d :: t ∧ (d = 44 ∨ d = 125) := by
  cases fs with
  | nil => exact ⟨125, rest, rfl, Or.inr rfl⟩
  | cons f fs => exact ⟨44, _, rfl, Or.inl rfl⟩

theorem read_pair_text {α : Type} (scan : List Nat → Option (α × List Nat)) (obj : Object α)
    (f : Field α) (d : Nat) (t : List Nat) (hf : f.wf scan)
    (hk : f.value.key ∈ required obj.kind) (hd : d = 44 ∨ d = 125) :
    read_pair scan obj (f.w1 ++ 34 :: (f.value.key ++ 34 :: (f.w2 ++ 58 :: (f.w3 ++
        f.value.text (f.w4 ++ d :: t)))))
      = .ok (f.value.store obj, d :: t) := by
  obtain ⟨hv, h1, h2, h3, h4⟩ := hf
  have hend : number_end (f.w4 ++ d :: t) :=
    number_end_white f.w4 d t h4 (by omega)
  have hdws : isspace d = false := by rcases hd with rfl | rfl <;> rfl
  simp only [read_pair, bind, Except.bind, skip_ws_white _ 34 _ h1 rfl, key_quoted,
    skip_ws_white _ 58 _ h2 rfl, expect_c_cons, skip_ws_value scan _ _ _ hv h3,
    read_value_text scan obj f.value _ hv hk hend, skip_ws_white _ d _ h4 hdws]
  rfl

theorem store_kind {α : Type} (v : Value α) (o : Object α) : (v.store o).kind = o.kind := by
  cases v <;> rfl

theorem read_fields_text {α : Type} (scan : List Nat → Option (α × List Nat))
    (fs : List (Field α)) (obj : Object α) (valcnt fuel : Nat) (rest : List Nat)
    (hwf : ∀ f, f ∈ fs → f.wf scan)
    (hkeys : ∀ f, f ∈ fs → f.value.key ∈ required obj.kind)
    (hfuel : fs.length < fuel)
    (hcnt : check_valcnt obj.kind (valcnt + fs.length) = .ok ()) :
    read_fields scan fuel obj valcnt (fields_text fs rest)
      = .ok (fs.foldl (fun o f => f.value.store o) obj, rest) := by
  induction fs generalizing obj valcnt fuel with
  | nil =>
    obtain ⟨fuel, rfl⟩ : ∃ n, fuel = n + 1 := ⟨fuel - 1, by simp at hfuel; omega⟩
    simp only [List.length_nil, Nat.add_zero] at hcnt
    simp [fields_text, read_fields, next_c, hcnt]
  | cons f fs ih =>
    obtain ⟨fuel, rfl⟩ : ∃ n, fuel = n + 1 := ⟨fuel - 1, by simp at hfuel; omega⟩
    obtain ⟨d, t, ht, hd⟩ := fields_text_head fs rest
    have hpair := read_pair_text scan obj f d t (hwf f (List.mem_cons_self f fs))
      (hkeys f (List.mem_cons_self f fs)) hd
    simp only [fields_text, Field.text, read_fields, next_c, ht, hpair]
    simp only [show (44 : Nat) = 125 ↔ False by decide, if_false, if_true, List.foldl_cons]
    rw [← ht]
    apply ih
    · exact fun g hg => hwf g (List.mem_cons_of_mem _ hg)
    · intro g hg
      rw [store_kind]
      exact hkeys g (List.mem_cons_of_mem _ hg)
    · simp only [List.length_cons] at hfuel; omega
    · rw [store_kind]
      simp only [List.length_cons] at hcnt
      rw [show valcnt + 1 + fs.length = valcnt + (fs.length + 1) by omega]
      exact hcnt

theorem read_type_text (kind : Nat) (w1 w2 w3 w4 : List Nat) (d : Nat) (t : List Nat)
    (hk : kind ≤ 2) (h1 : white w1) (h2 : white w2) (h3 : white w3) (h4 : white w4)
    (hd : d = 44 ∨ d = 125) :
    read_type (w1 ++ 34 :: (str_type ++ 34 :: (w2 ++ 58 :: (w3 ++ 34 :: (kind_name kind ++
        34 :: (w4 ++ d :: t))))))
      = .ok (kind, d :: t) := by
  have hdws : isspace d = false := by rcases hd with rfl | rfl <;> rfl
  have htype : ∀ r, next_string (34 :: (str_type ++ 34 :: r)) = .ok (str_type, r) := fun r =>
    next_string_quoted _ r (by decide) (by simp [str_type, string_byte])
  have hname : ∀ r, next_string (34 :: (kind_name kind ++ 34 :: r)) = .ok (kind_name kind, r) := by
    intro r
    apply next_string_quoted
    · rcases kind with _ | _ | _ <;> simp [kind_name, str_camera, str_sphere, str_plane]
    · rcases kind with _ | _ | _ <;>
        simp [kind_name, str_camera, str_sphere, str_plane, string_byte]
  simp only [read_type, bind, Except.bind, skip_ws_white _ 34 _ h1 rfl, htype,
    skip_ws_white _ 58 _ h2 rfl, expect_c_cons, skip_ws_white _ 34 _ h3 rfl, hname,
    skip_ws_white _ d _ h4 hdws]
  have h3 : kind = 0 ∨ kind = 1 ∨ kind = 2 := by omega
  rcases h3 with rfl | rfl | rfl <;>
    simp [kind_name, str_camera, str_sphere, str_plane, pure, Except.pure]

theorem read_separator_comma (w5 w6 : List Nat) (t : List Nat) (h5 : white w5) (h6 : white w6) :
    read_separator (w5 ++ 44 :: (w6 ++ 123 :: t)) = .ok (none, 123 :: t) := by
  simp [read_separator, bind, Except.bind, skip_ws_white _ 44 _ h5 rfl, next_c,
    skip_ws_white _ 123 _ h6 rfl, pure, Except.pure]

theorem read_separator_close (w5 : List Nat) (rest : List Nat) (h5 : white w5) :
    read_separator (w5 ++ 93 :: rest) = .ok (some (), rest) := by
  simp [read_separator, bind, Except.bind, skip_ws_white _ 93 _ h5 rfl, next_c, pure,
    Except.pure]

theorem required_length (kind : Nat) (n : Nat) (hk : kind ≤ 2)
    (hn : n = (required kind).length) : check_valcnt kind n = .ok () := by
  have h3 : kind = 0 ∨ kind = 1 ∨ kind = 2 := by omega
  rcases h3 with rfl | rfl | rfl <;> subst hn <;> simp [check_valcnt, required]


/-- One well-formed entry is read from its `{` to its `}`. -/
theorem read_entry_text {α : Type} (scan : List Nat → Option (α × List Nat)) (e : Entry α)
    (o : Object α) (fuel : Nat) (rest : List Nat) (he : e.wf scan) (hfuel : 4 ≤ fuel) :
    read_type (e.body rest) = .ok (e.kind, fields_text e.fields (e.w5 ++ rest)) ∧
    read_fields scan fuel { o with kind := e.kind } 0 (fields_text e.fields (e.w5 ++ rest))
      = .ok (e.object o, e.w5 ++ rest) := by
  obtain ⟨hk, hf, hperm, h1, h2, h3, h4, _, _⟩ := he
  obtain ⟨d, t, ht, hd⟩ := fields_text_head e.fields (e.w5 ++ rest)
  refine ⟨?_, ?_⟩
  · rw [Entry.body, ht]
    exact read_type_text e.kind e.w1 e.w2 e.w3 e.w4 d t hk h1 h2 h3 h4 hd
  · have hlen : e.fields.length = (required e.kind).length := by
      rw [← hperm.length_eq, List.length_map]
    apply read_fields_text
    · exact hf
    · intro f hf
      exact hperm.mem_iff.mp (List.mem_map_of_mem _ hf)
    · have : (required e.kind).length ≤ 3 := by
        have h3 : e.kind = 0 ∨ e.kind = 1 ∨ e.kind = 2 := by omega
        rcases h3 with h | h | h <;> rw [h] <;> simp [required]
      omega
    · exact required_length e.kind _ hk (by simpa using hlen)

theorem entries_text_head {α : Type} (e : Entry α) (es : List (Entry α)) (rest : List Nat) :
    ∃ r, entries_text e es rest = 123 :: e.body r := by
  cases es with
  | nil => exact ⟨_, rfl⟩
  | cons e1 es => exact ⟨_, rfl⟩

theorem read_objects_text {α : Type} (scan : List Nat → Option (α × List Nat))
    (fresh : Nat → Object α) (e : Entry α) (es : List (Entry α)) (objects : List (Object α))
    (fuel : Nat) (rest : List Nat) (hwf : ∀ x, x ∈ e :: es → x.wf scan)
    (hlen : objects.length + (es.length + 1) ≤ 128) (hfuel : es.length + 5 ≤ fuel) :
    read_objects scan fresh fuel objects (entries_text e es rest)
      = .ok ((objects ++ objects_of fresh objects.length (e :: es)).map some ++ [none]) := by
  induction es generalizing e objects fuel with
  | nil =>
    obtain ⟨fuel, rfl⟩ : ∃ n, fuel = n + 1 := ⟨fuel - 1, by omega⟩
    have he := hwf e (List.mem_cons_self e [])
    have hcount : ¬ objects.length + 1 > 128 := by simp at hlen; omega
    have h123 : ¬ (123 : Nat) = 93 := by decide
    obtain ⟨htype, hfields⟩ :=
      read_entry_text scan e (fresh objects.length) fuel (93 :: rest) he
        (by simp at hfuel; omega)
    rw [show entries_text e [] rest = 123 :: e.body (93 :: rest) from rfl]
    simp only [read_objects, h123, if_false, if_true, htype, hfields,
      hcount, read_separator_close e.w5 rest he.2.2.2.2.2.2.2.1]
    simp [objects_of]
  | cons e1 es ih =>
    obtain ⟨fuel, rfl⟩ : ∃ n, fuel = n + 1 := ⟨fuel - 1, by omega⟩
    have he := hwf e (List.mem_cons_self e _)
    simp only [List.length_cons] at hlen hfuel
    have hcount : ¬ objects.length + 1 > 128 := by omega
    have h123 : ¬ (123 : Nat) = 93 := by decide
    obtain ⟨htype, hfields⟩ :=
      read_entry_text scan e (fresh objects.length) fuel
        (44 :: (e.w6 ++ entries_text e1 es rest)) he (by omega)
    have hsep : read_separator (e.w5 ++ 44 :: (e.w6 ++ entries_text e1 es rest))
        = .ok (none, entries_text e1 es rest) := by
      obtain ⟨r, hr⟩ := entries_text_head e1 es rest
      rw [hr]
      exact read_separator_comma e.w5 e.w6 _ he.2.2.2.2.2.2.2.1 he.2.2.2.2.2.2.2.2
    have ih1 := ih e1 (objects ++ [e.object (fresh objects.length)]) fuel
      (fun x hx => hwf x (List.mem_cons_of_mem _ hx))
      (by simp only [List.length_append, List.length_cons, List.length_nil]; omega)
      (by omega)
    rw [show entries_text e (e1 :: es) rest
      = 123 :: e.body (44 :: (e.w6 ++ entries_text e1 es rest)) from rfl]
    simp only [read_objects, h123, if_false, if_true, htype, hfields, hcount, hsep, ih1]
    simp [objects_of]

/-- A well-formed scene text is read to the objects its entries declare. -/
theorem read_scene_text {α : Type} (scan : List Nat → Option (α × List Nat))
    (fresh : Nat → Object α) (w0 w1 : List Nat) (e : Entry α) (es : List (Entry α))
    (rest : List Nat) (fuel : Nat) (h0 : white w0) (h1 : white w1)
    (hwf : ∀ x, x ∈ e :: es → x.wf scan) (hlen : es.length + 1 ≤ 128)
    (hfuel : es.length + 5 ≤ fuel) :
    read_scene scan fresh fuel (scene_text w0 w1 e es rest)
      = .ok ((objects_of fresh 0 (e :: es)).map some ++ [none]) := by
  obtain ⟨r, hr⟩ := entries_text_head e es rest
  have hskip : skip_ws (w1 ++ entries_text e es rest) = .ok (entries_text e es rest) := by
    rw [hr]; exact skip_ws_white w1 123 _ h1 rfl
  simp only [read_scene, scene_text, skip_ws_white w0 91 _ h0 rfl, expect_c_cons, hskip]
  rw [read_objects_text scan fresh e es [] fuel rest hwf (by simpa using hlen) hfuel]
  simp

theorem holds_store_self {α : Type} (v : Value α) (o : Object α) : v.holds (v.store o) := by
  cases v <;> simp [Value.holds, Value.store, Object.camera_width, Object.camera_height,
    Object.sphere_radius, Object.sphere_position, Object.plane_position, Object.plane_normal,
    VecLit.value]

/-- Two different keys of one kind are stored in different members. -/
theorem holds_store_other {α : Type} (v v1 : Value α) (o : Object α) (kind : Nat)
    (hv : v.key ∈ required kind) (hv1 : v1.key ∈ required kind) (hne : v.key ≠ v1.key)
    (h : v1.holds o) : v1.holds (v.store o) := by
  have hk := kind_of_required v kind hv
  have h3 : kind = 0 ∨ kind = 1 ∨ kind = 2 := by omega
  rcases h3 with rfl | rfl | rfl <;> cases v <;>
    simp [required, Value.key, str_width, str_height, str_radius, str_color, str_position,
      str_normal] at hv <;>
    cases v1 <;>
    simp [required, Value.key, str_width, str_height, str_radius, str_color, str_position,
      str_normal] at hv1 hne <;>
    simpa [Value.holds, Value.store, Object.camera_width, Object.camera_height,
      Object.sphere_radius, Object.sphere_position, Object.plane_position, Object.plane_normal,
      VecLit.value] using h

theorem foldl_store_kind {α : Type} (fs : List (Field α)) (o : Object α) :
    (fs.foldl (fun o f => f.value.store o) o).kind = o.kind := by
  induction fs generalizing o with
  | nil => rfl
  | cons f fs ih => rw [List.foldl_cons, ih, store_kind]

theorem holds_foldl_store {α : Type} (fs : List (Field α)) (v1 : Value α) (o : Object α)
    (kind : Nat) (hfs : ∀ f, f ∈ fs → f.value.key ∈ required kind ∧ f.value.key ≠ v1.key)
    (hv1 : v1.key ∈ required kind) (h : v1.holds o) :
    v1.holds (fs.foldl (fun o f => f.value.store o) o) := by
  induction fs generalizing o with
  | nil => exact h
  | cons f fs ih =>
    rw [List.foldl_cons]
    apply ih _ (fun g hg => hfs g (List.mem_cons_of_mem _ hg))
    exact holds_store_other f.value v1 o kind (hfs f (List.mem_cons_self f fs)).1 hv1
      (hfs f (List.mem_cons_self f fs)).2 h

theorem holds_fields {α : Type} (fs : List (Field α)) (o : Object α) (kind : Nat)
    (hk : ∀ f, f ∈ fs → f.value.key ∈ required kind)
    (hnd : (fs.map (fun f => f.value.key)).Nodup) :
    ∀ f, f ∈ fs → f.value.holds (fs.foldl (fun o f => f.value.store o) o) := by
  induction fs generalizing o with
  | nil => intro f hf; cases hf
  | cons g fs ih =>
    rw [List.map_cons, List.nodup_cons] at hnd
    intro f hf
    rw [List.foldl_cons]
    rcases List.mem_cons.mp hf with rfl | hf
    · apply holds_foldl_store fs f.value _ kind _ (hk f (List.mem_cons_self f fs))
        (holds_store_self f.value o)
      intro g hg
      refine ⟨hk g (List.mem_cons_of_mem _ hg), ?_⟩
      intro heq
      exact hnd.1 (heq ▸ List.mem_map_of_mem (fun f => f.value.key) hg)
    · exact ih _ (fun x hx => hk x (List.mem_cons_of_mem _ hx)) hnd.2 f hf

theorem required_nodup (kind : Nat) : (required kind).Nodup := by
  rcases kind with _ | _ | _ | n <;>
    simp [required, str_width, str_height, str_radius, str_color, str_position, str_normal]

/-- The object that a well-formed entry declares has the kind and the field
values of the entry. -/
theorem object_holds {α : Type} (scan : List Nat → Option (α × List Nat)) (e : Entry α)
    (o : Object α) (he : e.wf scan) :
    (e.object o).kind = e.kind ∧ ∀ f, f ∈ e.fields → f.value.holds (e.object o) := by
  obtain ⟨_, _, hperm, _⟩ := he
  refine ⟨by rw [Entry.object, foldl_store_kind], ?_⟩
  exact holds_fields e.fields _ e.kind
    (fun f hf => hperm.mem_iff.mp (List.mem_map_of_mem _ hf))
    (hperm.nodup_iff.mpr (required_nodup e.kind))

theorem objects_of_holds {α : Type} (scan : List Nat → Option (α × List Nat))
    (fresh : Nat → Object α) (es : List (Entry α)) (i : Nat) (hwf : ∀ x, x ∈ es → x.wf scan) :
    List.Forall₂ (fun x o => o.kind = x.kind ∧ ∀ f, f ∈ x.fields → f.value.holds o)
      es (objects_of fresh i es) := by
  induction es generalizing i with
  | nil => exact List.Forall₂.nil
  | cons e es ih =>
    exact List.Forall₂.cons (object_holds scan e _ (hwf e (List.mem_cons_self e es)))
      (ih (i + 1) (fun x hx => hwf x (List.mem_cons_of_mem _ hx)))

/-- C7. For every well-formed scene text with `N` entries, `1 ≤ N ≤ 128`, and
enough fuel, `read_scene` returns a store whose first `N` entries are, in the
order of the text, objects of the declared kinds that hold the declared field
values, followed by the `NULL` at index `N`. -/
theorem read_scene_well_formed {α : Type} (scan : List Nat → Option (α × List Nat))
    (fresh : Nat → Object α) (w0 w1 : List Nat) (e : Entry α) (es : List (Entry α))
    (rest : List Nat) (fuel : Nat) (h0 : white w0) (h1 : white w1)
    (hwf : ∀ x, x ∈ e :: es → x.wf scan) (hlen : (e :: es).length ≤ 128)
    (hfuel : (e :: es).length + 4 ≤ fuel) :
    ∃ objects, read_scene scan fresh fuel (scene_text w0 w1 e es rest)
        = .ok (objects.map some ++ [none]) ∧
      List.Forall₂ (fun x o => o.kind = x.kind ∧ ∀ f, f ∈ x.fields → f.value.holds o)
        (e :: es) objects :=
  ⟨objects_of fresh 0 (e :: es),
   read_scene_text scan fresh w0 w1 e es rest fuel h0 h1 hwf
     (by simpa using hlen) (by simp only [List.length_cons] at hfuel; omega),
   objects_of_holds scan fresh (e :: es) 0 hwf⟩

theorem scan_decimal_digit (d : Nat) (hd : d ≤ 9) :
    number_token scan_decimal (digit d).text (digit d).value := by
  refine ⟨⟨48 + d, [], rfl, ?_⟩, ?_⟩
  · simp [isspace]; omega
  · rintro rest ⟨c, t, rfl, hc⟩
    have hc1 : ¬ (48 ≤ c ∧ c ≤ 57) := by
      simp only [isspace, Bool.or_eq_true, beq_iff_eq] at hc
      omega
    have hc2 : c ≠ 46 := by
      simp only [isspace, Bool.or_eq_true, beq_iff_eq] at hc
      omega
    have hsp : isspace (48 + d) = false := by simp [isspace]; omega
    have h45 : 48 + d ≠ 45 := by omega
    have h43 : 48 + d ≠ 43 := by omega
    have hdig : 48 ≤ 48 + d ∧ 48 + d ≤ 57 := by omega
    simp [scan_decimal, digit, List.dropWhile, hsp, h45, h43, scan_digits, hdig, hc1, hc2]


theorem white_nil : white [] := fun c hc => absurd hc (List.not_mem_nil c)

theorem digits_wf (a b c : Nat) (ha : a ≤ 9) (hb : b ≤ 9) (hc : c ≤ 9) :
    (digits a b c).wf scan_decimal :=
  ⟨scan_decimal_digit a ha, scan_decimal_digit b hb, scan_decimal_digit c hc,
    white_nil, white_nil, white_nil, white_nil, white_nil, white_nil⟩

theorem example_camera_wf : example_camera.wf scan_decimal := by
  have h32 : white [32] := by unfold white; decide
  refine ⟨by decide, ?_, List.Perm.refl _, white_nil, white_nil, white_nil, white_nil, h32, h32⟩
  intro f hf
  simp only [example_camera, List.mem_cons, List.mem_singleton, List.not_mem_nil, or_false] at hf
  rcases hf with rfl | rfl
  · exact ⟨scan_decimal_digit 1 (by decide), white_nil, white_nil, white_nil, white_nil⟩
  · exact ⟨scan_decimal_digit 2 (by decide), h32, h32, h32, white_nil⟩

theorem example_sphere_wf : example_sphere.wf scan_decimal := by
  have h10 : white [10] := by unfold white; decide
  refine ⟨by decide, ?_, ?_, white_nil, white_nil, white_nil, white_nil, h10, white_nil⟩
  · intro f hf
    simp only [example_sphere, List.mem_cons, List.mem_singleton, List.not_mem_nil,
      or_false] at hf
    rcases hf with rfl | rfl | rfl
    · exact ⟨scan_decimal_digit 1 (by decide), white_nil, white_nil, white_nil, white_nil⟩
    · exact ⟨digits_wf 1 0 0 (by decide) (by decide) (by decide),
        white_nil, white_nil, white_nil, white_nil⟩
    · exact ⟨digits_wf 0 0 5 (by decide) (by decide) (by decide),
        white_nil, white_nil, white_nil, white_nil⟩
  · decide

/-- The text of the example scene. -/
theorem example_text :
    scene_text [32] [32] example_camera [example_sphere] []
      = bytes (" [ \x7b\"type\":\"camera\",\"width\":1, \"height\" : 2\x7d , "
          ++ "\x7b\"type\":\"sphere\",\"radius\":1,\"color\":[1,0,0],\"position\":[0,0,5]\x7d\n]") := by
  decide

/-- A witness for C7: a scene of a camera and a sphere, the fields of the sphere
in another order than the data model lists them, with white space at several
places. -/
theorem read_scene_well_formed_witness :
    ∃ objects, read_scene scan_decimal blank 6
        (bytes (" [ \x7b\"type\":\"camera\",\"width\":1, \"height\" : 2\x7d , "
          ++ "\x7b\"type\":\"sphere\",\"radius\":1,\"color\":[1,0,0],\"position\":[0,0,5]\x7d\n]"))
        = .ok (objects.map some ++ [none]) ∧
      List.Forall₂ (fun x o => o.kind = x.kind ∧ ∀ f, f ∈ x.fields → f.value.holds o)
        [example_camera, example_sphere] objects :=
  example_text ▸
    read_scene_well_formed scan_decimal blank [32] [32] example_camera [example_sphere] [] 6
      (by unfold white; decide) (by unfold white; decide)
      (fun x hx => by
        simp only [List.mem_cons, List.mem_singleton, List.not_mem_nil, or_false] at hx
        rcases hx with rfl | rfl
        · exact example_camera_wf
        · exact example_sphere_wf)
      (by decide) (by decide)

/-! ## Unknown keys and stray bytes -/

/-- For a key that is none of the six names, `read_value` reads nothing: the
value that follows the colon is left in the input. -/
theorem read_value_unknown {α : Type} (scan : List Nat → Option (α × List Nat)) (obj : Object α)
    (key json : List Nat) (h1 : key ≠ str_width) (h2 : key ≠ str_height)
    (h3 : key ≠ str_radius) (h4 : key ≠ str_color) (h5 : key ≠ str_position)
    (h6 : key ≠ str_normal) : read_value scan obj key json = .ok (obj, json) := by
  simp [read_value, h1, h2, h3, h4, h5, h6, pure, Except.pure]

/-- Where an entry is expected, a byte other than `]` and `{` is dropped and the
loop goes on with the next byte. -/
theorem read_objects_skip {α : Type} (scan : List Nat → Option (α × List Nat))
    (fresh : Nat → Object α) (fuel : Nat) (objects : List (Object α)) (c : Nat)
    (json : List Nat) (h1 : c ≠ 93) (h2 : c ≠ 123) :
    read_objects scan fresh (fuel + 1) objects (c :: json)
      = read_objects scan fresh fuel objects json := by
  simp [read_objects, h1, h2]

/-- C8, on the code: a camera entry with its two required fields and the extra
field `"foo":5` is rejected with "Unexpected value", whether the extra field
comes last or first: the value 5 is not read and the loop meets its first byte
where it expects `,` or `}`.  With no value after `"foo":` the entry is rejected
with "Bad value count", because the unknown key was counted as a value. -/
theorem read_scene_unknown_key :
    read_scene scan_decimal blank 10
        (bytes "[\x7b\"type\":\"camera\",\"width\":1,\"height\":2,\"foo\":5\x7d]")
      = .exit .unexpectedValue ∧
    read_scene scan_decimal blank 10
        (bytes "[\x7b\"type\":\"camera\",\"foo\":5,\"width\":1,\"height\":2\x7d]")
      = .exit .unexpectedValue ∧
    read_scene scan_decimal blank 10
        (bytes "[\x7b\"type\":\"camera\",\"width\":1,\"height\":2,\"foo\":\x7d]")
      = .exit .badValueCount := by
  refine ⟨?_, ?_, ?_⟩ <;> decide!

/-- C9, on the code: an immediate `]` is rejected, but a scene with the stray
byte `x` between `[` and the first entry is accepted. -/
theorem read_scene_stray_byte :
    read_scene scan_decimal blank 10 (bytes "[ ]") = .exit .worstSceneFile ∧
    read_scene scan_decimal blank 10
        (bytes "[x\x7b\"type\":\"camera\",\"width\":1,\"height\":2\x7d]")
      = .ok [some ⟨0, ⟨0, 0, 0⟩, 1, 2, 0, 0, 0, 0⟩, none] := by
  refine ⟨?_, ?_⟩ <;> decide!


/-! ## The plane -/

/-- C15. Over the reals, for a ray and a plane with `n . Rd ≠ 0`, the value `t`
of `plane_intersection` satisfies `n . (Ro + t * Rd - P) = 0`, and it is the
only parameter that does. -/
theorem plane_intersection_on_plane (Ro Rd P n : Vec3 ℝ)
    (h : n.v0 * Rd.v0 + n.v1 * Rd.v1 + n.v2 * Rd.v2 ≠ 0) :
    planeEq Ro Rd P n (plane_intersection id Ro Rd P n) = 0 ∧
    ∀ t, planeEq Ro Rd P n t = 0 → t = plane_intersection id Ro Rd P n := by
  have hlin : ∀ t, planeEq Ro Rd P n t
      = (n.v0 * (Ro.v0 - P.v0) + n.v1 * (Ro.v1 - P.v1) + n.v2 * (Ro.v2 - P.v2))
        + t * (n.v0 * Rd.v0 + n.v1 * Rd.v1 + n.v2 * Rd.v2) := by
    intro t; simp only [planeEq]; ring
  constructor
  · rw [hlin]
    simp only [plane_intersection, id_eq]
    field_simp
    ring
  · intro t ht
    rw [hlin] at ht
    simp only [plane_intersection, id_eq]
    field_simp
    linarith

/-- A witness for C15: the ray from the origin along `+z` and the plane through
`(0, 0, 3)` with normal `(0, 0, 2)`. -/
theorem plane_intersection_on_plane_witness :
    planeEq (⟨0, 0, 0⟩ : Vec3 ℝ) ⟨0, 0, 1⟩ ⟨0, 0, 3⟩ ⟨0, 0, 2⟩
      (plane_intersection id ⟨0, 0, 0⟩ ⟨0, 0, 1⟩ ⟨0, 0, 3⟩ ⟨0, 0, 2⟩) = 0 :=
  (plane_intersection_on_plane ⟨0, 0, 0⟩ ⟨0, 0, 1⟩ ⟨0, 0, 3⟩ ⟨0, 0, 2⟩ (by norm_num)).1

/-! ## The view plane -/

/-- The first component of every ray target lies in `[-w/2, w/2]`. -/
theorem ray_target_v0_bounds (w h : ℝ) (N M x y : Nat) (hN : 1 ≤ N) (hw : 0 < w) (hx : x < N) :
    -(w / 2) ≤ (ray_target id w h N M x y).v0 ∧ (ray_target id w h N M x y).v0 ≤ w / 2 := by
  have hNpos : (0 : ℝ) < N := by exact_mod_cast hN
  have hxN : (x : ℝ) + 1 ≤ N := by exact_mod_cast hx
  have hx0 : (0 : ℝ) ≤ x := Nat.cast_nonneg x
  have hq : w / N * ((x : ℝ) + 1 / 2) = w * (((x : ℝ) + 1 / 2) / N) := by
    field_simp
    ring
  have h1 : 0 ≤ ((x : ℝ) + 1 / 2) / N := by positivity
  have h2 : ((x : ℝ) + 1 / 2) / N ≤ 1 := by
    rw [div_le_one hNpos]; linarith
  simp only [ray_target, id_eq]
  rw [hq]
  constructor
  · nlinarith
  · nlinarith

/-- In the first round of the row loop, `y = M`, the second component of the ray
target is `h/2 + (h/M)/2`: above the upper edge `h/2` of the view plane. -/
theorem ray_target_top_row (w h : ℝ) (N M x : Nat) (hM : 1 ≤ M) (hh : 0 < h) :
    (ray_target id w h N M x M).v1 = h / 2 + h / M / 2 ∧ h / 2 < (ray_target id w h N M x M).v1 := by
  have hMpos : (0 : ℝ) < M := by exact_mod_cast hM
  have hv : (ray_target id w h N M x M).v1 = h / 2 + h / M / 2 := by
    simp only [ray_target, id_eq]
    field_simp
    ring
  refine ⟨hv, ?_⟩
  rw [hv]
  have : 0 < h / M / 2 := by positivity
  linarith

/-- C17, on the code: for the camera of width and height 1 at resolution 1 by 1
the second component of the ray target is 1, outside `[-1/2, 1/2]`; for width
and height 2 at resolution 2 by 2 the row `y = 2` has second component `3/2`,
outside `[-1, 1]`. -/
theorem ray_target_outside_view_plane :
    (ray_target id (1 : ℝ) 1 1 1 0 1).v1 = 1 ∧ ¬ ((ray_target id (1 : ℝ) 1 1 1 0 1).v1 ≤ 1 / 2) ∧
    (ray_target id (2 : ℝ) 2 2 2 0 2).v1 = 3 / 2 ∧ ¬ ((ray_target id (2 : ℝ) 2 2 2 0 2).v1 ≤ 2 / 2) := by
  have h1 : (ray_target id (1 : ℝ) 1 1 1 0 1).v1 = 1 := by
    simp only [ray_target, id_eq]; norm_num
  have h2 : (ray_target id (2 : ℝ) 2 2 2 0 2).v1 = 3 / 2 := by
    simp only [ray_target, id_eq]; norm_num
  refine ⟨h1, ?_, h2, ?_⟩
  · rw [h1]; norm_num
  · rw [h2]; norm_num

/-! ## The buffer index -/

/-- C20, as amended: for `N ≥ 1`, `M ≥ 1` with `N * M ≤ 2 ^ 31`, the index
`p = (M - y)*N + x` is computed without overflow, it maps the loop domain one
to one onto `[0, N * M)`, and the row `y = M` takes the slots `0 .. N - 1`. -/
theorem buffer_index_bijective (N M : Nat) (hN : 1 ≤ N) (hM : 1 ≤ M)
    (hNM : N * M ≤ 2147483648) :
    (∀ x y, x < N → 1 ≤ y → y ≤ M →
      buffer_index N M y x = (((M - y) * N + x : Nat) : Int) ∧ (M - y) * N + x < N * M) ∧
    (∀ x y x1 y1, x < N → 1 ≤ y → y ≤ M → x1 < N → 1 ≤ y1 → y1 ≤ M →
      buffer_index N M y x = buffer_index N M y1 x1 → x = x1 ∧ y = y1) ∧
    (∀ p, p < N * M → ∃ x y, x < N ∧ 1 ≤ y ∧ y ≤ M ∧ buffer_index N M y x = (p : Int)) ∧
    (∀ x, x < N → buffer_index N M M x = (x : Int)) := by
  refine ⟨?_, ?_, ?_, ?_⟩
  · intro x y hx hy1 hy
    exact ⟨buffer_index_eq N M x y hNM hx hy1 hy, index_lt N M x y hx hy1 hy⟩
  · intro x y x1 y1 hx hy1 hy hx1 hy11 hy1M heq
    rw [buffer_index_eq N M x y hNM hx hy1 hy, buffer_index_eq N M x1 y1 hNM hx1 hy11 hy1M] at heq
    have heq1 : (M - y) * N + x = (M - y1) * N + x1 := by exact_mod_cast heq
    have hmod : ∀ k z, z < N → (k * N + z) % N = z := by
      intro k z hz
      rw [Nat.add_comm, Nat.add_mul_mod_self_right]; exact Nat.mod_eq_of_lt hz
    have hdiv : ∀ k z, z < N → (k * N + z) / N = k := by
      intro k z hz
      rw [Nat.add_comm, Nat.add_mul_div_right _ _ (by omega : 0 < N), Nat.div_eq_of_lt hz]
      omega
    have hxx : x = x1 := by
      have := congrArg (fun v => v % N) heq1
      simpa [hmod _ _ hx, hmod _ _ hx1] using this
    have hyy : M - y = M - y1 := by
      have := congrArg (fun v => v / N) heq1
      simpa [hdiv _ _ hx, hdiv _ _ hx1] using this
    exact ⟨hxx, by omega⟩
  · intro p hp
    have hNpos : 0 < N := by omega
    have hq : p / N < M := by
      rw [Nat.div_lt_iff_lt_mul hNpos, Nat.mul_comm]; exact hp
    have hy1 : 1 ≤ M - p / N := by omega
    have hyM : M - p / N ≤ M := Nat.sub_le _ _
    refine ⟨p % N, M - p / N, Nat.mod_lt _ hNpos, hy1, hyM, ?_⟩
    rw [buffer_index_eq N M _ _ hNM (Nat.mod_lt _ hNpos) hy1 hyM]
    have hk : M - (M - p / N) = p / N := by omega
    rw [hk, Nat.mul_comm, Nat.div_add_mod]
  · intro x hx
    rw [buffer_index_eq N M x M hNM hx hM (le_refl M)]
    simp

/-- A witness for the amended C20: the image of 2 columns and 3 rows. -/
theorem buffer_index_bijective_witness :
    (buffer_index ((2 : Nat) : Int) ((3 : Nat) : Int) ((2 : Nat) : Int) ((1 : Nat) : Int)
        = (((3 - 2) * 2 + 1 : Nat) : Int) ∧ (3 - 2) * 2 + 1 < 2 * 3) ∧
    (∃ x y : Nat, x < 2 ∧ 1 ≤ y ∧ y ≤ 3 ∧
      buffer_index ((2 : Nat) : Int) ((3 : Nat) : Int) (y : Int) (x : Int) = ((5 : Nat) : Int)) ∧
    buffer_index ((2 : Nat) : Int) ((3 : Nat) : Int) ((3 : Nat) : Int) ((1 : Nat) : Int)
      = ((1 : Nat) : Int) :=
  ⟨(buffer_index_bijective 2 3 (by decide) (by decide) (by decide)).1 1 2
      (by decide) (by decide) (by decide),
   (buffer_index_bijective 2 3 (by decide) (by decide) (by decide)).2.2.1 5 (by decide),
   (buffer_index_bijective 2 3 (by decide) (by decide) (by decide)).2.2.2 1 (by decide)⟩

/-- C20, as stated, fails for large images: at `N = M = 65536`, in the row
`y = 32768` and the column `x = 0` of the loop domain, the product
`(M - y)*N` is `2 ^ 31`, which is not an `int`, and the index is negative. -/
theorem buffer_index_overflow :
    (0 : Int) < 65536 ∧ (1 : Int) ≤ 32768 ∧ (32768 : Int) ≤ 65536 ∧
    buffer_index 65536 65536 32768 0 = -2147483648 ∧
    ¬ (0 ≤ buffer_index 65536 65536 32768 0) := by
  decide

/-! ## The colour of a pixel -/

theorem fields_upto_head {α : Type} (fs : List (Field α)) (d : Nat) (t : List Nat)
    (hd : d = 44 ∨ d = 125) :
    ∃ d1 t1, fields_upto fs (d :: t) = d1 :: t1 ∧ (d1 = 44 ∨ d1 = 125) := by
  cases fs with
  | nil => exact ⟨d, t, rfl, hd⟩
  | cons f fs => exact ⟨44, _, rfl, Or.inl rfl⟩

/-- The fields of an opening are read one after the other: the inner loop gets
to what follows them with the fields stored and counted. -/
theorem read_fields_upto {α : Type} (scan : List Nat → Option (α × List Nat))
    (fs : List (Field α)) (obj : Object α) (valcnt fuel d : Nat) (t : List Nat)
    (hfs : ∀ f, f ∈ fs → f.wf scan ∧ f.value.key ∈ required obj.kind)
    (hd : d = 44 ∨ d = 125) (hfuel : fs.length ≤ fuel) :
    read_fields scan fuel obj valcnt (fields_upto fs (d :: t))
      = read_fields scan (fuel - fs.length) (fs.foldl (fun o f => f.value.store o) obj)
          (valcnt + fs.length) (d :: t) := by
  induction fs generalizing obj valcnt fuel with
  | nil => rfl
  | cons f fs ih =>
    obtain ⟨fuel, rfl⟩ : ∃ n, fuel = n + 1 := ⟨fuel - 1, by simp at hfuel; omega⟩
    obtain ⟨d1, t1, ht, hd1⟩ := fields_upto_head fs d t hd
    have hpair := read_pair_text scan obj f d1 t1 (hfs f (List.mem_cons_self f fs)).1
      (hfs f (List.mem_cons_self f fs)).2 hd1
    simp only [fields_upto, Field.text, read_fields, next_c, ht, hpair]
    simp only [show (44 : Nat) = 125 ↔ False by decide, if_false, if_true, List.foldl_cons]
    rw [← ht, ih (f.value.store obj) (valcnt + 1) fuel
      (fun g hg => by rw [store_kind]; exact hfs g (List.mem_cons_of_mem _ hg))
      (by simp only [List.length_cons] at hfuel; omega)]
    simp only [List.length_cons]
    rw [show fuel + 1 - (fs.length + 1) = fuel - fs.length by omega,
      show valcnt + 1 + fs.length = valcnt + (fs.length + 1) by omega]

theorem entries_upto_head {α : Type} (es : List (Entry α)) (t : List Nat) :
    ∃ r, entries_upto es (123 :: t) = 123 :: r := by
  cases es with
  | nil => exact ⟨_, rfl⟩
  | cons e es => exact ⟨_, rfl⟩

/-- The entries of a context are read one after the other: the outer loop gets
to what follows them with their objects in the store. -/
theorem read_objects_upto {α : Type} (scan : List Nat → Option (α × List Nat))
    (fresh : Nat → Object α) (es : List (Entry α)) (objects : List (Object α)) (fuel : Nat)
    (t : List Nat) (hwf : ∀ e, e ∈ es → e.wf scan) (hlen : objects.length + es.length ≤ 128)
    (hfuel : es.length + 4 ≤ fuel) :
    read_objects scan fresh fuel objects (entries_upto es (123 :: t))
      = read_objects scan fresh (fuel - es.length)
          (objects ++ objects_of fresh objects.length es) (123 :: t) := by
  induction es generalizing objects fuel with
  | nil => simp [entries_upto, objects_of]
  | cons e es ih =>
    obtain ⟨fuel, rfl⟩ : ∃ n, fuel = n + 1 := ⟨fuel - 1, by omega⟩
    have he := hwf e (List.mem_cons_self e _)
    simp only [List.length_cons] at hlen hfuel
    have hcount : ¬ objects.length + 1 > 128 := by omega
    have h123 : ¬ (123 : Nat) = 93 := by decide
    obtain ⟨htype, hfields⟩ :=
      read_entry_text scan e (fresh objects.length) fuel
        (44 :: (e.w6 ++ entries_upto es (123 :: t))) he (by omega)
    have hsep : read_separator (e.w5 ++ 44 :: (e.w6 ++ entries_upto es (123 :: t)))
        = .ok (none, entries_upto es (123 :: t)) := by
      obtain ⟨r, hr⟩ := entries_upto_head es t
      rw [hr]
      exact read_separator_comma e.w5 e.w6 _ he.2.2.2.2.2.2.2.1 he.2.2.2.2.2.2.2.2
    have ih1 := ih (objects ++ [e.object (fresh objects.length)]) fuel
      (fun x hx => hwf x (List.mem_cons_of_mem _ hx))
      (by simp only [List.length_append, List.length_cons, List.length_nil]; omega)
      (by omega)
    rw [show entries_upto (e :: es) (123 :: t)
      = 123 :: e.body (44 :: (e.w6 ++ entries_upto es (123 :: t))) from rfl]
    simp only [read_objects, h123, if_false, if_true, htype, hfields, hcount, hsep, ih1]
    simp [objects_of]

/-- The beginning of a scene is read up to the `{` of the entry that follows
it. -/
theorem read_scene_context {α : Type} (scan : List Nat → Option (α × List Nat))
    (fresh : Nat → Object α) (c : Context α) (fuel : Nat) (t : List Nat) (hc : c.wf scan)
    (hfuel : c.entries.length + 4 ≤ fuel) :
    read_scene scan fresh fuel (c.text (123 :: t))
      = read_objects scan fresh (fuel - c.entries.length) (objects_of fresh 0 c.entries)
          (123 :: t) := by
  obtain ⟨h0, h1, hwf, hlen⟩ := hc
  obtain ⟨r, hr⟩ := entries_upto_head c.entries t
  have hskip : skip_ws (c.w1 ++ entries_upto c.entries (123 :: t))
      = .ok (entries_upto c.entries (123 :: t)) := by
    rw [hr]; exact skip_ws_white c.w1 123 _ h1 rfl
  simp only [read_scene, Context.text, skip_ws_white c.w0 91 _ h0 rfl, expect_c_cons, hskip]
  rw [read_objects_upto scan fresh c.entries [] fuel t hwf (by simpa using hlen) hfuel]
  simp

theorem objects_of_length {α : Type} (fresh : Nat → Object α) (i : Nat) (es : List (Entry α)) :
    (objects_of fresh i es).length = es.length := by
  induction es generalizing i with
  | nil => rfl
  | cons e es ih => simp [objects_of, ih]

/-- An exit of `read_type` is an exit of `read_scene`, whatever well-formed
entries come before the entry. -/
theorem read_scene_type_error {α : Type} (scan : List Nat → Option (α × List Nat))
    (fresh : Nat → Object α) (c : Context α) (fuel : Nat) (json : List Nat) (e : Err)
    (hc : c.wf scan) (hfuel : c.entries.length + 5 ≤ fuel) (h : read_type json = .error e) :
    read_scene scan fresh fuel (c.text (123 :: json)) = .exit e := by
  rw [read_scene_context scan fresh c fuel json hc (by omega)]
  obtain ⟨n, hn⟩ : ∃ n, fuel - c.entries.length = n + 1 :=
    ⟨fuel - c.entries.length - 1, by omega⟩
  rw [hn]
  simp [read_objects, h]

/-! ## The type of an entry -/

theorem read_type_bad_key (w1 key tail : List Nat) (h1 : white w1) (hlen : key.length ≤ 128)
    (hkey : ∀ c, c ∈ key → string_byte c) (hne : key ≠ str_type) :
    read_type (w1 ++ 34 :: (key ++ 34 :: tail)) = .error .expectedTypeKey := by
  simp only [read_type, bind, Except.bind, skip_ws_white _ 34 _ h1 rfl,
    next_string_quoted key tail hlen hkey]
  simp [hne, throw, throwThe, MonadExceptOf.throw]

theorem read_type_value (w1 w2 w3 w4 value : List Nat) (d : Nat) (t : List Nat) (h1 : white w1)
    (h2 : white w2) (h3 : white w3) (h4 : white w4) (hlen : value.length ≤ 128)
    (hvalue : ∀ c, c ∈ value → string_byte c) (hd : isspace d = false) :
    read_type (w1 ++ 34 :: (str_type ++ 34 :: (w2 ++ 58 :: (w3 ++ 34 :: (value ++
        34 :: (w4 ++ d :: t))))))
      = if value = str_camera then .ok (0, d :: t)
        else if value = str_sphere then .ok (1, d :: t)
        else if value = str_plane then .ok (2, d :: t)
        else .error .unknownType := by
  have htype : ∀ r, next_string (34 :: (str_type ++ 34 :: r)) = .ok (str_type, r) := fun r =>
    next_string_quoted _ r (by decide) (by simp [str_type, string_byte])
  simp only [read_type, bind, Except.bind, skip_ws_white _ 34 _ h1 rfl, htype,
    skip_ws_white _ 58 _ h2 rfl, expect_c_cons, skip_ws_white _ 34 _ h3 rfl,
    next_string_quoted value _ hlen hvalue]
  by_cases hc : value = str_camera
  · simp [hc, pure, Except.pure, skip_ws_white _ d _ h4 hd]
  · by_cases hs : value = str_sphere
    · simp [hs, pure, Except.pure, skip_ws_white _ d _ h4 hd, str_sphere, str_camera]
    · by_cases hp : value = str_plane
      · simp [hp, pure, Except.pure, skip_ws_white _ d _ h4 hd, str_sphere, str_camera,
          str_plane]
      · simp [hc, hs, hp, throw, throwThe, MonadExceptOf.throw, pure, Except.pure]

theorem bind_ok_inv {β γ : Type} (x : Except Err β) (f : β → Except Err γ) (c : γ)
    (h : (x >>= f) = .ok c) : ∃ a, x = .ok a ∧ f a = .ok c := by
  cases x with
  | error e => cases h
  | ok a => exact ⟨a, rfl, h⟩

/-- The function `read_value` never changes the kind of the object. -/
theorem read_value_kind {α : Type} (scan : List Nat → Option (α × List Nat)) (obj obj1 : Object α)
    (key json json1 : List Nat) (h : read_value scan obj key json = .ok (obj1, json1)) :
    obj1.kind = obj.kind := by
  unfold read_value at h
  split_ifs at h
  all_goals
    first
    | (simp only [pure, Except.pure, Except.ok.injEq, Prod.mk.injEq] at h
       rw [← h.1])
    | (obtain ⟨⟨value, j⟩, _, hf⟩ := bind_ok_inv _ _ _ h
       first
       | (simp only [pure, Except.pure, Except.ok.injEq, Prod.mk.injEq] at hf
          rw [← hf.1])
       | (simp [throw, throwThe, MonadExceptOf.throw] at hf))

theorem read_pair_kind {α : Type} (scan : List Nat → Option (α × List Nat)) (obj obj1 : Object α)
    (json json1 : List Nat) (h : read_pair scan obj json = .ok (obj1, json1)) :
    obj1.kind = obj.kind := by
  unfold read_pair at h
  obtain ⟨j1, _, h⟩ := bind_ok_inv _ _ _ h
  obtain ⟨k, _, h⟩ := bind_ok_inv _ _ _ h
  obtain ⟨j2, _, h⟩ := bind_ok_inv _ _ _ h
  obtain ⟨j3, _, h⟩ := bind_ok_inv _ _ _ h
  obtain ⟨j4, _, h⟩ := bind_ok_inv _ _ _ h
  obtain ⟨r, hr, h⟩ := bind_ok_inv _ _ _ h
  obtain ⟨j5, _, h⟩ := bind_ok_inv _ _ _ h
  simp only [pure, Except.pure, Except.ok.injEq, Prod.mk.injEq] at h
  rw [← h.1]
  exact read_value_kind scan obj r.1 k.1 j4 r.2 hr

/-- The inner loop never changes the kind of the object. -/
theorem read_fields_kind {α : Type} (scan : List Nat → Option (α × List Nat)) (fuel : Nat)
    (obj obj1 : Object α) (valcnt : Nat) (json json1 : List Nat)
    (h : read_fields scan fuel obj valcnt json = .ok (obj1, json1)) : obj1.kind = obj.kind := by
  induction fuel generalizing obj valcnt json with
  | zero => simp [read_fields] at h
  | succ fuel ih =>
    cases json with
    | nil => simp [read_fields, next_c] at h
    | cons c json =>
      simp only [read_fields, next_c] at h
      split_ifs at h
      · cases hc : check_valcnt obj.kind valcnt with
        | error e => rw [hc] at h; cases h
        | ok u =>
          rw [hc] at h
          simp only [Res.ok.injEq, Prod.mk.injEq] at h
          rw [← h.1]
      · cases hp : read_pair scan obj json with
        | error e => rw [hp] at h; cases h
        | ok r =>
          rw [hp] at h
          rw [ih _ _ _ h]
          exact read_pair_kind scan obj r.1 json r.2 hp

/-- The round of the outer loop at the `{` of an entry, when it returns a
store: the type and the fields were read, the store had room, and the store is
closed right after the entry or by the rounds that follow. -/
theorem read_objects_entry_inv {α : Type} (scan : List Nat → Option (α × List Nat))
    (fresh : Nat → Object α) (fuel : Nat) (objects : List (Object α)) (json : List Nat)
    (store : List (Option (Object α)))
    (h : read_objects scan fresh (fuel + 1) objects (123 :: json) = .ok store) :
    ∃ kind j1 obj j2, read_type json = .ok (kind, j1) ∧
      read_fields scan fuel { fresh objects.length with kind := kind } 0 j1 = .ok (obj, j2) ∧
      (store = (objects ++ [obj]).map some ++ [none] ∨
        ∃ j3, read_objects scan fresh fuel (objects ++ [obj]) j3 = .ok store) := by
  simp only [read_objects, show (123 : Nat) = 93 ↔ False by decide, if_false, if_true] at h
  cases hT : read_type json with
  | error e => rw [hT] at h; cases h
  | ok r =>
    obtain ⟨kind, j1⟩ := r
    rw [hT] at h
    simp only at h
    cases hF : read_fields scan fuel { fresh objects.length with kind := kind } 0 j1 with
    | fuel => rw [hF] at h; cases h
    | exit e => rw [hF] at h; cases h
    | ok r =>
      obtain ⟨obj, j2⟩ := r
      rw [hF] at h
      simp only at h
      by_cases hcount : objects.length + 1 > 128
      · rw [if_pos hcount] at h; cases h
      · rw [if_neg hcount] at h
        cases hS : read_separator j2 with
        | error e => rw [hS] at h; cases h
        | ok r =>
          obtain ⟨sep, j3⟩ := r
          rw [hS] at h
          refine ⟨kind, j1, obj, j2, rfl, hF, ?_⟩
          cases sep with
          | none => exact Or.inr ⟨j3, h⟩
          | some u =>
            simp only [Res.ok.injEq] at h
            exact Or.inl h.symm

/-- A store that the outer loop returns holds the objects already closed, then
further objects, then the `NULL`. -/
theorem read_objects_extends {α : Type} (scan : List Nat → Option (α × List Nat))
    (fresh : Nat → Object α) (fuel : Nat) (objects : List (Object α)) (json : List Nat)
    (store : List (Option (Object α)))
    (h : read_objects scan fresh fuel objects json = .ok store) :
    ∃ more, store = (objects ++ more).map some ++ [none] := by
  induction fuel generalizing objects json with
  | zero => simp [read_objects] at h
  | succ fuel ih =>
    cases json with
    | nil => exact ih _ _ (by simpa [read_objects] using h)
    | cons c json =>
      by_cases h93 : c = 93
      · simp [read_objects, h93] at h
      · by_cases h123 : c = 123
        · subst h123
          obtain ⟨kind, j1, obj, j2, _, _, hstore | ⟨j3, hnext⟩⟩ :=
            read_objects_entry_inv scan fresh fuel objects json store h
          · exact ⟨[obj], hstore⟩
          · obtain ⟨more, hmore⟩ := ih _ _ hnext
            exact ⟨obj :: more, by simp [hmore]⟩
        · exact ih objects json (by simpa [read_objects, h93, h123] using h)

theorem get_after_map {α : Type} (objects : List (Object α)) (x : Option (Object α))
    (rest : List (Option (Object α))) :
    (objects.map some ++ x :: rest).get? objects.length = some x := by
  induction objects with
  | nil => rfl
  | cons o os ih => simpa using ih

/-- When the outer loop returns a store, the slot of an entry whose type was read
as `kind` holds an object of that kind. -/
theorem read_objects_entry_kind {α : Type} (scan : List Nat → Option (α × List Nat))
    (fresh : Nat → Object α) (fuel : Nat) (objects : List (Object α)) (json j1 : List Nat)
    (kind : Nat) (store : List (Option (Object α)))
    (h : read_objects scan fresh (fuel + 1) objects (123 :: json) = .ok store)
    (hT : read_type json = .ok (kind, j1)) :
    ∃ obj, store.get? objects.length = some (some obj) ∧ obj.kind = kind := by
  obtain ⟨kind1, j11, obj, j2, hT1, hF, hstore⟩ :=
    read_objects_entry_inv scan fresh fuel objects json store h
  rw [hT] at hT1
  simp only [Except.ok.injEq, Prod.mk.injEq] at hT1
  obtain ⟨hk, _⟩ := hT1
  subst hk
  have hkind : obj.kind = kind := read_fields_kind scan fuel _ obj 0 j11 j2 hF
  refine ⟨obj, ?_, hkind⟩
  rcases hstore with hstore | ⟨j3, hnext⟩
  · rw [hstore, show (objects ++ [obj]).map some ++ [none]
      = objects.map some ++ some obj :: [none] by simp]
    exact get_after_map objects _ _
  · obtain ⟨more, hmore⟩ := read_objects_extends scan fresh fuel _ _ _ hnext
    rw [hmore, show (objects ++ [obj] ++ more).map some ++ [none]
      = objects.map some ++ some obj :: (more.map some ++ [none]) by simp]
    exact get_after_map objects _ _

theorem read_type_unknown (w1 w2 w3 value tail : List Nat) (h1 : white w1) (h2 : white w2)
    (h3 : white w3) (hlen : value.length ≤ 128) (hvalue : ∀ c, c ∈ value → string_byte c)
    (hc : value ≠ str_camera) (hs : value ≠ str_sphere) (hp : value ≠ str_plane) :
    read_type (w1 ++ 34 :: (str_type ++ 34 :: (w2 ++ 58 :: (w3 ++ 34 :: (value ++ 34 :: tail)))))
      = .error .unknownType := by
  have htype : ∀ r, next_string (34 :: (str_type ++ 34 :: r)) = .ok (str_type, r) := fun r =>
    next_string_quoted _ r (by decide) (by simp [str_type, string_byte])
  simp only [read_type, bind, Except.bind, skip_ws_white _ 34 _ h1 rfl, htype,
    skip_ws_white _ 58 _ h2 rfl, expect_c_cons, skip_ws_white _ 34 _ h3 rfl,
    next_string_quoted value _ hlen hvalue]
  simp [hc, hs, hp, throw, throwThe, MonadExceptOf.throw, pure, Except.pure]

/-- C14. For an entry that follows well-formed entries: when its first key is a
string other than `"type"`, `read_scene` exits with "Expected \"type\" key";
when the key is `"type"` and the value is a string other than `"camera"`,
`"sphere"` and `"plane"`, it exits with "Unknown type"; when the value is
`"camera"`, `"sphere"` or `"plane"` and `read_scene` returns a store, the slot
of the entry holds an object of kind 0, 1 or 2. -/
theorem read_scene_entry_type {α : Type} (scan : List Nat → Option (α × List Nat))
    (fresh : Nat → Object α) (c : Context α) (fuel : Nat) (hc : c.wf scan)
    (hfuel : c.entries.length + 5 ≤ fuel) :
    (∀ w1 key tail, white w1 → key.length ≤ 128 → (∀ b, b ∈ key → string_byte b) →
      key ≠ str_type →
      read_scene scan fresh fuel (c.text (123 :: (w1 ++ 34 :: (key ++ 34 :: tail))))
        = .exit .expectedTypeKey) ∧
    (∀ w1 w2 w3 value tail, white w1 → white w2 → white w3 → value.length ≤ 128 →
      (∀ b, b ∈ value → string_byte b) →
      value ≠ str_camera → value ≠ str_sphere → value ≠ str_plane →
      read_scene scan fresh fuel (c.text (123 :: (w1 ++ 34 :: (str_type ++ 34 :: (w2 ++ 58 ::
        (w3 ++ 34 :: (value ++ 34 :: tail))))))) = .exit .unknownType) ∧
    (∀ w1 w2 w3 w4 value kind d t store, white w1 → white w2 → white w3 → white w4 →
      (value = str_camera ∧ kind = 0 ∨ value = str_sphere ∧ kind = 1 ∨
        value = str_plane ∧ kind = 2) →
      isspace d = false →
      read_scene scan fresh fuel (c.text (123 :: (w1 ++ 34 :: (str_type ++ 34 :: (w2 ++ 58 ::
        (w3 ++ 34 :: (value ++ 34 :: (w4 ++ d :: t)))))))) = .ok store →
      ∃ obj, store.get? c.entries.length = some (some obj) ∧ obj.kind = kind) := by
  refine ⟨?_, ?_, ?_⟩
  · intro w1 key tail h1 hlen hkey hne
    exact read_scene_type_error scan fresh c fuel _ _ hc hfuel
      (read_type_bad_key w1 key tail h1 hlen hkey hne)
  · intro w1 w2 w3 value tail h1 h2 h3 hlen hvalue hcam hsph hpl
    exact read_scene_type_error scan fresh c fuel _ _ hc hfuel
      (read_type_unknown w1 w2 w3 value tail h1 h2 h3 hlen hvalue hcam hsph hpl)
  · intro w1 w2 w3 w4 value kind d t store h1 h2 h3 h4 hvk hd hstore
    rw [read_scene_context scan fresh c fuel _ hc (by omega)] at hstore
    obtain ⟨n, hn⟩ : ∃ n, fuel - c.entries.length = n + 1 :=
      ⟨fuel - c.entries.length - 1, by omega⟩
    rw [hn] at hstore
    have hT : read_type (w1 ++ 34 :: (str_type ++ 34 :: (w2 ++ 58 :: (w3 ++ 34 :: (value ++
        34 :: (w4 ++ d :: t)))))) = .ok (kind, d :: t) := by
      have hlen : value.length ≤ 128 := by
        rcases hvk with ⟨rfl, _⟩ | ⟨rfl, _⟩ | ⟨rfl, _⟩ <;> decide
      have hvalue : ∀ b, b ∈ value → string_byte b := by
        rcases hvk with ⟨rfl, _⟩ | ⟨rfl, _⟩ | ⟨rfl, _⟩ <;>
          simp [str_camera, str_sphere, str_plane, string_byte]
      rw [read_type_value w1 w2 w3 w4 value d t h1 h2 h3 h4 hlen hvalue hd]
      rcases hvk with ⟨rfl, rfl⟩ | ⟨rfl, rfl⟩ | ⟨rfl, rfl⟩ <;>
        simp [str_camera, str_sphere, str_plane]
    have := read_objects_entry_kind scan fresh n _ _ _ kind store hstore hT
    rwa [objects_of_length] at this

theorem first_entry_wf : first_entry.wf scan_decimal :=
  ⟨white_nil, by unfold white; decide, fun e he => absurd he (List.not_mem_nil e), by decide⟩

/-- A witness for C14: the entries `{"kind":1}`, `{"type":"cube"}` and
`{"type":"camera","width":1,"height":2}` at the head of a scene. -/
theorem read_scene_entry_type_witness :
    read_scene scan_decimal blank 10
        (first_entry.text (123 :: ([] ++ 34 :: ([107, 105, 110, 100] ++ 34 ::
          bytes ":1\x7d]"))))
      = .exit .expectedTypeKey ∧
    read_scene scan_decimal blank 10
        (first_entry.text (123 :: ([] ++ 34 :: (str_type ++ 34 :: ([] ++ 58 :: ([] ++ 34 ::
          ([99, 117, 98, 101] ++ 34 :: bytes "\x7d]")))))))
      = .exit .unknownType ∧
    ∃ obj, ([some ⟨0, ⟨0, 0, 0⟩, 1, 2, 0, 0, 0, 0⟩, none] : List (Option (Object ℚ))).get?
        first_entry.entries.length = some (some obj) ∧ obj.kind = 0 :=
  ⟨(read_scene_entry_type scan_decimal blank first_entry 10 first_entry_wf (by decide)).1
      [] [107, 105, 110, 100] (bytes ":1\x7d]") white_nil (by decide)
      (by unfold string_byte; decide) (by decide),
   (read_scene_entry_type scan_decimal blank first_entry 10 first_entry_wf (by decide)).2.1
      [] [] [] [99, 117, 98, 101] (bytes "\x7d]") white_nil white_nil white_nil (by decide)
      (by unfold string_byte; decide) (by decide) (by decide) (by decide),
   (read_scene_entry_type scan_decimal blank first_entry 10 first_entry_wf (by decide)).2.2
      [] [] [] [] str_camera 0 44 (bytes "\"width\":1,\"height\":2\x7d]")
      [some ⟨0, ⟨0, 0, 0⟩, 1, 2, 0, 0, 0, 0⟩, none]
      white_nil white_nil white_nil white_nil (Or.inl ⟨rfl, rfl⟩) rfl (by decide!)⟩

/-! ## Keys and value counts -/

theorem read_type_opening {α : Type} (scan : List Nat → Option (α × List Nat)) (o : Opening α)
    (d : Nat) (t : List Nat) (ho : o.wf scan) (hd : d = 44 ∨ d = 125) :
    read_type (o.body (d :: t)) = .ok (o.kind, fields_upto o.fields (d :: t)) := by
  obtain ⟨hk, _, h1, h2, h3, h4⟩ := ho
  obtain ⟨d1, t1, ht, hd1⟩ := fields_upto_head o.fields d t hd
  rw [Opening.body, ht]
  exact read_type_text o.kind o.w1 o.w2 o.w3 o.w4 d1 t1 hk h1 h2 h3 h4 hd1

/-- After the fields of an opening the inner loop stands at what follows them,
with the object of the opening and the number of its fields. -/
theorem read_fields_opening {α : Type} (scan : List Nat → Option (α × List Nat)) (o : Opening α)
    (blk : Object α) (fuel d : Nat) (t : List Nat) (ho : o.wf scan) (hd : d = 44 ∨ d = 125)
    (hfuel : o.fields.length ≤ fuel) :
    read_fields scan fuel { blk with kind := o.kind } 0 (fields_upto o.fields (d :: t))
      = read_fields scan (fuel - o.fields.length) (o.object blk) o.fields.length (d :: t) := by
  rw [read_fields_upto scan o.fields _ 0 fuel d t ho.2.1 hd hfuel, Nat.zero_add]
  rfl

theorem read_objects_opening_exit {α : Type} (scan : List Nat → Option (α × List Nat))
    (fresh : Nat → Object α) (o : Opening α) (objects : List (Object α)) (fuel d : Nat)
    (t : List Nat) (e : Err) (ho : o.wf scan) (hd : d = 44 ∨ d = 125)
    (hfuel : o.fields.length + 1 ≤ fuel)
    (h : read_fields scan (fuel - 1 - o.fields.length) (o.object (fresh objects.length))
      o.fields.length (d :: t) = .exit e) :
    read_objects scan fresh fuel objects (o.text (d :: t)) = .exit e := by
  obtain ⟨n, rfl⟩ : ∃ n, fuel = n + 1 := ⟨fuel - 1, by omega⟩
  simp only [Nat.add_sub_cancel] at h
  simp only [Opening.text, read_objects, show (123 : Nat) = 93 ↔ False by decide, if_false,
    if_true, read_type_opening scan o d t ho hd,
    read_fields_opening scan o (fresh objects.length) n d t ho hd (by omega), h]

theorem read_objects_opening_close {α : Type} (scan : List Nat → Option (α × List Nat))
    (fresh : Nat → Object α) (o : Opening α) (objects : List (Object α)) (fuel d : Nat)
    (t w5 rest : List Nat) (obj : Object α) (ho : o.wf scan) (hd : d = 44 ∨ d = 125)
    (hfuel : o.fields.length + 1 ≤ fuel) (h5 : white w5) (hroom : objects.length < 128)
    (h : read_fields scan (fuel - 1 - o.fields.length) (o.object (fresh objects.length))
      o.fields.length (d :: t) = .ok (obj, w5 ++ 93 :: rest)) :
    read_objects scan fresh fuel objects (o.text (d :: t))
      = .ok ((objects ++ [obj]).map some ++ [none]) := by
  obtain ⟨n, rfl⟩ : ∃ n, fuel = n + 1 := ⟨fuel - 1, by omega⟩
  simp only [Nat.add_sub_cancel] at h
  have hcount : ¬ objects.length + 1 > 128 := by omega
  simp only [Opening.text, read_objects, show (123 : Nat) = 93 ↔ False by decide, if_false,
    if_true, read_type_opening scan o d t ho hd,
    read_fields_opening scan o (fresh objects.length) n d t ho hd (by omega), h, hcount,
    read_separator_close w5 rest h5]

/-- The round of the outer loop for an entry, behind the entries of a context. -/
theorem read_scene_opening {α : Type} (scan : List Nat → Option (α × List Nat))
    (fresh : Nat → Object α) (c : Context α) (o : Opening α) (fuel : Nat) (tail : List Nat)
    (hc : c.wf scan) (hfuel : c.entries.length + 4 ≤ fuel) :
    read_scene scan fresh fuel (c.text (o.text tail))
      = read_objects scan fresh (fuel - c.entries.length) (objects_of fresh 0 c.entries)
          (o.text tail) :=
  read_scene_context scan fresh c fuel (o.body tail) hc hfuel

theorem read_value_bad {α : Type} (scan : List Nat → Option (α × List Nat)) (obj : Object α)
    (v : Value α) (rest : List Nat) (hv : v.wf scan) (hkind : obj.kind ≤ 2)
    (hk : v.key ∉ required obj.kind) (hr : number_end rest) :
    read_value scan obj v.key (v.text rest) = .error .unexpectedKey := by
  have h3 : obj.kind = 0 ∨ obj.kind = 1 ∨ obj.kind = 2 := by omega
  rcases h3 with h0 | h0 | h0 <;> rw [h0] at hk <;> cases v <;>
    simp [required, Value.key, str_width, str_height, str_radius, str_color, str_position,
      str_normal] at hk <;>
    simp only [Value.wf] at hv <;>
    first
    | simp [read_value, Value.key, Value.text, h0, bind, Except.bind, pure,
        Except.pure, next_number_token scan _ rest hv hr, throw, throwThe, MonadExceptOf.throw,
        str_width, str_height, str_radius, str_color, str_position, str_normal]
    | simp [read_value, Value.key, Value.text, h0, bind, Except.bind, pure,
        Except.pure, next_vector_text scan _ rest hv, throw, throwThe, MonadExceptOf.throw,
        str_width, str_height, str_radius, str_color, str_position, str_normal]

theorem read_fields_bad {α : Type} (scan : List Nat → Option (α × List Nat)) (obj : Object α)
    (f : Field α) (fuel valcnt d : Nat) (t : List Nat) (hf : f.wf scan) (hkind : obj.kind ≤ 2)
    (hk : f.value.key ∉ required obj.kind) (hd : d = 44 ∨ d = 125) :
    read_fields scan (fuel + 1) obj valcnt (f.text (d :: t)) = .exit .unexpectedKey := by
  obtain ⟨hv, h1, h2, h3, h4⟩ := hf
  have hend : number_end (f.w4 ++ d :: t) := number_end_white f.w4 d t h4 (by omega)
  have hpair : read_pair scan obj (f.w1 ++ 34 :: (f.value.key ++ 34 :: (f.w2 ++ 58 ::
      (f.w3 ++ f.value.text (f.w4 ++ d :: t))))) = .error .unexpectedKey := by
    simp only [read_pair, bind, Except.bind, skip_ws_white _ 34 _ h1 rfl, key_quoted,
      skip_ws_white _ 58 _ h2 rfl, expect_c_cons, skip_ws_value scan _ _ _ hv h3,
      read_value_bad scan obj f.value _ hv hkind hk hend]
  simp only [Field.text, read_fields, next_c, hpair]
  simp

theorem opening_object_kind {α : Type} (o : Opening α) (blk : Object α) :
    (o.object blk).kind = o.kind := by
  rw [Opening.object, foldl_store_kind]

/-- The test at the closing brace: the entry is taken when the number of values
counted is the one of the kind, and the exit is "Bad value count" otherwise. -/
theorem read_fields_close {α : Type} (scan : List Nat → Option (α × List Nat)) (obj : Object α)
    (fuel valcnt : Nat) (json : List Nat) (hk : obj.kind ≤ 2) :
    read_fields scan (fuel + 1) obj valcnt (125 :: json)
      = if valcnt = (required obj.kind).length then .ok (obj, json)
        else .exit .badValueCount := by
  have h3 : obj.kind = 0 ∨ obj.kind = 1 ∨ obj.kind = 2 := by omega
  rcases h3 with h | h | h <;>
    by_cases hv : valcnt = (required obj.kind).length <;>
    simp [read_fields, next_c, check_valcnt, h, required] <;>
    simp [h, required] at hv <;> simp [hv]

theorem fields_upto_append {α : Type} (a b : List (Field α)) (t : List Nat) :
    fields_upto (a ++ b) t = fields_upto a (fields_upto b t) := by
  induction a with
  | nil => rfl
  | cons f a ih =>
    show f.text (fields_upto (a ++ b) t) = f.text (fields_upto a (fields_upto b t))
    rw [ih]

theorem fields_text_upto {α : Type} (fs : List (Field α)) (rest : List Nat) :
    fields_text fs rest = fields_upto fs (125 :: rest) := by
  induction fs with
  | nil => rfl
  | cons f fs ih => simp only [fields_text, fields_upto, ih]

theorem required_le_three (kind : Nat) : (required kind).length ≤ 3 := by
  rcases kind with _ | _ | _ | n <;> simp [required]

/-- An entry of fields with permitted keys, as many as the kind requires, is
taken when there is room in the store, and a `]` after it ends the scene. -/
theorem read_scene_opening_accept {α : Type} (scan : List Nat → Option (α × List Nat))
    (fresh : Nat → Object α) (c : Context α) (o : Opening α) (fuel : Nat) (w5 rest : List Nat)
    (hc : c.wf scan) (ho : o.wf scan) (hfuel : c.entries.length + o.fields.length + 6 ≤ fuel)
    (heq : o.fields.length = (required o.kind).length) (hroom : c.entries.length < 128)
    (h5 : white w5) :
    read_scene scan fresh fuel (c.text (o.text (125 :: (w5 ++ 93 :: rest))))
      = .ok ((objects_of fresh 0 c.entries ++ [o.object (fresh c.entries.length)]).map some
          ++ [none]) := by
  rw [read_scene_opening scan fresh c o fuel _ hc (by omega)]
  have hlen := objects_of_length fresh 0 c.entries
  exact read_objects_opening_close scan fresh o (objects_of fresh 0 c.entries)
    (fuel - c.entries.length) 125 (w5 ++ 93 :: rest) w5 rest
    (o.object (fresh c.entries.length)) ho (Or.inr rfl) (by omega) h5 (by omega) (by
      obtain ⟨n, hn⟩ : ∃ n, fuel - c.entries.length - 1 - o.fields.length = n + 1 :=
        ⟨fuel - c.entries.length - 1 - o.fields.length - 1, by omega⟩
      rw [hn, hlen, read_fields_close scan _ n _ _ (by rw [opening_object_kind]; exact ho.1),
        opening_object_kind, if_pos heq])

/-- C11. In an entry that follows well-formed entries and whose fields so far
are permitted, a field `f` with one of the six keys and a value of its type
makes `read_scene` exit with "Unexpected key" when the key is not one of the
kind.  When it is, the inner loop stores the value in the member of the key and
goes on with the next field; and when the fields `fs` that follow complete the
entry without repeating the key of `f`, `read_scene` returns the store whose
object for the entry holds the value of `f`. -/
theorem read_scene_key_of_kind {α : Type} (scan : List Nat → Option (α × List Nat))
    (fresh : Nat → Object α) (c : Context α) (o : Opening α) (f : Field α) (fuel d : Nat)
    (t : List Nat) (hc : c.wf scan) (ho : o.wf scan) (hf : f.wf scan) (hd : d = 44 ∨ d = 125)
    (hfuel : c.entries.length + o.fields.length + 6 ≤ fuel) :
    (f.value.key ∉ required o.kind →
      read_scene scan fresh fuel (c.text (o.text (f.text (d :: t)))) = .exit .unexpectedKey) ∧
    (f.value.key ∈ required o.kind → ∀ blk n valcnt,
      read_fields scan (n + 1) (o.object blk) valcnt (f.text (d :: t))
        = read_fields scan n (f.value.store (o.object blk)) (valcnt + 1) (d :: t) ∧
      f.value.holds (f.value.store (o.object blk))) ∧
    (f.value.key ∈ required o.kind → ∀ (fs : List (Field α)) (w5 rest : List Nat),
      (∀ g, g ∈ fs → g.wf scan ∧ g.value.key ∈ required o.kind ∧ g.value.key ≠ f.value.key) →
      o.fields.length + 1 + fs.length = (required o.kind).length →
      c.entries.length < 128 → white w5 → c.entries.length + 9 ≤ fuel →
      ∃ obj, read_scene scan fresh fuel
            (c.text (o.text (f.text (fields_text fs (w5 ++ 93 :: rest)))))
          = .ok ((objects_of fresh 0 c.entries ++ [obj]).map some ++ [none]) ∧
        obj.kind = o.kind ∧ f.value.holds obj) := by
  refine ⟨?_, ?_, ?_⟩
  · intro hk
    rw [read_scene_opening scan fresh c o fuel _ hc (by omega)]
    apply read_objects_opening_exit scan fresh o _ _ 44 _ _ ho (Or.inl rfl) (by omega)
    obtain ⟨n, hn⟩ : ∃ n, fuel - c.entries.length - 1 - o.fields.length = n + 1 :=
      ⟨fuel - c.entries.length - 1 - o.fields.length - 1, by omega⟩
    rw [hn]
    exact read_fields_bad scan _ f n _ d t hf (by rw [opening_object_kind]; exact ho.1)
      (by rw [opening_object_kind]; exact hk) hd
  · intro hk blk n valcnt
    refine ⟨?_, holds_store_self _ _⟩
    have := read_fields_upto scan [f] (o.object blk) valcnt (n + 1) d t
      (fun g hg => by
        rw [List.mem_singleton] at hg
        subst hg
        exact ⟨hf, by rw [opening_object_kind]; exact hk⟩) hd (by simp)
    simpa [fields_upto] using this
  · intro hk fs w5 rest hfs hcount hroom h5 hfuel9
    have ho2 : Opening.wf scan ⟨o.kind, o.fields ++ f :: fs, o.w1, o.w2, o.w3, o.w4⟩ := by
      refine ⟨ho.1, ?_, ho.2.2.1, ho.2.2.2.1, ho.2.2.2.2.1, ho.2.2.2.2.2⟩
      intro g hg
      rcases List.mem_append.1 hg with hg | hg
      · exact ho.2.1 g hg
      · rcases List.mem_cons.1 hg with rfl | hg
        · exact ⟨hf, hk⟩
        · exact ⟨(hfs g hg).1, (hfs g hg).2.1⟩
    have hlen2 : (o.fields ++ f :: fs).length = (required o.kind).length := by
      rw [List.length_append, List.length_cons]
      omega
    have htext : o.text (f.text (fields_text fs (w5 ++ 93 :: rest)))
        = Opening.text ⟨o.kind, o.fields ++ f :: fs, o.w1, o.w2, o.w3, o.w4⟩
            (125 :: (w5 ++ 93 :: rest)) := by
      simp only [Opening.text, Opening.body, fields_upto_append, fields_upto, fields_text_upto]
    have h3 := required_le_three o.kind
    refine ⟨Opening.object ⟨o.kind, o.fields ++ f :: fs, o.w1, o.w2, o.w3, o.w4⟩
      (fresh c.entries.length), ?_, ?_, ?_⟩
    · rw [htext]
      exact read_scene_opening_accept scan fresh c _ fuel w5 rest hc ho2
        (by rw [hlen2]; omega) hlen2 hroom h5
    · exact opening_object_kind _ _
    · simp only [Opening.object, List.foldl_append, List.foldl_cons]
      exact holds_foldl_store fs f.value _ o.kind (fun g hg => ⟨(hfs g hg).2.1, (hfs g hg).2.2⟩)
        hk (holds_store_self _ _)

theorem sphere_opening_wf : sphere_opening.wf scan_decimal :=
  ⟨by decide, fun f hf => absurd hf (List.not_mem_nil f), white_nil, white_nil, white_nil,
    white_nil⟩

theorem color_position_wf : ∀ g, g ∈ color_position →
    g.wf scan_decimal ∧ g.value.key ∈ required sphere_opening.kind ∧
      g.value.key ≠ radius_one.value.key := by
  intro g hg
  simp only [color_position, List.mem_cons, List.mem_singleton, List.not_mem_nil,
    or_false] at hg
  rcases hg with rfl | rfl
  · exact ⟨⟨digits_wf 1 0 0 (by decide) (by decide) (by decide), white_nil, white_nil,
      white_nil, white_nil⟩, by decide, by decide⟩
  · exact ⟨⟨digits_wf 0 0 5 (by decide) (by decide) (by decide), white_nil, white_nil,
      white_nil, white_nil⟩, by decide, by decide⟩

/-- A witness for C11: at the head of a scene, the sphere entry
`{"type":"sphere","width":1}` makes `read_scene` exit, and the sphere entry
`{"type":"sphere","radius":1,"color":[1,0,0],"position":[0,0,5]}` is returned
as an object of kind 1 that holds the radius 1. -/
theorem read_scene_key_of_kind_witness :
    read_scene scan_decimal blank 10
        (first_entry.text (sphere_opening.text (width_one.text (125 :: [93]))))
      = .exit .unexpectedKey ∧
    (∃ obj, read_scene scan_decimal blank 10
          (first_entry.text (sphere_opening.text
            (radius_one.text (fields_text color_position ([] ++ 93 :: [])))))
        = .ok ((objects_of blank 0 first_entry.entries ++ [obj]).map some ++ [none]) ∧
      obj.kind = sphere_opening.kind ∧ radius_one.value.holds obj) ∧
    read_scene scan_decimal blank 10
        (first_entry.text (sphere_opening.text
          (radius_one.text (fields_text color_position ([] ++ 93 :: [])))))
      = .ok [some ⟨1, ⟨1, 0, 0⟩, 0, 0, 5, 1, 0, 0⟩, none] :=
  ⟨(read_scene_key_of_kind scan_decimal blank first_entry sphere_opening width_one 10 125 [93]
      first_entry_wf sphere_opening_wf
      ⟨scan_decimal_digit 1 (by decide), white_nil, white_nil, white_nil, white_nil⟩
      (Or.inr rfl) (by decide)).1 (by decide),
   (read_scene_key_of_kind scan_decimal blank first_entry sphere_opening radius_one 10 125 [93]
      first_entry_wf sphere_opening_wf
      ⟨scan_decimal_digit 1 (by decide), white_nil, white_nil, white_nil, white_nil⟩
      (Or.inr rfl) (by decide)).2.2 (by decide) color_position [] [] color_position_wf
      (by decide) (by decide) white_nil (by decide),
   by decide!⟩

/-- C12. At the closing brace of an entry of camera, sphere or plane kind the
inner loop returns the object iff the number of values counted is the one of
the kind (2, 3, 3), and exits with "Bad value count" otherwise.  For an entry
that follows well-formed entries and is made of fields with permitted keys and
values of their types, in any number: with another number of fields than the
kind requires `read_scene` exits with "Bad value count"; with that number, and
room in the store, the object is stored and a `]` after it ends the scene. -/
theorem read_scene_value_count {α : Type} (scan : List Nat → Option (α × List Nat))
    (fresh : Nat → Object α) (c : Context α) (o : Opening α) (fuel : Nat) (hc : c.wf scan)
    (ho : o.wf scan) (hfuel : c.entries.length + o.fields.length + 6 ≤ fuel) :
    (∀ (obj : Object α) n valcnt json, obj.kind ≤ 2 →
      (read_fields scan (n + 1) obj valcnt (125 :: json) = .ok (obj, json)
        ↔ valcnt = (required obj.kind).length) ∧
      (valcnt ≠ (required obj.kind).length →
        read_fields scan (n + 1) obj valcnt (125 :: json) = .exit .badValueCount)) ∧
    (o.fields.length ≠ (required o.kind).length → ∀ rest,
      read_scene scan fresh fuel (c.text (o.text (125 :: rest))) = .exit .badValueCount) ∧
    (o.fields.length = (required o.kind).length → c.entries.length < 128 → ∀ w5 rest, white w5 →
      read_scene scan fresh fuel (c.text (o.text (125 :: (w5 ++ 93 :: rest))))
        = .ok ((objects_of fresh 0 c.entries ++ [o.object (fresh c.entries.length)]).map some
            ++ [none])) := by
  refine ⟨?_, ?_, ?_⟩
  · intro obj n valcnt json hk
    rw [read_fields_close scan obj n valcnt json hk]
    by_cases hv : valcnt = (required obj.kind).length
    · simp [hv]
    · simp [hv]
  · intro hne rest
    rw [read_scene_opening scan fresh c o fuel _ hc (by omega)]
    apply read_objects_opening_exit scan fresh o _ _ 125 _ _ ho (Or.inr rfl) (by omega)
    obtain ⟨n, hn⟩ : ∃ n, fuel - c.entries.length - 1 - o.fields.length = n + 1 :=
      ⟨fuel - c.entries.length - 1 - o.fields.length - 1, by omega⟩
    rw [hn, read_fields_close scan _ n _ rest (by rw [opening_object_kind]; exact ho.1),
      opening_object_kind, if_neg hne]
  · intro heq hroom w5 rest h5
    rw [read_scene_opening scan fresh c o fuel _ hc (by omega)]
    have hlen := objects_of_length fresh 0 c.entries
    have := read_objects_opening_close scan fresh o (objects_of fresh 0 c.entries)
      (fuel - c.entries.length) 125 (w5 ++ 93 :: rest) w5 rest
      (o.object (fresh c.entries.length)) ho (Or.inr rfl) (by omega) h5 (by omega) (by
        obtain ⟨n, hn⟩ : ∃ n, fuel - c.entries.length - 1 - o.fields.length = n + 1 :=
          ⟨fuel - c.entries.length - 1 - o.fields.length - 1, by omega⟩
        rw [hn, hlen, read_fields_close scan _ n _ _ (by rw [opening_object_kind]; exact ho.1),
          opening_object_kind, if_pos heq])
    exact this

theorem camera_one_field_wf : camera_one_field.wf scan_decimal := by
  refine ⟨by decide, ?_, white_nil, white_nil, white_nil, white_nil⟩
  intro f hf
  simp only [camera_one_field, List.mem_singleton] at hf
  subst hf
  exact ⟨⟨scan_decimal_digit 1 (by decide), white_nil, white_nil, white_nil, white_nil⟩,
    by decide⟩

theorem camera_two_widths_wf : camera_two_widths.wf scan_decimal := by
  refine ⟨by decide, ?_, white_nil, white_nil, white_nil, white_nil⟩
  intro f hf
  simp only [camera_two_widths, List.mem_cons, List.mem_singleton, List.not_mem_nil,
    or_false] at hf
  rcases hf with rfl | rfl
  · exact ⟨⟨scan_decimal_digit 1 (by decide), white_nil, white_nil, white_nil, white_nil⟩,
      by decide⟩
  · exact ⟨⟨scan_decimal_digit 2 (by decide), white_nil, white_nil, white_nil, white_nil⟩,
      by decide⟩

/-- A witness for C12: the camera entry with the single field `"width":1` is
rejected, the camera entry with the two fields `"width":1,"width":2` is taken. -/
theorem read_scene_value_count_witness :
    read_scene scan_decimal blank 10 (first_entry.text (camera_one_field.text (125 :: [93])))
      = .exit .badValueCount ∧
    read_scene scan_decimal blank 10
        (first_entry.text (camera_two_widths.text (125 :: ([] ++ 93 :: []))))
      = .ok ((objects_of blank 0 first_entry.entries
          ++ [camera_two_widths.object (blank first_entry.entries.length)]).map some ++ [none]) :=
  ⟨(read_scene_value_count scan_decimal blank first_entry camera_one_field 10 first_entry_wf
      camera_one_field_wf (by decide)).2.1 (by decide) [93],
   (read_scene_value_count scan_decimal blank first_entry camera_two_widths 10 first_entry_wf
      camera_two_widths_wf (by decide)).2.2 (by decide) (by decide) [] [] white_nil⟩

/-! ## The capacity of the store -/

/-- With more entries than the store has room for, the outer loop exits at the
entry that would be the 129th object. -/
theorem read_objects_overflow {α : Type} (scan : List Nat → Option (α × List Nat))
    (fresh : Nat → Object α) (e : Entry α) (es : List (Entry α)) (objects : List (Object α))
    (fuel : Nat) (rest : List Nat) (hwf : ∀ x, x ∈ e :: es → x.wf scan)
    (hlen : objects.length ≤ 128) (hover : 128 < objects.length + (es.length + 1))
    (hfuel : es.length + 5 ≤ fuel) :
    read_objects scan fresh fuel objects (entries_text e es rest)
      = .exit .objectCountExceeded := by
  induction es generalizing e objects fuel with
  | nil =>
    obtain ⟨fuel, rfl⟩ : ∃ n, fuel = n + 1 := ⟨fuel - 1, by omega⟩
    have he := hwf e (List.mem_cons_self e [])
    have hcount : objects.length + 1 > 128 := by simp at hover; omega
    have h123 : ¬ (123 : Nat) = 93 := by decide
    obtain ⟨htype, hfields⟩ :=
      read_entry_text scan e (fresh objects.length) fuel (93 :: rest) he
        (by simp at hfuel; omega)
    rw [show entries_text e [] rest = 123 :: e.body (93 :: rest) from rfl]
    simp only [read_objects, h123, if_false, if_true, htype, hfields, hcount]
  | cons e1 es ih =>
    obtain ⟨fuel, rfl⟩ : ∃ n, fuel = n + 1 := ⟨fuel - 1, by omega⟩
    have he := hwf e (List.mem_cons_self e _)
    simp only [List.length_cons] at hover hfuel
    have h123 : ¬ (123 : Nat) = 93 := by decide
    obtain ⟨htype, hfields⟩ :=
      read_entry_text scan e (fresh objects.length) fuel
        (44 :: (e.w6 ++ entries_text e1 es rest)) he (by omega)
    rw [show entries_text e (e1 :: es) rest
      = 123 :: e.body (44 :: (e.w6 ++ entries_text e1 es rest)) from rfl]
    by_cases hcount : objects.length + 1 > 128
    · simp only [read_objects, h123, if_false, if_true, htype, hfields, hcount]
    · have hsep : read_separator (e.w5 ++ 44 :: (e.w6 ++ entries_text e1 es rest))
          = .ok (none, entries_text e1 es rest) := by
        obtain ⟨r, hr⟩ := entries_text_head e1 es rest
        rw [hr]
        exact read_separator_comma e.w5 e.w6 _ he.2.2.2.2.2.2.2.1 he.2.2.2.2.2.2.2.2
      have ih1 := ih e1 (objects ++ [e.object (fresh objects.length)]) fuel
        (fun x hx => hwf x (List.mem_cons_of_mem _ hx))
        (by simp only [List.length_append, List.length_cons, List.length_nil]; omega)
        (by simp only [List.length_append, List.length_cons, List.length_nil]; omega)
        (by omega)
      simp only [read_objects, h123, if_false, if_true, htype, hfields, hcount, hsep, ih1]

/-- Every slot that the outer loop writes has an index of at most 128, whatever
the input. -/
theorem store_writes_bound {α : Type} (scan : List Nat → Option (α × List Nat))
    (fresh : Nat → Object α) (fuel : Nat) (objects : List (Object α)) (json : List Nat)
    (hlen : objects.length ≤ 128) :
    ∀ i, i ∈ store_writes scan fresh fuel objects json → i ≤ 128 := by
  induction fuel generalizing objects json with
  | zero => intro i hi; simp [store_writes] at hi
  | succ fuel ih =>
    intro i hi
    cases json with
    | nil => exact ih objects [] hlen i (by simpa [store_writes] using hi)
    | cons c json =>
      by_cases h93 : c = 93
      · simp [store_writes, h93] at hi
      · by_cases h123 : c = 123
        · subst h123
          simp only [store_writes, show (123 : Nat) = 93 ↔ False by decide, if_false,
            if_true] at hi
          cases hT : read_type json with
          | error e => rw [hT] at hi; simp at hi
          | ok r =>
            obtain ⟨kind, j1⟩ := r
            rw [hT] at hi
            simp only [List.mem_cons] at hi
            rcases hi with rfl | hi
            · exact hlen
            · cases hF : read_fields scan fuel { fresh objects.length with kind := kind } 0 j1
                with
              | fuel => rw [hF] at hi; simp at hi
              | exit e => rw [hF] at hi; simp at hi
              | ok r =>
                obtain ⟨obj, j2⟩ := r
                rw [hF] at hi
                simp only at hi
                by_cases hcount : objects.length + 1 > 128
                · rw [if_pos hcount] at hi; simp at hi
                · rw [if_neg hcount] at hi
                  cases hS : read_separator j2 with
                  | error e => rw [hS] at hi; simp at hi
                  | ok r =>
                    obtain ⟨sep, j3⟩ := r
                    rw [hS] at hi
                    cases sep with
                    | none =>
                      exact ih (objects ++ [obj]) j3
                        (by simp only [List.length_append, List.length_cons, List.length_nil]
                            omega) i hi
                    | some u =>
                      simp only [List.mem_singleton] at hi
                      omega
        · exact ih objects json hlen i (by simpa [store_writes, h93, h123] using hi)

/-- C13. A well-formed scene of exactly 128 entries is read to a store of 128
objects and the `NULL`, 129 slots in all; a well-formed scene of 129 entries or
more makes `read_scene` exit with "128 object count exceeded"; and whatever the
input, no slot of index 129 or more is written. -/
theorem read_scene_capacity {α : Type} (scan : List Nat → Option (α × List Nat))
    (fresh : Nat → Object α) (w0 w1 : List Nat) (e : Entry α) (es : List (Entry α))
    (rest : List Nat) (fuel : Nat) (h0 : white w0) (h1 : white w1)
    (hwf : ∀ x, x ∈ e :: es → x.wf scan) (hfuel : (e :: es).length + 4 ≤ fuel) :
    ((e :: es).length = 128 →
      read_scene scan fresh fuel (scene_text w0 w1 e es rest)
        = .ok ((objects_of fresh 0 (e :: es)).map some ++ [none]) ∧
      ((objects_of fresh 0 (e :: es)).map some ++ [none]).length = 129) ∧
    (129 ≤ (e :: es).length →
      read_scene scan fresh fuel (scene_text w0 w1 e es rest) = .exit .objectCountExceeded) ∧
    (∀ n json i, i ∈ store_writes scan fresh n [] json → i < 129) := by
  simp only [List.length_cons] at hfuel
  refine ⟨?_, ?_, ?_⟩
  · intro hlen
    simp only [List.length_cons] at hlen
    refine ⟨read_scene_text scan fresh w0 w1 e es rest fuel h0 h1 hwf (by omega) (by omega), ?_⟩
    simp [objects_of_length, hlen]
  · intro hlen
    simp only [List.length_cons] at hlen
    obtain ⟨r, hr⟩ := entries_text_head e es rest
    have hskip : skip_ws (w1 ++ entries_text e es rest) = .ok (entries_text e es rest) := by
      rw [hr]; exact skip_ws_white w1 123 _ h1 rfl
    simp only [read_scene, scene_text, skip_ws_white w0 91 _ h0 rfl, expect_c_cons, hskip]
    exact read_objects_overflow scan fresh e es [] fuel rest hwf (by simp)
      (by simp only [List.length_nil]; omega) (by omega)
  · intro n json i hi
    have := store_writes_bound scan fresh n [] json (by simp) i hi
    omega

theorem example_cameras_wf (n : Nat) :
    ∀ x, x ∈ example_camera :: List.replicate n example_camera → x.wf scan_decimal := by
  intro x hx
  have : x = example_camera := by
    rcases List.mem_cons.1 hx with h | h
    · exact h
    · exact List.eq_of_mem_replicate h
  rw [this]
  exact example_camera_wf

/-- A witness for C13: a scene of 128 cameras is read into 129 slots, and a scene
of 129 cameras is rejected. -/
theorem read_scene_capacity_witness :
    (read_scene scan_decimal blank 200
        (scene_text [] [] example_camera (List.replicate 127 example_camera) [])
      = .ok ((objects_of blank 0 (example_camera :: List.replicate 127 example_camera)).map some
          ++ [none]) ∧
     ((objects_of blank 0 (example_camera :: List.replicate 127 example_camera)).map some
          ++ [none]).length = 129) ∧
    read_scene scan_decimal blank 200
        (scene_text [] [] example_camera (List.replicate 128 example_camera) [])
      = .exit .objectCountExceeded :=
  ⟨(read_scene_capacity scan_decimal blank [] [] example_camera
      (List.replicate 127 example_camera) [] 200 white_nil white_nil (example_cameras_wf 127)
      (by simp)).1 (by simp),
   (read_scene_capacity scan_decimal blank [] [] example_camera
      (List.replicate 128 example_camera) [] 200 white_nil white_nil (example_cameras_wf 128)
      (by simp)).2.1 (by simp)⟩

/-! ## The end of the input -/

/-- At the end of the input the outer loop goes round until the fuel is used up,
whatever the fuel. -/
theorem read_objects_eof {α : Type} (scan : List Nat → Option (α × List Nat))
    (fresh : Nat → Object α) (fuel : Nat) (objects : List (Object α)) :
    read_objects scan fresh fuel objects [] = .fuel := by
  induction fuel with
  | zero => rfl
  | succ fuel ih => simpa [read_objects] using ih

/-- One round of the outer loop on a well-formed entry followed by a comma. -/
theorem read_objects_after_comma {α : Type} (scan : List Nat → Option (α × List Nat))
    (fresh : Nat → Object α) (e : Entry α) (objects : List (Object α)) (fuel : Nat)
    (t : List Nat) (he : e.wf scan) (hlen : objects.length < 128) (hfuel : 4 ≤ fuel) :
    read_objects scan fresh (fuel + 1) objects (123 :: e.body (44 :: t))
      = match skip_ws t with
        | .error x => .exit x
        | .ok json =>
          read_objects scan fresh fuel (objects ++ [e.object (fresh objects.length)]) json := by
  obtain ⟨htype, hfields⟩ := read_entry_text scan e (fresh objects.length) fuel (44 :: t) he hfuel
  have hcount : ¬ objects.length + 1 > 128 := by omega
  have h123 : ¬ (123 : Nat) = 93 := by decide
  have hsep : read_separator (e.w5 ++ 44 :: t)
      = match skip_ws t with
        | .error x => .error x
        | .ok json => .ok (none, json) := by
    simp only [read_separator, bind, Except.bind, skip_ws_white _ 44 _ he.2.2.2.2.2.2.2.1 rfl,
      next_c, if_true, pure, Except.pure]
    cases skip_ws t <;> rfl
  simp only [read_objects, h123, if_false, if_true, htype, hfields, hcount, hsep]
  cases skip_ws t <;> rfl

theorem text_after_comma :
    first_entry.text (123 :: example_camera.body (44 :: [32]))
      = bytes "[ \x7b\"type\":\"camera\",\"width\":1, \"height\" : 2\x7d , " := by
  decide

theorem text_after_comma_stray :
    first_entry.text (123 :: example_camera.body (44 :: [32, 120]))
      = bytes "[ \x7b\"type\":\"camera\",\"width\":1, \"height\" : 2\x7d , x" := by
  decide

/-- C19, on the code: on the text `[` alone, and on a text that ends after the
comma that follows an entry, `read_scene` exits with "Unexpected end of file";
but on `[x`, and on a text that ends with a stray byte after that comma, the
outer loop never ends: it uses up every fuel, because `fgetc` returns `EOF`
again and again and neither test of the loop matches. -/
theorem read_scene_end_of_input :
    (∀ fuel, read_scene scan_decimal blank fuel (bytes "[") = .exit .unexpectedEof) ∧
    (∀ fuel, read_scene scan_decimal blank (fuel + 5)
        (bytes "[ \x7b\"type\":\"camera\",\"width\":1, \"height\" : 2\x7d , ")
      = .exit .unexpectedEof) ∧
    (∀ fuel, read_scene scan_decimal blank fuel (bytes "[x") = .fuel) ∧
    (∀ fuel, read_scene scan_decimal blank (fuel + 5)
        (bytes "[ \x7b\"type\":\"camera\",\"width\":1, \"height\" : 2\x7d , x")
      = .fuel) := by
  refine ⟨?_, ?_, ?_, ?_⟩
  · intro fuel
    rfl
  · intro fuel
    rw [← text_after_comma,
      read_scene_context scan_decimal blank first_entry (fuel + 5) _ first_entry_wf
        (by simp [first_entry])]
    exact read_objects_after_comma scan_decimal blank example_camera [] (fuel + 4) [32]
      example_camera_wf (by simp) (by omega)
  · intro fuel
    have h : read_scene scan_decimal blank fuel (bytes "[x")
        = read_objects scan_decimal blank fuel [] [120] := rfl
    rw [h]
    cases fuel with
    | zero => rfl
    | succ n =>
      rw [read_objects_skip scan_decimal blank n [] 120 [] (by decide) (by decide)]
      exact read_objects_eof scan_decimal blank n []
  · intro fuel
    rw [← text_after_comma_stray,
      read_scene_context scan_decimal blank first_entry (fuel + 5) _ first_entry_wf
        (by simp [first_entry])]
    have h := read_objects_after_comma scan_decimal blank example_camera [] (fuel + 4) [32, 120]
      example_camera_wf (by simp) (by omega)
    have hs : skip_ws [32, 120] = .ok [120] := rfl
    rw [hs] at h
    have h2 : read_objects scan_decimal blank (fuel + 5 - first_entry.entries.length)
        (objects_of blank 0 first_entry.entries) (123 :: example_camera.body (44 :: [32, 120]))
        = read_objects scan_decimal blank (fuel + 3 + 1)
            ([] ++ [example_camera.object (blank ([] : List (Object ℚ)).length)]) [120] := h
    rw [h2, read_objects_skip scan_decimal blank (fuel + 3) _ 120 [] (by decide) (by decide)]
    exact read_objects_eof scan_decimal blank (fuel + 3) _

/-! ## The fields of an accepted entry -/

/-- When the inner loop accepts fields with values of their types, every key is
one of the kind, the count is the one of the kind, and the object holds the
values in the order of the text. -/
theorem read_fields_accepts {α : Type} (scan : List Nat → Option (α × List Nat))
    (fs : List (Field α)) (obj obj1 : Object α) (valcnt fuel : Nat) (rest json1 : List Nat)
    (hfs : ∀ f, f ∈ fs → f.wf scan) (hkind : obj.kind ≤ 2)
    (h : read_fields scan fuel obj valcnt (fields_text fs rest) = .ok (obj1, json1)) :
    (∀ f, f ∈ fs → f.value.key ∈ required obj.kind) ∧
    valcnt + fs.length = (required obj.kind).length ∧
    obj1 = fs.foldl (fun o f => f.value.store o) obj ∧ json1 = rest := by
  induction fs generalizing obj valcnt fuel with
  | nil =>
    cases fuel with
    | zero => simp [read_fields] at h
    | succ n =>
      rw [show fields_text ([] : List (Field α)) rest = 125 :: rest from rfl,
        read_fields_close scan obj n valcnt rest hkind] at h
      by_cases hv : valcnt = (required obj.kind).length
      · rw [if_pos hv] at h
        simp only [Res.ok.injEq, Prod.mk.injEq] at h
        exact ⟨fun f hf => absurd hf (List.not_mem_nil f), by simpa using hv, h.1.symm, h.2.symm⟩
      · rw [if_neg hv] at h
        cases h
  | cons f fs ih =>
    cases fuel with
    | zero => simp [read_fields] at h
    | succ n =>
      obtain ⟨d, t, ht, hd⟩ := fields_text_head fs rest
      rw [show fields_text (f :: fs) rest = f.text (fields_text fs rest) from rfl, ht] at h
      by_cases hk : f.value.key ∈ required obj.kind
      · have step : read_fields scan (n + 1) obj valcnt (f.text (d :: t))
            = read_fields scan n (f.value.store obj) (valcnt + 1) (d :: t) :=
          read_fields_upto scan [f] obj valcnt (n + 1) d t
            (fun g hg => by
              rw [List.mem_singleton] at hg
              subst hg
              exact ⟨hfs g (List.mem_cons_self g fs), hk⟩)
            hd (by simp)
        rw [step, ← ht] at h
        obtain ⟨h1, h2, h3, h4⟩ := ih (f.value.store obj) (valcnt + 1) n
          (fun g hg => hfs g (List.mem_cons_of_mem _ hg)) (by rw [store_kind]; exact hkind) h
        rw [store_kind] at h1 h2
        refine ⟨?_, ?_, h3, h4⟩
        · intro g hg
          rcases List.mem_cons.1 hg with rfl | hg
          · exact hk
          · exact h1 g hg
        · simp only [List.length_cons]
          omega
      · rw [read_fields_bad scan obj f n valcnt d t (hfs f (List.mem_cons_self f fs)) hkind hk
          hd] at h
        cases h

/-- When the outer loop returns a store, the slot of the entry at its head holds
the object that the inner loop returned for it. -/
theorem read_objects_entry_slot {α : Type} (scan : List Nat → Option (α × List Nat))
    (fresh : Nat → Object α) (fuel : Nat) (objects : List (Object α)) (json : List Nat)
    (store : List (Option (Object α)))
    (h : read_objects scan fresh (fuel + 1) objects (123 :: json) = .ok store) :
    ∃ kind j1 obj j2, read_type json = .ok (kind, j1) ∧
      read_fields scan fuel { fresh objects.length with kind := kind } 0 j1 = .ok (obj, j2) ∧
      store.get? objects.length = some (some obj) := by
  obtain ⟨kind, j1, obj, j2, hT, hF, hstore⟩ :=
    read_objects_entry_inv scan fresh fuel objects json store h
  refine ⟨kind, j1, obj, j2, hT, hF, ?_⟩
  rcases hstore with hstore | ⟨j3, hnext⟩
  · rw [hstore, show (objects ++ [obj]).map some ++ [none]
      = objects.map some ++ some obj :: [none] by simp]
    exact get_after_map objects _ _
  · obtain ⟨more, hmore⟩ := read_objects_extends scan fresh fuel _ _ _ hnext
    rw [hmore, show (objects ++ [obj] ++ more).map some ++ [none]
      = objects.map some ++ some obj :: (more.map some ++ [none]) by simp]
    exact get_after_map objects _ _

/-- Keys without repetition, all among the required ones and as many as them,
are all the required ones. -/
theorem keys_cover {α : Type} (fs : List (Field α)) (kind : Nat)
    (hk : ∀ f, f ∈ fs → f.value.key ∈ required kind)
    (hlen : fs.length = (required kind).length)
    (hnd : (fs.map (fun f => f.value.key)).Nodup) :
    ∀ k, k ∈ required kind → ∃ f, f ∈ fs ∧ f.value.key = k := by
  have hsub : fs.map (fun f => f.value.key) ⊆ required kind := by
    intro k hk1
    obtain ⟨f, hf, rfl⟩ := List.mem_map.1 hk1
    exact hk f hf
  have hperm : (fs.map (fun f => f.value.key)).Perm (required kind) :=
    (List.subperm_of_subset hnd hsub).perm_of_length_le (by simp [hlen])
  intro k hk1
  obtain ⟨f, hf, hfk⟩ := List.mem_map.1 (hperm.mem_iff.2 hk1)
  exact ⟨f, hf, hfk⟩

/-- C18, as amended. For an entry that `read_scene` accepts, made of fields with
values of their types (the first ones with keys of the kind, the others with any
of the six keys): the slot of the entry holds an object of the kind, every key
is one of the kind, and the number of fields is the number of required fields of
the kind; when no key is repeated, every required field of the kind was supplied
and the object holds the value supplied for it. -/
theorem read_scene_fields_supplied {α : Type} (scan : List Nat → Option (α × List Nat))
    (fresh : Nat → Object α) (c : Context α) (o : Opening α) (fs : List (Field α))
    (fuel : Nat) (rest : List Nat) (store : List (Option (Object α))) (hc : c.wf scan)
    (ho : o.wf scan) (hfs : ∀ f, f ∈ fs → f.wf scan)
    (hfuel : c.entries.length + o.fields.length + 4 ≤ fuel)
    (h : read_scene scan fresh fuel (c.text (o.text (fields_text fs rest))) = .ok store) :
    ∃ obj, store.get? c.entries.length = some (some obj) ∧ obj.kind = o.kind ∧
      (∀ f, f ∈ o.fields ++ fs → f.value.key ∈ required o.kind) ∧
      (o.fields ++ fs).length = (required o.kind).length ∧
      (((o.fields ++ fs).map (fun f => f.value.key)).Nodup →
        ∀ k, k ∈ required o.kind →
          ∃ f, f ∈ o.fields ++ fs ∧ f.value.key = k ∧ f.value.holds obj) := by
  rw [read_scene_opening scan fresh c o fuel (fields_text fs rest) hc (by omega)] at h
  obtain ⟨n, hn⟩ : ∃ n, fuel - c.entries.length = n + 1 :=
    ⟨fuel - c.entries.length - 1, by omega⟩
  rw [hn] at h
  obtain ⟨kind, j1, obj, j2, hT, hF, hslot⟩ :=
    read_objects_entry_slot scan fresh n (objects_of fresh 0 c.entries)
      (o.body (fields_text fs rest)) store h
  obtain ⟨d, t, ht, hd⟩ := fields_text_head fs rest
  rw [ht, read_type_opening scan o d t ho hd] at hT
  simp only [Except.ok.injEq, Prod.mk.injEq] at hT
  obtain ⟨hkind, hj1⟩ := hT
  subst hkind
  subst hj1
  rw [read_fields_opening scan o _ n d t ho hd (by omega), ← ht] at hF
  rw [objects_of_length] at hslot hF
  obtain ⟨hk, hcount, hobj, _⟩ :=
    read_fields_accepts scan fs _ obj _ _ rest j2 hfs
      (by rw [opening_object_kind]; exact ho.1) hF
  rw [opening_object_kind] at hk hcount
  have hobj1 : obj = (o.fields ++ fs).foldl (fun x f => f.value.store x)
      { fresh c.entries.length with kind := o.kind } := by
    rw [hobj, List.foldl_append]
    rfl
  have hall : ∀ f, f ∈ o.fields ++ fs → f.value.key ∈ required o.kind := by
    intro f hf
    rcases List.mem_append.1 hf with hf | hf
    · exact (ho.2.1 f hf).2
    · exact hk f hf
  have hlen : (o.fields ++ fs).length = (required o.kind).length := by
    rw [List.length_append]
    exact hcount
  refine ⟨obj, hslot, ?_, hall, hlen, ?_⟩
  · rw [hobj1, foldl_store_kind]
  · intro hnd k hk1
    obtain ⟨f, hf, hfk⟩ := keys_cover (o.fields ++ fs) o.kind hall hlen hnd k hk1
    refine ⟨f, hf, hfk, ?_⟩
    rw [hobj1]
    exact holds_fields (o.fields ++ fs) _ o.kind hall hnd f hf

theorem height_two_wf : ∀ f, f ∈ [height_two] → f.wf scan_decimal := by
  intro f hf
  rw [List.mem_singleton] at hf
  subst hf
  exact ⟨scan_decimal_digit 2 (by decide), white_nil, white_nil, white_nil, white_nil⟩

/-- A witness for C18 as amended: the entry
`{"type":"camera","width":1,"height":2}`. -/
theorem read_scene_fields_supplied_witness :
    ∃ obj, ([some ⟨0, ⟨0, 0, 0⟩, 1, 2, 0, 0, 0, 0⟩, none] : List (Option (Object ℚ))).get?
          first_entry.entries.length = some (some obj) ∧
      obj.kind = camera_one_field.kind ∧
      (∀ f, f ∈ camera_one_field.fields ++ [height_two] →
        f.value.key ∈ required camera_one_field.kind) ∧
      (camera_one_field.fields ++ [height_two]).length
        = (required camera_one_field.kind).length ∧
      (((camera_one_field.fields ++ [height_two]).map (fun f => f.value.key)).Nodup →
        ∀ k, k ∈ required camera_one_field.kind →
          ∃ f, f ∈ camera_one_field.fields ++ [height_two] ∧ f.value.key = k ∧
            f.value.holds obj) :=
  read_scene_fields_supplied scan_decimal blank first_entry camera_one_field [height_two] 10
    [93] _ first_entry_wf camera_one_field_wf height_two_wf (by decide) (by decide!)

/-- C18, a counterexample: the entry `{"type":"camera","width":1,"width":2}` is
accepted though "height", a required key of the camera, is none of its keys;
the member `height` of the object keeps what the block held before, 7 in a block
of sevens and 0 in a block of zeros. -/
theorem read_scene_repeated_key :
    first_entry.text (camera_two_widths.text (125 :: [93]))
      = bytes "[ \x7b\"type\":\"camera\",\"width\":1,\"width\":2\x7d]" ∧
    str_height ∈ required camera_two_widths.kind ∧
    str_height ∉ camera_two_widths.fields.map (fun f => f.value.key) ∧
    read_scene scan_decimal garbage 10 (first_entry.text (camera_two_widths.text (125 :: [93])))
      = .ok [some ⟨0, ⟨7, 7, 7⟩, 2, 7, 7, 7, 7, 7⟩, none] ∧
    read_scene scan_decimal blank 10 (first_entry.text (camera_two_widths.text (125 :: [93])))
      = .ok [some ⟨0, ⟨0, 0, 0⟩, 2, 0, 0, 0, 0, 0⟩, none] := by
  refine ⟨by decide, by decide, by decide, by decide!, by decide!⟩

end Raycast
